import Mathlib

/-!
# bike_shadows and screenruler

A shallow embedding of the OBJ loader and the renderers of
`src/bike_shadows` (`objmodel.h`, `objmodel.cpp`, `simplerenderwindow.cpp`,
`shadowrenderwindow.cpp`) and of the mark list of `src/screenruler`
(`screenruler.h`, `screenruler.cpp`).

Conventions of the embedding

* `float` / `qreal` values live in a type `F` carrying a linearly ordered field
  structure (exact arithmetic: no NaN, no infinities, no rounding).
* `int` values are `Int`.  Container sizes are `Nat` (a container never
  reaches `2^31` elements), token-derived values come from `QString::toInt`
  and stay inside the 32-bit range; the one subtraction applied to them wraps.
* Qt containers are lists; an access that Qt guards with an assertion
  (`operator[]`, `at`, `first`, `last`) returns `Except Fault _`.
  A `Fault` is an out-of-bounds access: an abort in a debug build of Qt,
  undefined behaviour in a release build.
* Library functions whose behaviour is not fixed by the repository
  (`QString::toFloat`, `QString::toInt`, `QVector3D::normalized`,
  `QColor::setRgbF`, `QFileInfo::absolutePath`) are fields of the record `Qt`.
  The file system is a function from paths to the lines `readLine` returns.
-/

namespace BikeShadows

/-! ## Qt strings and containers -/

/-- Out-of-bounds container access, or a call through a null buffer pointer. -/
inductive Fault where
  | indexOutOfRange
  | emptyContainer
  | nullPointer
  deriving DecidableEq, Repr

/-- White space as `QByteArray::simplified` sees it: space, `\t`, `\n`, `\v`, `\f`, `\r`. -/
def isSpace (c : Char) : Bool :=
  c.toNat == 32 || (9 ≤ c.toNat && c.toNat ≤ 13)

/-- Cut a character list at every separator, keeping empty pieces. -/
def splitChars (sep : Char → Bool) : List Char → List (List Char)
  | [] => [[]]
  | c :: cs =>
    if sep c then [] :: splitChars sep cs
    else
      match splitChars sep cs with
      | [] => [[c]]
      | w :: ws => (c :: w) :: ws

/-- Qt `QString::split(sep, behavior)` for a one-character separator;
`skipEmpty` is `QString::SkipEmptyParts`. -/
def split (sep : Char) (skipEmpty : Bool) (s : String) : List String :=
  let parts := splitChars (fun c => c == sep) s.data
  ((if skipEmpty then parts.filter (fun w => !w.isEmpty) else parts)).map String.mk

/-- Qt `QByteArray::simplified()`: white space stripped at both ends, every inner
run of white space replaced by one space. -/
def simplified (s : String) : String :=
  String.mk (List.intercalate [' '] ((splitChars isSpace s.data).filter (fun w => !w.isEmpty)))

/-- Qt `QString::startsWith`. -/
def startsWith (s pre : String) : Bool :=
  pre.data.isPrefixOf s.data

/-- Qt `QList::first()` / `QVector::first()`. -/
def first {α : Type} : List α → Except Fault α
  | [] => .error .emptyContainer
  | x :: _ => .ok x

/-- Qt `QList::last()`. -/
def last {α : Type} : List α → Except Fault α
  | [] => .error .emptyContainer
  | [x] => .ok x
  | _ :: y :: ys => last (y :: ys)

/-- Qt `QList::operator[](int)` / `QVector::at(int)`. -/
def itemAt {α : Type} (xs : List α) (i : Int) : Except Fault α :=
  if 0 ≤ i then
    match xs.get? i.toNat with
    | some x => .ok x
    | none => .error .indexOutOfRange
  else .error .indexOutOfRange

/-- Qt `QMap<K,V>`: an association list in which the first entry of a key is the
one `value` returns (the most recently inserted one). -/
structure QMap (K V : Type) where
  entries : List (K × V)
  deriving DecidableEq, Repr

namespace QMap

variable {K V : Type} [DecidableEq K]

/-- Default-constructed map. -/
def empty : QMap K V := ⟨[]⟩

/-- Qt `QMap::isEmpty()`. -/
def isEmpty (m : QMap K V) : Bool := m.entries.isEmpty

/-- Qt `QMap::contains(key)`. -/
def contains (m : QMap K V) (k : K) : Bool := m.entries.any (fun e => e.1 == k)

/-- Qt `QMap::value(key)`: the stored value, or the default-constructed one. -/
def value (m : QMap K V) (k : K) (dflt : V) : V :=
  match m.entries.find? (fun e => e.1 == k) with
  | some e => e.2
  | none => dflt

/-- Assignment `map[key] = v`: replaces the value of an existing key. -/
def assign (m : QMap K V) (k : K) (v : V) : QMap K V :=
  ⟨(k, v) :: m.entries.filter (fun e => !(e.1 == k))⟩

/-- Qt `QMap::unite(other)`: the entries of `other` are inserted after the
existing ones, so they are the ones `value` finds. -/
def unite (m other : QMap K V) : QMap K V := ⟨other.entries ++ m.entries⟩

end QMap

/-- Two's-complement wrap of an `int` result. -/
def wrapInt32 (n : Int) : Int := (n + 2147483648) % 4294967296 - 2147483648

/-! ## Data model (`objmodel.h`) -/

/-- Qt `QVector3D`. -/
structure QVector3D (F : Type) where
  x : F
  y : F
  z : F
  deriving DecidableEq, Repr

/-- Qt `QColor` as read back through `redF`, `greenF`, `blueF`; a
default-constructed colour is invalid and black. -/
structure QColor (F : Type) where
  isValid : Bool
  redF : F
  greenF : F
  blueF : F
  deriving DecidableEq, Repr

/-- One axis of the bounding box, `struct { float min, max; }`. -/
structure Extent (F : Type) where
  min : F
  max : F
  deriving DecidableEq, Repr

/-- The struct `BoundingBox`. -/
structure BoundingBox (F : Type) where
  x : Extent F
  y : Extent F
  z : Extent F
  deriving DecidableEq, Repr

/-- The colours of a material. -/
structure MaterialColor (F : Type) where
  ambient : QColor F
  diffuse : QColor F
  specular : QColor F
  deriving DecidableEq, Repr

/-- The intensities of a material. -/
structure MaterialIntensity (F : Type) where
  ambient : F
  diffuse : F
  specular : F
  deriving DecidableEq, Repr

/-- The struct `ObjModel::Part::material`. -/
structure Material (F : Type) where
  color : MaterialColor F
  intensity : MaterialIntensity F
  brightness : F
  opacity : F
  deriving DecidableEq, Repr

/-- The struct `ObjModel::Part`. -/
structure Part (F : Type) where
  type : Int
  start : Int
  length : Int
  material : Material F
  deriving DecidableEq, Repr

/-- The enum `ObjModel::RenderMode`. -/
inductive RenderMode where
  | ShadowMode
  | SceneMode
  deriving DecidableEq, Repr

/-- The class `ObjModel`: a buffer is `none` while the pointer is null, otherwise it
holds the data uploaded by `allocate`. -/
structure ObjModel (F : Type) where
  m_vertexBuffer : Option (List (QVector3D F))
  m_indexBuffer : Option (List Int)
  m_normalOffset : Int
  m_parts : List (Part F)
  m_boundingBox : BoundingBox F
  m_renderMode : RenderMode
  m_shadowTextureId : Nat
  deriving DecidableEq, Repr

/-- The typedef `MaterialProps`, `QMap<QString, QVector<float>>`. -/
abbrev MaterialProps (F : Type) := QMap String (List F)

/-- The library functions the loader calls. -/
structure Qt (F : Type) where
  toFloat : String → F
  toInt : String → Int
  toInt_range : ∀ s, -2147483648 ≤ toInt s ∧ toInt s ≤ 2147483647
  normalized : QVector3D F → QVector3D F
  setRgbF : F → F → F → QColor F
  absolutePath : String → String

/-- The file system: `none` when `QFile::open` fails, otherwise the lines
`readLine` returns until `atEnd`. -/
abbrev FileSystem := String → Option (List String)

/-! ## Operations of `objmodel.h` -/

section Model

variable {F : Type} [LinearOrderedField F]

/-- Qt `qMin(a, b)`: `(a < b) ? a : b`. -/
def qMin (a b : F) : F := if a < b then a else b

/-- Qt `qMax(a, b)`: `(a < b) ? b : a`. -/
def qMax (a b : F) : F := if a < b then b else a

/-- Qt `QColor()`: the invalid colour. -/
def QColor.invalid : QColor F := ⟨false, 0, 0, 0⟩

/-- Qt `Qt::white`. -/
def QColor.white : QColor F := ⟨true, 1, 1, 1⟩

/-- Constructor `_BoundingBox::_BoundingBox()`. -/
def BoundingBox.init : BoundingBox F := ⟨⟨0, 0⟩, ⟨0, 0⟩, ⟨0, 0⟩⟩

/-- Method `_BoundingBox::unite`. -/
def BoundingBox.unite (b other : BoundingBox F) : BoundingBox F :=
  { x := ⟨qMin b.x.min other.x.min, qMax b.x.max other.x.max⟩
    y := ⟨qMin b.y.min other.y.min, qMax b.y.max other.y.max⟩
    z := ⟨qMin b.z.min other.z.min, qMax b.z.max other.z.max⟩ }

/-- Method `material.reset()`: `color.diffuse` is assigned twice, `color.specular`
is not assigned. -/
def Material.reset (m : Material F) : Material F :=
  { color := { ambient := QColor.white, diffuse := QColor.white, specular := m.color.specular }
    intensity := { ambient := 1 / 10, diffuse := 1, specular := 0 }
    brightness := 1
    opacity := 1 }

/-- The material member of a `Part` before `reset` runs: default-constructed
colours; the float members are overwritten by `reset`. -/
def Material.raw : Material F :=
  { color := ⟨QColor.invalid, QColor.invalid, QColor.invalid⟩
    intensity := ⟨0, 0, 0⟩
    brightness := 0
    opacity := 0 }

/-- Constructor `Part::Part()`. -/
def Part.init : Part F :=
  { type := 0, start := -1, length := 0, material := Material.reset Material.raw }

/-- OpenGL `GL_TRIANGLES`. -/
def GL_TRIANGLES : Int := 4

/-- Method `Part::isValid()`. -/
def Part.isValid (p : Part F) : Bool :=
  decide (p.start ≥ 0) && decide (p.length ≥ 0) && decide (p.type ≠ 0)

/-- Method `Part::operator<`. -/
def Part.lt (p other : Part F) : Bool :=
  decide (p.material.opacity > other.material.opacity)

/-- One step of insertion sort: `x`, which stood in front of the sorted run,
moves right past every element that is less than it and stops in front of the
first one that is not, so it stays ahead of its equivalents. -/
def sortedInsert {α : Type} (lt : α → α → Bool) (x : α) : List α → List α
  | [] => [x]
  | y :: ys => if lt y x then y :: sortedInsert lt x ys else x :: y :: ys

/-- Standard `std::sort(begin, end)` under `operator<`: a rearrangement in which no
element is less than an earlier one.  The standard leaves the order of
equivalent elements open; this model is the insertion sort the library runs
on short ranges, which keeps equivalent elements in their original order. -/
def stdSort {α : Type} (lt : α → α → Bool) : List α → List α
  | [] => []
  | x :: xs => sortedInsert lt x (stdSort lt xs)

/-- Size `sizeof(QVector3D)`. -/
def sizeofQVector3D : Int := 12

/-- The state of a freshly constructed `ObjModel` before `load` runs. -/
def ObjModel.init : ObjModel F :=
  { m_vertexBuffer := none
    m_indexBuffer := none
    m_normalOffset := 0
    m_parts := []
    m_boundingBox := BoundingBox.init
    m_renderMode := RenderMode.SceneMode
    m_shadowTextureId := 0 }

/-! ## `LoadMaterials` -/

/-- The locals of `LoadMaterials`. -/
structure MtlState (F : Type) where
  ret : QMap String (MaterialProps F)
  materialName : String
  materialProps : MaterialProps F

/-- One iteration of the `while` loop of `LoadMaterials`. -/
def loadMaterialsLine (qt : Qt F) (st : MtlState F) (rawLine : String) : MtlState F :=
  let line := simplified rawLine
  if line.data.isEmpty then st
  else if startsWith line "#" then st
  else
    match split ' ' false line with
    | [] => st
    | type :: rest =>
      if type = "newmtl" then
        let st1 : MtlState F :=
          if !st.materialProps.isEmpty then
            { st with ret := st.ret.assign st.materialName st.materialProps
                      materialProps := QMap.empty }
          else st
        { st1 with materialName := (type :: rest).getLast (List.cons_ne_nil type rest) }
      else
        { st with materialProps := st.materialProps.assign type (rest.map qt.toFloat) }

/-- Function `LoadMaterials(mtlFileName)`. -/
def LoadMaterials (qt : Qt F) (fs : FileSystem) (mtlFileName : String) :
    QMap String (MaterialProps F) :=
  match fs mtlFileName with
  | none => QMap.empty
  | some lines =>
    let st := lines.foldl (loadMaterialsLine qt) ⟨QMap.empty, "", QMap.empty⟩
    if !st.materialProps.isEmpty then st.ret.assign st.materialName st.materialProps
    else st.ret

/-- The code of `LoadMaterials` after the loop: the block that is open at the
end of the file is stored if it has properties. -/
def MtlState.result (st : MtlState F) : QMap String (MaterialProps F) :=
  if !st.materialProps.isEmpty then st.ret.assign st.materialName st.materialProps
  else st.ret

/-- What a line of a material file is to `LoadMaterials`: skipped (empty or a
comment), the start of a named block, or a property with its key and its
remaining tokens. -/
inductive MtlLine where
  | skip
  | newmtl (name : String)
  | prop (key : String) (tokens : List String)
  deriving DecidableEq, Repr

/-- The tests `LoadMaterials` applies to a line, in its order. -/
def classifyMtl (rawLine : String) : MtlLine :=
  let line := simplified rawLine
  if line.data.isEmpty then .skip
  else if startsWith line "#" then .skip
  else
    match split ' ' false line with
    | [] => .skip
    | type :: rest =>
      if type = "newmtl" then .newmtl ((type :: rest).getLast (List.cons_ne_nil type rest))
      else .prop type rest

/-- The remaining tokens of the last property line with key `key` among
`lines`, if there is one. -/
def lastProp (key : String) : List String → Option (List String)
  | [] => none
  | l :: ls =>
    match lastProp key ls with
    | some tokens => some tokens
    | none =>
      match classifyMtl l with
      | .prop k tokens => if k = key then some tokens else none
      | _ => none

/-! ## `ObjModel::load` -/

/-- The anonymous struct of `load` holding positions and normals. -/
structure VertexData (F : Type) where
  geometry : List (QVector3D F)
  normals : List (QVector3D F)

/-- The locals of `ObjModel::load` together with the two members it writes
inside the loop. -/
structure LoadState (F : Type) where
  compressed : VertexData F
  uncompressed : VertexData F
  indexes : List Int
  materials : QMap String (MaterialProps F)
  currentPart : Part F
  m_parts : List (Part F)
  m_boundingBox : BoundingBox F

/-- The tokens of a line: `readLine().simplified().split(" ", SkipEmptyParts)`. -/
def fieldsOf (rawLine : String) : List String :=
  split ' ' true (simplified rawLine)

/-- The `usemtl` branch once `props` has been looked up. -/
def useMaterial (qt : Qt F) (props : MaterialProps F) (part : Part F) :
    Except Fault (Part F) :=
  let m0 := part.material
  let m1 : Material F :=
    match props.value "Kd" [] with
    | [r, g, b] =>
      { m0 with color := { m0.color with diffuse := qt.setRgbF r g b }
                intensity := { m0.intensity with diffuse := 1 } }
    | _ => m0
  let m2 : Material F :=
    match props.value "Ka" [] with
    | [r, g, b] =>
      { m1 with color := { m1.color with ambient := qt.setRgbF r g b }
                intensity := { m1.intensity with ambient := 1 } }
    | _ => m1
  let m3 : Material F :=
    match props.value "Ks" [] with
    | [r, g, b] => { m2 with color := { m2.color with specular := qt.setRgbF r g b } }
    | _ => m2
  (first (props.value "Ns" [])).bind fun ns =>
  let m4 : Material F := { m3 with intensity := { m3.intensity with specular := 3 * ns / 1000 } }
  (if props.contains "d" then first (props.value "d" [])
   else if props.contains "Tr" then (first (props.value "Tr" [])).map (fun tr => 1 - tr)
   else .ok m4.opacity).bind fun opacity =>
  (if props.contains "illum" then first (props.value "illum" []) else .ok 1).bind fun brightness =>
  .ok { part with material := { m4 with opacity := opacity, brightness := brightness } }

/-- The `v` / `vn` branch. -/
def addVertex (qt : Qt F) (st : LoadState F) (type : String) (fields : List String) :
    Except Fault (LoadState F) :=
  (itemAt fields 1).bind fun f1 =>
  (itemAt fields 2).bind fun f2 =>
  (itemAt fields 3).bind fun f3 =>
  let v : QVector3D F := ⟨qt.toFloat f1, qt.toFloat f2, qt.toFloat f3⟩
  if type = "v" then
    let geometry := st.compressed.geometry ++ [v]
    let bb := st.m_boundingBox
    let bb1 : BoundingBox F :=
      if geometry.length = 1 then ⟨⟨v.x, v.x⟩, ⟨v.y, v.y⟩, ⟨v.z, v.z⟩⟩
      else
        ⟨⟨qMin v.x bb.x.min, qMax v.x bb.x.max⟩,
         ⟨qMin v.y bb.y.min, qMax v.y bb.y.max⟩,
         ⟨qMin v.z bb.z.min, qMax v.z bb.z.max⟩⟩
    .ok { st with compressed := { st.compressed with geometry := geometry }
                  m_boundingBox := bb1 }
  else
    .ok { st with compressed :=
            { st.compressed with normals := st.compressed.normals ++ [qt.normalized v] } }

/-- One corner token of an `f` line: the 0-based position index and the
0-based normal index, `split("/").first().toInt() - 1` and
`split("/").last().toInt() - 1`. -/
def cornerIndices (qt : Qt F) (tok : String) : Except Fault (Int × Int) :=
  (first (split '/' false tok)).bind fun p =>
  (last (split '/' false tok)).bind fun n =>
  .ok (wrapInt32 (qt.toInt p - 1), wrapInt32 (qt.toInt n - 1))

/-- The part of the `f` branch after both range tests have passed. -/
def appendFace (st : LoadState F) (a b c na nb nc : Int) : Except Fault (LoadState F) :=
  let start : Int :=
    if st.currentPart.start < 0 then (st.indexes.length : Int) else st.currentPart.start
  let i : Int := st.uncompressed.geometry.length
  (itemAt st.compressed.geometry a).bind fun ga =>
  (itemAt st.compressed.geometry b).bind fun gb =>
  (itemAt st.compressed.geometry c).bind fun gc =>
  (itemAt st.compressed.normals na).bind fun va =>
  (itemAt st.compressed.normals nb).bind fun vb =>
  (itemAt st.compressed.normals nc).bind fun vc =>
  let indexes := st.indexes ++ [i, i + 1, i + 2]
  .ok { st with
          uncompressed :=
            { geometry := st.uncompressed.geometry ++ [ga, gb, gc]
              normals := st.uncompressed.normals ++ [va, vb, vc] }
          indexes := indexes
          currentPart :=
            { st.currentPart with start := start, length := (indexes.length : Int) - start } }

/-- The `f` branch. -/
def addFace (qt : Qt F) (st : LoadState F) (fields : List String) :
    Except Fault (LoadState F) :=
  if fields.length ≠ 4 then .ok st
  else
    (itemAt fields 1).bind fun t1 =>
    (itemAt fields 2).bind fun t2 =>
    (itemAt fields 3).bind fun t3 =>
    (cornerIndices qt t1).bind fun (a, na) =>
    (cornerIndices qt t2).bind fun (b, nb) =>
    (cornerIndices qt t3).bind fun (c, nc) =>
    let cgs : Int := st.compressed.geometry.length
    if a ≥ cgs ∨ b ≥ cgs ∨ c ≥ cgs then .ok st
    else
      let cns : Int := st.compressed.normals.length
      if na ≥ cns ∨ nb ≥ cns ∨ nc ≥ cns then .ok st
      else appendFace st a b c na nb nc

/-- The position token of a corner: `tok.split("/").first()`. -/
def positionToken (tok : String) : String :=
  ((split '/' false tok).head?).getD ""

/-- The normal token of a corner: `tok.split("/").last()`. -/
def normalToken (tok : String) : String :=
  ((split '/' false tok).getLast?).getD ""

/-- The loop body of `ObjModel::load` from `fields.isEmpty()` on. -/
def loadFields (qt : Qt F) (fs : FileSystem) (fileName : String) (st : LoadState F) :
    List String → Except Fault (LoadState F)
  | [] => .ok st
  | type :: rest =>
    let fields := type :: rest
    let lastField := fields.getLast (List.cons_ne_nil type rest)
    if type = "mtllib" then
      let path := qt.absolutePath fileName
      .ok { st with materials := st.materials.unite (LoadMaterials qt fs (path ++ lastField)) }
    else if type = "o" then
      let parts := if st.currentPart.isValid then st.m_parts ++ [st.currentPart] else st.m_parts
      .ok { st with m_parts := parts
                    currentPart := { (Part.init : Part F) with type := GL_TRIANGLES } }
    else if type = "usemtl" then
      (useMaterial qt (st.materials.value lastField QMap.empty) st.currentPart).map
        fun part => { st with currentPart := part }
    else if type = "v" ∨ type = "vn" then addVertex qt st type fields
    else if type = "f" then addFace qt st fields
    else .ok st

/-- One iteration of the `while` loop of `ObjModel::load`. -/
def loadLine (qt : Qt F) (fs : FileSystem) (fileName : String) (st : LoadState F)
    (rawLine : String) : Except Fault (LoadState F) :=
  if startsWith (simplified rawLine) "#" then .ok st
  else loadFields qt fs fileName st (fieldsOf rawLine)

/-- The `while(!file.atEnd())` loop over the lines of the file. -/
def parseLines (qt : Qt F) (fs : FileSystem) (fileName : String) :
    LoadState F → List String → Except Fault (LoadState F)
  | st, [] => .ok st
  | st, l :: ls =>
    match loadLine qt fs fileName st l with
    | .ok st1 => parseLines qt fs fileName st1 ls
    | .error e => .error e

/-- A line is an accepted face when the loop body gets past every `continue`
of the `f` branch: it is not a comment, it has the four fields of an `f`
line, and its six indices pass both range tests. -/
def faceAccepted (qt : Qt F) (st : LoadState F) (rawLine : String) : Bool :=
  !startsWith (simplified rawLine) "#" &&
    match fieldsOf rawLine with
    | [type, ta, tb, tc] =>
      let a := wrapInt32 (qt.toInt (positionToken ta) - 1)
      let b := wrapInt32 (qt.toInt (positionToken tb) - 1)
      let c := wrapInt32 (qt.toInt (positionToken tc) - 1)
      let na := wrapInt32 (qt.toInt (normalToken ta) - 1)
      let nb := wrapInt32 (qt.toInt (normalToken tb) - 1)
      let nc := wrapInt32 (qt.toInt (normalToken tc) - 1)
      let cgs : Int := st.compressed.geometry.length
      let cns : Int := st.compressed.normals.length
      decide (type = "f") && !decide (a ≥ cgs ∨ b ≥ cgs ∨ c ≥ cgs) &&
        !decide (na ≥ cns ∨ nb ≥ cns ∨ nc ≥ cns)
    | _ => false

/-- The number of accepted faces met by the loop on its way through `lines`. -/
def acceptedFaces (qt : Qt F) (fs : FileSystem) (fileName : String) :
    LoadState F → List String → Nat
  | _, [] => 0
  | st, l :: ls =>
    match loadLine qt fs fileName st l with
    | .ok st1 =>
      (if faceAccepted qt st l then 1 else 0) + acceptedFaces qt fs fileName st1 ls
    | .error _ => 0

/-- The effect of one accepted face on the index array and on the lengths of
the uncompressed arrays. -/
def Grown (st st1 : LoadState F) : Prop :=
  st1.indexes = st.indexes ++
      [(st.uncompressed.geometry.length : Int), (st.uncompressed.geometry.length : Int) + 1,
       (st.uncompressed.geometry.length : Int) + 2] ∧
    st1.uncompressed.geometry.length = st.uncompressed.geometry.length + 3 ∧
    st1.uncompressed.normals.length = st.uncompressed.normals.length + 3

/-- The index array and both uncompressed arrays are untouched. -/
def Same (st st1 : LoadState F) : Prop :=
  st1.indexes = st.indexes ∧ st1.uncompressed.geometry = st.uncompressed.geometry ∧
    st1.uncompressed.normals = st.uncompressed.normals

/-- The position a line contributes: the three coordinates of a line that is
not a comment and whose first field is `v`. -/
def vertexOfLine (qt : Qt F) (rawLine : String) : Option (QVector3D F) :=
  if startsWith (simplified rawLine) "#" then none
  else
    match fieldsOf rawLine with
    | type :: f1 :: f2 :: f3 :: _ =>
      if type = "v" then some ⟨qt.toFloat f1, qt.toFloat f2, qt.toFloat f3⟩ else none
    | _ => none

/-- The positions of all `v` lines of a mesh text, in file order. -/
def positionsOf (qt : Qt F) (lines : List String) : List (QVector3D F) :=
  lines.filterMap (vertexOfLine qt)

/-- The value `m` is the minimum of the list `xs`. -/
def IsMinOf (m : F) (xs : List F) : Prop :=
  m ∈ xs ∧ ∀ x ∈ xs, m ≤ x

/-- The value `m` is the maximum of the list `xs`. -/
def IsMaxOf (m : F) (xs : List F) : Prop :=
  m ∈ xs ∧ ∀ x ∈ xs, x ≤ m

/-- On each axis the box spans from the minimum to the maximum of that
coordinate over the positions `ps`. -/
def Bounds (bb : BoundingBox F) (ps : List (QVector3D F)) : Prop :=
  IsMinOf bb.x.min (ps.map fun v => v.x) ∧ IsMaxOf bb.x.max (ps.map fun v => v.x) ∧
  IsMinOf bb.y.min (ps.map fun v => v.y) ∧ IsMaxOf bb.y.max (ps.map fun v => v.y) ∧
  IsMinOf bb.z.min (ps.map fun v => v.z) ∧ IsMaxOf bb.z.max (ps.map fun v => v.z)

/-- On each axis the box `bb` spans from the least lower end to the greatest
upper end of the boxes `boxes`: it is their union. -/
def UnionOf (bb : BoundingBox F) (boxes : List (BoundingBox F)) : Prop :=
  IsMinOf bb.x.min (boxes.map fun b => b.x.min) ∧ IsMaxOf bb.x.max (boxes.map fun b => b.x.max) ∧
  IsMinOf bb.y.min (boxes.map fun b => b.y.min) ∧ IsMaxOf bb.y.max (boxes.map fun b => b.y.max) ∧
  IsMinOf bb.z.min (boxes.map fun b => b.z.min) ∧ IsMaxOf bb.z.max (boxes.map fun b => b.z.max)

/-- What the loop keeps true of the parts: every stored part has a
non-negative start and a positive length, the start of the current part does
not exceed the number of indices, and once the current part has a start it
has a positive length. -/
def PartsInv (st : LoadState F) : Prop :=
  (∀ p ∈ st.m_parts, 0 ≤ p.start ∧ 0 < p.length) ∧
    st.currentPart.start ≤ (st.indexes.length : Int) ∧
    (0 ≤ st.currentPart.start → 0 < st.currentPart.length)

/-- A line takes the `o` branch of the loop: it is not a comment and its
first field is `o`. -/
def isObjectLine (rawLine : String) : Bool :=
  !startsWith (simplified rawLine) "#" && decide ((fieldsOf rawLine).head? = some "o")

/-- The index range `[start, start + length)` of `p` ends before the range of
`q` begins. -/
def Part.Before (p q : Part F) : Prop :=
  p.start + p.length ≤ q.start

/-- The index ranges `[start, start + length)` of two parts do not overlap. -/
def Part.Apart (p q : Part F) : Prop :=
  p.start + p.length ≤ q.start ∨ q.start + q.length ≤ p.start

/-- What the loop keeps true of the index ranges: the number of indices is a
multiple of 3; the stored parts are in file order, each range ending before the
next begins, inside the index array and before the start of the current part;
starts and lengths are multiples of 3; once the current part has a start its
range ends at the end of the index array. -/
def RangesInv (st : LoadState F) : Prop :=
  (3 : Int) ∣ (st.indexes.length : Int) ∧
    st.m_parts.Pairwise Part.Before ∧
    (∀ p ∈ st.m_parts,
      (3 : Int) ∣ p.start ∧ (3 : Int) ∣ p.length ∧
        p.start + p.length ≤ (st.indexes.length : Int) ∧
        (0 ≤ st.currentPart.start → p.start + p.length ≤ st.currentPart.start)) ∧
    (0 ≤ st.currentPart.start →
      (3 : Int) ∣ st.currentPart.start ∧
        st.currentPart.start + st.currentPart.length = (st.indexes.length : Int))

/-- The locals of `load` at loop entry. -/
def LoadState.init (this : ObjModel F) : LoadState F :=
  { compressed := ⟨[], []⟩
    uncompressed := ⟨[], []⟩
    indexes := []
    materials := QMap.empty
    currentPart := Part.init
    m_parts := this.m_parts
    m_boundingBox := this.m_boundingBox }

/-- The code of `load` after the loop: close the last part, sort, upload. -/
def finishLoad (this : ObjModel F) (st : LoadState F) : ObjModel F :=
  let parts := if st.currentPart.isValid then st.m_parts ++ [st.currentPart] else st.m_parts
  { this with
      m_parts := stdSort Part.lt parts
      m_boundingBox := st.m_boundingBox
      m_normalOffset := (st.uncompressed.geometry.length : Int) * sizeofQVector3D
      m_vertexBuffer := some (st.uncompressed.geometry ++ st.uncompressed.normals)
      m_indexBuffer := some st.indexes }

/-- The loader state at the end of the loop, `none` when the file cannot be
opened. -/
def parseFile (qt : Qt F) (fs : FileSystem) (this : ObjModel F) (fileName : String) :
    Option (Except Fault (LoadState F)) :=
  (fs fileName).map (parseLines qt fs fileName (LoadState.init this))

/-- Method `ObjModel::load(fileName)`. -/
def ObjModel.load (qt : Qt F) (fs : FileSystem) (this : ObjModel F) (fileName : String) :
    Except Fault (ObjModel F) :=
  match parseFile qt fs this fileName with
  | none => .ok this
  | some (.error e) => .error e
  | some (.ok st) => .ok (finishLoad this st)

/-- Constructor `ObjModel::ObjModel(fileName)`. -/
def ObjModel.create (qt : Qt F) (fs : FileSystem) (fileName : String) :
    Except Fault (ObjModel F) :=
  ObjModel.load qt fs ObjModel.init fileName

end Model

/-! ## A reference instance of the library over `ℚ`

Used to run the loader on concrete files. -/

/-- Decimal digits to a number, most significant first. -/
def parseDigits : List Char → Nat → Option Nat
  | [], acc => some acc
  | c :: cs, acc =>
    if 48 ≤ c.toNat ∧ c.toNat ≤ 57 then parseDigits cs (10 * acc + (c.toNat - 48)) else none

/-- An optionally signed, non-empty run of decimal digits. -/
def parseInteger (cs : List Char) : Option Int :=
  match cs with
  | [] => none
  | c :: ds =>
    if c = '-' then
      (if ds.isEmpty then none else (parseDigits ds 0).map (fun n => -(n : Int)))
    else if c = '+' then
      (if ds.isEmpty then none else (parseDigits ds 0).map (fun n => (n : Int)))
    else (parseDigits (c :: ds) 0).map (fun n => (n : Int))

/-- Qt `QString::toInt()`: the value of a base-10 integer that fits in `int`,
0 for anything else. -/
def refToInt (s : String) : Int :=
  match parseInteger s.data with
  | some n => if -2147483648 ≤ n ∧ n ≤ 2147483647 then n else 0
  | none => 0

/-- Qt `QString::toFloat()` on plain decimals `[sign]digits[.digits]`, 0 for
anything else. -/
def refToFloat (s : String) : ℚ :=
  match splitChars (fun c => c == '.') s.data with
  | [w] =>
    (match parseInteger w with
     | some n => (n : ℚ)
     | none => 0)
  | [w, fr] =>
    (match parseInteger w, parseDigits fr 0 with
     | some n, some k =>
       let frac : ℚ := (k : ℚ) / (10 : ℚ) ^ fr.length
       if w.head? = some '-' then (n : ℚ) - frac else (n : ℚ) + frac
     | _, _ => 0)
  | _ => 0

/-- Qt `QVector3D::normalized()`: the vector itself when its length is 1, the
null vector when its length is 0, otherwise the vector divided by a
six-digit approximation of its length. -/
def refNormalized (v : QVector3D ℚ) : QVector3D ℚ :=
  let len : ℚ := v.x * v.x + v.y * v.y + v.z * v.z
  if len = 1 then v
  else if len = 0 then ⟨0, 0, 0⟩
  else
    let root : ℚ :=
      (Nat.sqrt (len.num.toNat * len.den * 1000000000000) : ℚ) / ((len.den : ℚ) * 1000000)
    ⟨v.x / root, v.y / root, v.z / root⟩

/-- Qt `QFileInfo::absolutePath()` of an absolute file name: the text before
the last `/`. -/
def refAbsolutePath (s : String) : String :=
  String.mk (List.intercalate ['/'] (splitChars (fun c => c == '/') s.data).dropLast)

/-- The reference library. -/
def refQt : Qt ℚ :=
  { toFloat := refToFloat
    toInt := refToInt
    toInt_range := by
      intro s
      unfold refToInt
      split
      · split
        · assumption
        · decide
      · decide
    normalized := refNormalized
    setRgbF := fun r g b => ⟨true, r, g, b⟩
    absolutePath := refAbsolutePath }

/-- A file system holding one file. -/
def oneFile (name : String) (lines : List String) : FileSystem :=
  fun p => if p = name then some lines else none

/-- The mesh text of the worked example. -/
def triangleText : List String :=
  ["o body\n", "v 0 0 0\n", "v 1 0 0\n", "v 0 1 0\n", "vn 0 0 1\n", "f 1/1/1 2/1/1 3/1/1\n"]

/-- The path the examples load. -/
def meshPath : String := "/m/t.obj"

/-- The loader state after the first five lines of the worked example. -/
def triangleState : LoadState ℚ :=
  { compressed := ⟨[⟨0, 0, 0⟩, ⟨1, 0, 0⟩, ⟨0, 1, 0⟩], [⟨0, 0, 1⟩]⟩
    uncompressed := ⟨[], []⟩
    indexes := []
    materials := QMap.empty
    currentPart := { (Part.init : Part ℚ) with type := GL_TRIANGLES }
    m_parts := []
    m_boundingBox := ⟨⟨0, 1⟩, ⟨0, 1⟩, ⟨0, 0⟩⟩ }

/-- The model the worked example loads. -/
def triangleModel : ObjModel ℚ :=
  { m_vertexBuffer :=
      some [⟨0, 0, 0⟩, ⟨1, 0, 0⟩, ⟨0, 1, 0⟩, ⟨0, 0, 1⟩, ⟨0, 0, 1⟩, ⟨0, 0, 1⟩]
    m_indexBuffer := some [0, 1, 2]
    m_normalOffset := 36
    m_parts := [{ (Part.init : Part ℚ) with type := GL_TRIANGLES, start := 0, length := 3 }]
    m_boundingBox := ⟨⟨0, 1⟩, ⟨0, 1⟩, ⟨0, 0⟩⟩
    m_renderMode := RenderMode.SceneMode
    m_shadowTextureId := 0 }

/-- The worked example with the first corner of its face written with
position index 0. -/
def zeroIndexText : List String :=
  ["o body\n", "v 0 0 0\n", "v 1 0 0\n", "v 0 1 0\n", "vn 0 0 1\n", "f 0/1/1 2/1/1 3/1/1\n"]

/-- The worked example with a negative normal index in its face. -/
def negativeIndexText : List String :=
  ["o body\n", "v 0 0 0\n", "v 1 0 0\n", "v 0 1 0\n", "vn 0 0 1\n", "f 1/1/1 2/1/-1 3/1/1\n"]

/-- The worked example with a non-numeric position token in its face. -/
def nonNumericText : List String :=
  ["o body\n", "v 0 0 0\n", "v 1 0 0\n", "v 0 1 0\n", "vn 0 0 1\n", "f 1/1/1 2/1/1 x/1/1\n"]

/-- A mesh that selects a material without loading any material file. -/
def unknownMaterialText : List String :=
  ["o body\n", "usemtl steel\n"]

/-- A mesh and its material file; the material has `Kd` and `d` but no `Ns`.
The material file sits where `load` looks for it: `absolutePath` joined to the
`mtllib` name without a separator. -/
def materialWithoutNs : FileSystem := fun p =>
  if p = "/m/t.obj" then some ["mtllib t.mtl\n", "o body\n", "usemtl steel\n"]
  else if p = "/mt.mtl" then some ["newmtl steel\n", "Kd 1 0 0\n", "d 1\n"]
  else none

/-- A mesh whose only line is a position with two coordinates. -/
def shortVertexText : List String :=
  ["v 1 2\n"]

/-- A mesh whose first part has opacity 0.5 and whose second part has opacity 1. -/
def twoParts : FileSystem := fun p =>
  if p = "/m/t.obj" then
    some ["mtllib t.mtl\n", "v 0 0 0\n", "v 1 0 0\n", "v 0 1 0\n", "vn 0 0 1\n",
      "o glass\n", "usemtl glass\n", "f 1//1 2//1 3//1\n",
      "o body\n", "usemtl steel\n", "f 3//1 2//1 1//1\n"]
  else if p = "/mt.mtl" then
    some ["newmtl glass\n", "Ns 10\n", "d 0.5\n", "newmtl steel\n", "Ns 100\n", "d 1\n"]
  else none

/-- The model `twoParts` loads: the part of opacity 1, second in the file,
comes first. -/
def twoPartsModel : ObjModel ℚ :=
  { m_vertexBuffer :=
      some [⟨0, 0, 0⟩, ⟨1, 0, 0⟩, ⟨0, 1, 0⟩, ⟨0, 1, 0⟩, ⟨1, 0, 0⟩, ⟨0, 0, 0⟩,
        ⟨0, 0, 1⟩, ⟨0, 0, 1⟩, ⟨0, 0, 1⟩, ⟨0, 0, 1⟩, ⟨0, 0, 1⟩, ⟨0, 0, 1⟩]
    m_indexBuffer := some [0, 1, 2, 3, 4, 5]
    m_normalOffset := 72
    m_parts :=
      [{ type := GL_TRIANGLES, start := 3, length := 3
         material :=
           { (Part.init : Part ℚ).material with
               intensity := ⟨1 / 10, 1, 3 / 10⟩, opacity := 1, brightness := 1 } },
       { type := GL_TRIANGLES, start := 0, length := 3
         material :=
           { (Part.init : Part ℚ).material with
               intensity := ⟨1 / 10, 1, 3 / 100⟩, opacity := 1 / 2, brightness := 1 } }]
    m_boundingBox := ⟨⟨0, 1⟩, ⟨0, 1⟩, ⟨0, 0⟩⟩
    m_renderMode := RenderMode.SceneMode
    m_shadowTextureId := 0 }

/-! ## Rendering (`ObjModel::render`, `SceneRenderer`, `ShadowRenderer`)

The renderers are embedded as the sequence of OpenGL and shader calls they
issue, in source order.  Matrices and vectors are not modelled: a uniform
that carries one is recorded by name only. -/

section Rendering

variable {F : Type} [LinearOrderedField F]

/-- The value handed to `QOpenGLShaderProgram::setUniformValue`. -/
inductive UniformValue (F : Type) where
  | matrix
  | vector
  | bool (b : Bool)
  | int (n : Int)
  | float (x : F)
  | color (c : QColor F)

/-- The OpenGL and shader-program calls of the renderers and of the windows. -/
inductive GlCommand (F : Type) where
  | loadShaders (vertex fragment : String)
  | bindShader
  | releaseShader
  | bindVertexBuffer
  | bindIndexBuffer
  | releaseVertexBuffer
  | releaseIndexBuffer
  | enableAttributeArray (name : String)
  | setAttributeBuffer (name : String) (offset tupleSize stride : Int)
  | setUniformValue (name : String) (value : UniformValue F)
  | activeTexture (unit : Nat)
  | bindTexture (id : Nat)
  | drawElements (mode count offset : Int)
  | bindFramebuffer (id : Nat)
  | cullFace (front : Bool)

/-- The class `SceneRenderer`. -/
structure SceneRenderer where
  m_initialized : Bool
  deriving DecidableEq, Repr

/-- The class `ShadowRenderer`. -/
structure ShadowRenderer where
  m_initialized : Bool
  deriving DecidableEq, Repr

/-- The two `Q_GLOBAL_STATIC` renderer objects. -/
structure Renderers where
  sceneRenderer : SceneRenderer
  shadowRenderer : ShadowRenderer
  deriving DecidableEq, Repr

/-- One invocation of a renderer with the calls it issued. -/
inductive RendererCall (F : Type) where
  | scene (commands : List (GlCommand F))
  | shadow (commands : List (GlCommand F))

/-- Size `sizeof(int)`. -/
def sizeofInt : Int := 4

/-- The colour `QColor(40,40,40)`. -/
def lightAmbient : QColor F := ⟨true, 40 / 255, 40 / 255, 40 / 255⟩

/-- The shadow-map branch of `SceneRenderer::render` before the parts. -/
def sceneShadowSetup (shadowTextureId : Nat) : List (GlCommand F) :=
  if shadowTextureId > 0 then
    [.activeTexture 0, .bindTexture shadowTextureId,
     .setUniformValue "qt_ShadowMap" (.int 0),
     .setUniformValue "qt_ShadowEnabled" (.bool true)]
  else [.setUniformValue "qt_ShadowEnabled" (.bool false)]

/-- The body of the `Q_FOREACH` over the parts in `SceneRenderer::render`. -/
def scenePartCommands (qt : Qt F) (part : Part F) : List (GlCommand F) :=
  let ambient0 := part.material.color.ambient
  let ambient := qt.setRgbF (ambient0.redF * part.material.intensity.ambient)
    (ambient0.greenF * part.material.intensity.ambient)
    (ambient0.blueF * part.material.intensity.ambient)
  let diffuse0 := part.material.color.diffuse
  let diffuse := qt.setRgbF (diffuse0.redF * part.material.intensity.diffuse)
    (diffuse0.greenF * part.material.intensity.diffuse)
    (diffuse0.blueF * part.material.intensity.diffuse)
  let specular := part.material.color.ambient
  let offset := part.start * sizeofInt
  [.setUniformValue "qt_Material.ambient" (.color ambient),
   .setUniformValue "qt_Material.diffuse" (.color diffuse),
   .setUniformValue "qt_Material.specular" (.color specular),
   .setUniformValue "qt_Material.specularPower" (.float part.material.intensity.specular),
   .setUniformValue "qt_Material.brightness" (.float part.material.brightness),
   .setUniformValue "qt_Material.opacity" (.float part.material.opacity),
   .drawElements part.type part.length offset]

/-- The shadow-map branch of `SceneRenderer::render` after the parts. -/
def sceneShadowCleanup (shadowTextureId : Nat) : List (GlCommand F) :=
  if shadowTextureId > 0 then [.activeTexture 0, .bindTexture 0] else []

/-- The calls of `SceneRenderer::render` from `m_shader->bind()` up to the
loop over the parts. -/
def scenePrologue (model : ObjModel F) : List (GlCommand F) :=
  [.bindShader, .bindVertexBuffer, .bindIndexBuffer,
   .enableAttributeArray "qt_Vertex", .setAttributeBuffer "qt_Vertex" 0 3 0,
   .enableAttributeArray "qt_Normal",
   .setAttributeBuffer "qt_Normal" model.m_normalOffset 3 0,
   .setUniformValue "qt_ViewMatrix" .matrix,
   .setUniformValue "qt_NormalMatrix" .matrix,
   .setUniformValue "qt_ModelMatrix" .matrix,
   .setUniformValue "qt_ModelViewMatrix" .matrix,
   .setUniformValue "qt_ProjectionMatrix" .matrix,
   .setUniformValue "qt_ModelViewProjectionMatrix" .matrix,
   .setUniformValue "qt_LightMatrix" .matrix,
   .setUniformValue "qt_LightViewMatrix" .matrix,
   .setUniformValue "qt_LightViewProjectionMatrix" .matrix]
  ++ sceneShadowSetup model.m_shadowTextureId
  ++ [.setUniformValue "qt_Light.ambient" (.color lightAmbient),
      .setUniformValue "qt_Light.diffuse" (.color QColor.white),
      .setUniformValue "qt_Light.specular" (.color QColor.white),
      .setUniformValue "qt_Light.direction" .vector,
      .setUniformValue "qt_Light.eye" .vector]

/-- The calls of `SceneRenderer::render` after the loop over the parts. -/
def sceneEpilogue (model : ObjModel F) : List (GlCommand F) :=
  sceneShadowCleanup model.m_shadowTextureId
  ++ [.releaseIndexBuffer, .releaseVertexBuffer, .releaseShader]

/-- The calls of `SceneRenderer::render` from `m_shader->bind()` on, for a
model whose two buffers exist. -/
def sceneCommands (qt : Qt F) (model : ObjModel F) : List (GlCommand F) :=
  scenePrologue model ++ (model.m_parts.map (scenePartCommands qt)).flatten
    ++ sceneEpilogue model

/-- Method `SceneRenderer::render`: the shaders are loaded on the first call;
binding a null buffer is a fault. -/
def SceneRenderer.render (qt : Qt F) (r : SceneRenderer) (model : ObjModel F) :
    Except Fault (SceneRenderer × List (GlCommand F)) :=
  let init : List (GlCommand F) :=
    if !r.m_initialized then [.loadShaders ":/scene_vertex.glsl" ":/scene_fragment.glsl"]
    else []
  match model.m_vertexBuffer, model.m_indexBuffer with
  | some _, some _ => .ok ({ m_initialized := true }, init ++ sceneCommands qt model)
  | _, _ => .error .nullPointer

/-- The body of the `Q_FOREACH` over the parts in `ShadowRenderer::render`. -/
def shadowPartCommands (part : Part F) : List (GlCommand F) :=
  [.drawElements part.type part.length (part.start * sizeofInt)]

/-- The calls of `ShadowRenderer::render` from `m_shader->bind()` on. -/
def shadowCommands (model : ObjModel F) : List (GlCommand F) :=
  [.bindShader, .bindVertexBuffer, .bindIndexBuffer,
   .enableAttributeArray "qt_Vertex", .setAttributeBuffer "qt_Vertex" 0 3 0,
   .setUniformValue "qt_LightViewProjectionMatrix" .matrix]
  ++ (model.m_parts.map shadowPartCommands).flatten
  ++ [.releaseIndexBuffer, .releaseVertexBuffer, .releaseShader]

/-- Method `ShadowRenderer::render`. -/
def ShadowRenderer.render (r : ShadowRenderer) (model : ObjModel F) :
    Except Fault (ShadowRenderer × List (GlCommand F)) :=
  let init : List (GlCommand F) :=
    if !r.m_initialized then [.loadShaders ":/shadow_vertex.glsl" ":/shadow_fragment.glsl"]
    else []
  match model.m_vertexBuffer, model.m_indexBuffer with
  | some _, some _ => .ok ({ m_initialized := true }, init ++ shadowCommands model)
  | _, _ => .error .nullPointer

/-- Method `ObjModel::setRenderMode`. -/
def ObjModel.setRenderMode (this : ObjModel F) (mode : RenderMode) : ObjModel F :=
  { this with m_renderMode := mode }

/-- Method `ObjModel::setShadowTextureId`. -/
def ObjModel.setShadowTextureId (this : ObjModel F) (val : Nat) : ObjModel F :=
  { this with m_shadowTextureId := val }

/-- Method `ObjModel::render`: the renderers after it, the model after it and
the renderer invocations it made. -/
def ObjModel.render (qt : Qt F) (rs : Renderers) (this : ObjModel F) :
    Except Fault (Renderers × ObjModel F × List (RendererCall F)) :=
  if this.m_vertexBuffer.isSome && this.m_indexBuffer.isSome && !this.m_parts.isEmpty then
    match this.m_renderMode with
    | .SceneMode =>
      (SceneRenderer.render qt rs.sceneRenderer this).map fun (r, cmds) =>
        ({ rs with sceneRenderer := r }, this, [RendererCall.scene cmds])
    | .ShadowMode =>
      (ShadowRenderer.render rs.shadowRenderer this).map fun (r, cmds) =>
        ({ rs with shadowRenderer := r }, this, [RendererCall.shadow cmds])
  else .ok (rs, this, [])

/-- The public operations of `ObjModel` that touch the modelled members. -/
inductive ModelOp where
  | setRenderMode (mode : RenderMode)
  | setShadowTextureId (val : Nat)
  | render

/-- A sequence of public operations on one model, with the renderer
invocations made on the way. -/
def ObjModel.applyOps (qt : Qt F) :
    Renderers → ObjModel F → List ModelOp →
      Except Fault (Renderers × ObjModel F × List (RendererCall F))
  | rs, this, [] => .ok (rs, this, [])
  | rs, this, .setRenderMode mode :: ops => applyOps qt rs (this.setRenderMode mode) ops
  | rs, this, .setShadowTextureId val :: ops => applyOps qt rs (this.setShadowTextureId val) ops
  | rs, this, .render :: ops =>
    (ObjModel.render qt rs this).bind fun (rs1, this1, calls1) =>
    (applyOps qt rs1 this1 ops).map fun (rs2, this2, calls2) => (rs2, this2, calls1 ++ calls2)

/-! ### The OpenGL state the calls act on -/

/-- The part of the OpenGL context the shaders read: the active texture unit,
the 2D texture bound to each unit, and the uniforms of the bound program. -/
structure GlState (F : Type) where
  activeUnit : Nat
  boundTexture : Nat → Nat
  uniforms : String → Option (UniformValue F)

/-- The effect of one call on the context. -/
def GlState.step (s : GlState F) : GlCommand F → GlState F
  | .activeTexture unit => { s with activeUnit := unit }
  | .bindTexture id =>
    { s with boundTexture := fun u => if u = s.activeUnit then id else s.boundTexture u }
  | .setUniformValue name value =>
    { s with uniforms := fun n => if n = name then some value else s.uniforms n }
  | _ => s

/-- The context after a sequence of calls. -/
def GlState.run (s : GlState F) (cmds : List (GlCommand F)) : GlState F :=
  cmds.foldl GlState.step s

/-- One `glDrawElements` call with the context it is issued in. -/
structure DrawCall (F : Type) where
  state : GlState F
  mode : Int
  count : Int
  offset : Int

/-- The draw calls of a sequence of calls started in context `s`. -/
def drawCalls : GlState F → List (GlCommand F) → List (DrawCall F)
  | _, [] => []
  | s, .drawElements mode count offset :: cmds =>
    ⟨s, mode, count, offset⟩ :: drawCalls s cmds
  | s, c :: cmds => drawCalls (s.step c) cmds

/-- A colour with each of its red, green and blue components multiplied by
`k`, as `setRgbF` builds it. -/
def scaledColor (qt : Qt F) (c : QColor F) (k : F) : QColor F :=
  qt.setRgbF (c.redF * k) (c.greenF * k) (c.blueF * k)

/-- The context in which the scene pass draws a part: the context before the
part with the six material uniforms of the part set. -/
def partState (qt : Qt F) (s : GlState F) (part : Part F) : GlState F :=
  s.run ((scenePartCommands qt part).take 6)

/-- The shadow settings the scene shader reads: the flag `qt_ShadowEnabled`
holds `enabled`, and when it is set the sampler `qt_ShadowMap` is bound to
texture unit 0 and unit 0 holds the texture `handle`. -/
def ShadowSettings (s : GlState F) (enabled : Bool) (handle : Nat) : Prop :=
  s.uniforms "qt_ShadowEnabled" = some (.bool enabled) ∧
    (enabled = true →
      s.uniforms "qt_ShadowMap" = some (.int 0) ∧ s.boundTexture 0 = handle)

/-! ### The windows (`SimpleRenderWindow`, `ShadowRenderWindow`)

Of a frame, the embedding keeps the calls of `ObjModel::render` with the
state of the model at the call, the framebuffer bindings and the cull-face
settings.  The camera and light matrices are not modelled. -/

/-- The members of `ShadowRenderWindow` (and of its base class) that the
frame reads or writes, with the renderer objects. -/
structure RenderWindow (F : Type) where
  m_models : List (ObjModel F)
  m_sceneBounds : BoundingBox F
  m_shadowMapFBO : Nat
  m_shadowMapTex : Nat
  renderers : Renderers

/-- What a frame does, in order. -/
inductive FrameEvent (F : Type) where
  | gl (command : GlCommand F)
  | render (index : Nat) (model : ObjModel F) (calls : List (RendererCall F))

/-- One loop iteration of either pass: `m_models.at(i)`, `setRenderMode`,
`render`. -/
def renderModelAt (qt : Qt F) (mode : RenderMode) (i : Nat) (w : RenderWindow F) :
    Except Fault (RenderWindow F × List (FrameEvent F)) :=
  (itemAt w.m_models (i : Int)).bind fun model =>
  let model1 := model.setRenderMode mode
  (ObjModel.render qt w.renderers model1).bind fun (rs, model2, calls) =>
  .ok ({ w with m_models := w.m_models.set i model2, renderers := rs },
       [FrameEvent.render i model1 calls])

/-- The loop `for(int i=...; i<m_models.size()-1; i++)` of `renderToShadowMap`
with `count` iterations left. -/
def shadowLoop (qt : Qt F) :
    Nat → Nat → RenderWindow F → Except Fault (RenderWindow F × List (FrameEvent F))
  | _, 0, w => .ok (w, [])
  | i, count + 1, w =>
    (renderModelAt qt .ShadowMode i w).bind fun (w1, events1) =>
    (shadowLoop qt (i + 1) count w1).map fun (w2, events2) => (w2, events1 ++ events2)

/-- The loop `for(int i=m_models.size()-1; i>=0; i--)` of `renderToScreen`,
entered with `i = count - 1`. -/
def sceneLoop (qt : Qt F) :
    Nat → RenderWindow F → Except Fault (RenderWindow F × List (FrameEvent F))
  | 0, w => .ok (w, [])
  | count + 1, w =>
    (renderModelAt qt .SceneMode count w).bind fun (w1, events1) =>
    (sceneLoop qt count w1).map fun (w2, events2) => (w2, events1 ++ events2)

/-- Method `ShadowRenderWindow::initDepthMap`; `newTex` and `newFbo` are the
names `glGenTextures` and `glGenFramebuffers` hand out. -/
def initDepthMap (newTex newFbo : Nat) (w : RenderWindow F) : RenderWindow F :=
  if w.m_shadowMapFBO ≠ 0 then w
  else { w with m_shadowMapTex := newTex, m_shadowMapFBO := newFbo }

/-- Method `ShadowRenderWindow::renderToShadowMap`. -/
def renderToShadowMap (qt : Qt F) (newTex newFbo : Nat) (w : RenderWindow F) :
    Except Fault (RenderWindow F × List (FrameEvent F)) :=
  let w1 := initDepthMap newTex newFbo w
  (shadowLoop qt 0 (w1.m_models.length - 1) w1).map fun (w2, events) =>
    (w2, [FrameEvent.gl (.bindFramebuffer w1.m_shadowMapFBO), FrameEvent.gl (.cullFace true)]
      ++ events ++ [FrameEvent.gl (.bindFramebuffer 0)])

/-- Method `SimpleRenderWindow::renderToScreen`. -/
def renderToScreen (qt : Qt F) (w : RenderWindow F) :
    Except Fault (RenderWindow F × List (FrameEvent F)) :=
  (sceneLoop qt w.m_models.length w).map fun (w1, events) =>
    (w1, FrameEvent.gl (.cullFace false) :: events)

/-- Method `ShadowRenderWindow::paintGL`. -/
def ShadowRenderWindow.paintGL (qt : Qt F) (newTex newFbo : Nat) (w : RenderWindow F) :
    Except Fault (RenderWindow F × List (FrameEvent F)) :=
  let w1 := { w with m_models := w.m_models.map fun model => model.setShadowTextureId 0 }
  (renderToShadowMap qt newTex newFbo w1).bind fun (w2, events2) =>
  let w3 :=
    { w2 with m_models := w2.m_models.map fun model =>
                model.setShadowTextureId w2.m_shadowMapTex }
  (renderToScreen qt w3).map fun (w4, events4) => (w4, events2 ++ events4)

/-- The loop `for(int i=1; i<m_models.size()-1; i++) m_sceneBounds |= ...` of
`updateMatricesForScreenRendering` with `count` iterations left. -/
def boundsLoop : Nat → Nat → RenderWindow F → Except Fault (RenderWindow F)
  | _, 0, w => .ok w
  | i, count + 1, w =>
    (itemAt w.m_models (i : Int)).bind fun model =>
    boundsLoop (i + 1) count { w with m_sceneBounds := w.m_sceneBounds.unite model.m_boundingBox }

/-- Method `SimpleRenderWindow::updateMatricesForScreenRendering` up to the end
of its loop; the camera and light matrices computed after it are not modelled. -/
def updateMatricesForScreenRendering (w : RenderWindow F) : Except Fault (RenderWindow F) :=
  if w.m_models.isEmpty then .ok w
  else
    (first w.m_models).bind fun model0 =>
    boundsLoop 1 (w.m_models.length - 1 - 1) { w with m_sceneBounds := model0.m_boundingBox }

/-- A part with its specular colour replaced. -/
def Part.withSpecular (p : Part F) (c : QColor F) : Part F :=
  { p with material := { p.material with color := { p.material.color with specular := c } } }

/-- The calls of `ObjModel::render` in a frame: the index of the model, its
render mode and its shadow-map handle at the call. -/
def renderCalls : List (FrameEvent F) → List (Nat × RenderMode × Nat)
  | [] => []
  | .render index model _ :: events =>
    (index, model.m_renderMode, model.m_shadowTextureId) :: renderCalls events
  | .gl _ :: events => renderCalls events

/-- The `glDrawElements` calls among a sequence of calls: the mode, the count
and the byte offset of each, in order. -/
def drawsOf : List (GlCommand F) → List (Int × Int × Int)
  | [] => []
  | .drawElements mode count offset :: cmds => (mode, count, offset) :: drawsOf cmds
  | _ :: cmds => drawsOf cmds

/-- The two renderers. -/
inductive Pass where
  | shadow
  | scene
  deriving DecidableEq, Repr

/-- The renderer `ObjModel::render` hands a model in the given mode to. -/
def Pass.ofMode : RenderMode → Pass
  | .ShadowMode => .shadow
  | .SceneMode => .scene

/-- Which renderer an invocation ran, with the draws it issued. -/
def RendererCall.summary : RendererCall F → Pass × List (Int × Int × Int)
  | .scene commands => (.scene, drawsOf commands)
  | .shadow commands => (.shadow, drawsOf commands)

/-- The calls of `ObjModel::render` in a frame with what they did: the index
of the model, its render mode and its shadow-map handle at the call, and the
renderer invocations the call made, each with its draws. -/
def renderedModels :
    List (FrameEvent F) → List (Nat × RenderMode × Nat × List (Pass × List (Int × Int × Int)))
  | [] => []
  | .render index model calls :: events =>
    (index, model.m_renderMode, model.m_shadowTextureId, calls.map RendererCall.summary) ::
      renderedModels events
  | .gl _ :: events => renderedModels events

/-- What rendering `model` through the renderer `pass` amounts to: nothing when
a buffer is missing or the model has no part, otherwise one invocation of the
renderer that draws every part of the model, in list order, with its type, its
length as count and `start * 4` as byte offset. -/
def renderingOf (pass : Pass) (model : ObjModel F) : List (Pass × List (Int × Int × Int)) :=
  if model.m_vertexBuffer.isSome && model.m_indexBuffer.isSome && !model.m_parts.isEmpty then
    [(pass, model.m_parts.map fun p => (p.type, p.length, p.start * 4))]
  else []

/-- The rendering of the model at position `i` of a model list; nothing when
there is no such model. -/
def renderingAt (pass : Pass) (models : List (ObjModel F)) (i : Nat) :
    List (Pass × List (Int × Int × Int)) :=
  match models.get? i with
  | some model => renderingOf pass model
  | none => []

/-- All models of the window carry the shadow-map handle `k`. -/
def AllHandles (w : RenderWindow F) (k : Nat) : Prop :=
  ∀ m ∈ w.m_models, m.m_shadowTextureId = k

end Rendering

/-! ## Concrete inputs for the renderers and the material table -/

/-- A file system in which no file can be opened. -/
def noFiles : FileSystem := fun _ => none

/-- An OpenGL context with nothing bound and no uniform set. -/
def glInitial : GlState ℚ :=
  { activeUnit := 0, boundTexture := fun _ => 0, uniforms := fun _ => none }

/-- The model of the worked example with shadow-map handle 7 attached. -/
def shadowedTriangle : ObjModel ℚ :=
  triangleModel.setShadowTextureId 7

/-- A material file: a property ahead of the first block, a block that sets
`Kd` twice, an empty block and a last block. -/
def materialText : List String :=
  ["# materials\n", "Ka 1 1 1\n",
   "newmtl paint\n", "Kd 1 0 0\n", "Ns 10\n", "\n", "Kd 0 1 0 0.5\n",
   "newmtl bare\n",
   "newmtl steel\n", "Ns 100\n"]

/-- A file system holding `materialText`. -/
def materialFile : FileSystem :=
  oneFile "/m/t.mtl" materialText

/-- A mesh with one `o` line whose two faces are separated by a `usemtl` line;
the material file is the one of `twoParts`. -/
def twoMaterials : FileSystem := fun p =>
  if p = "/m/t.obj" then
    some ["mtllib t.mtl\n", "v 0 0 0\n", "v 1 0 0\n", "v 0 1 0\n", "vn 0 0 1\n",
      "o body\n", "usemtl glass\n", "f 1//1 2//1 3//1\n",
      "usemtl steel\n", "f 3//1 2//1 1//1\n"]
  else if p = "/mt.mtl" then
    some ["newmtl glass\n", "Ns 10\n", "d 0.5\n", "newmtl steel\n", "Ns 100\n", "d 1\n"]
  else none

/-- The model `twoMaterials` loads: one part holding both faces, with the
settings of `steel`. -/
def twoMaterialsModel : ObjModel ℚ :=
  { twoPartsModel with
      m_parts :=
        [{ type := GL_TRIANGLES, start := 0, length := 6
           material :=
             { (Part.init : Part ℚ).material with
                 intensity := ⟨1 / 10, 1, 3 / 10⟩, opacity := 1, brightness := 1 } }] }

/-- The worked example without its `o` line. -/
def noObjectText : List String :=
  ["v 0 0 0\n", "v 1 0 0\n", "v 0 1 0\n", "vn 0 0 1\n", "f 1/1/1 2/1/1 3/1/1\n"]

/-- A model with no buffers whose bounding box is the cube from `lo` to `hi`. -/
def boxModel (lo hi : ℚ) : ObjModel ℚ :=
  { (ObjModel.init : ObjModel ℚ) with m_boundingBox := ⟨⟨lo, hi⟩, ⟨lo, hi⟩, ⟨lo, hi⟩⟩ }

/-- A window over the given models. -/
def windowOf (models : List (ObjModel ℚ)) : RenderWindow ℚ :=
  { m_models := models
    m_sceneBounds := BoundingBox.init
    m_shadowMapFBO := 0
    m_shadowMapTex := 0
    renderers := ⟨⟨false⟩, ⟨false⟩⟩ }

/-- A mesh with two `o` blocks and no material: both parts have opacity 1. -/
def equalOpacityText : List String :=
  ["v 0 0 0\n", "v 1 0 0\n", "v 0 1 0\n", "vn 0 0 1\n",
   "o first\n", "f 1//1 2//1 3//1\n", "o second\n", "f 3//1 2//1 1//1\n"]

/-- A window whose second model has no buffers: the worked example, a model
built from a file that cannot be opened, and the two-part model. -/
def mixedModels : RenderWindow ℚ :=
  { m_models := [triangleModel, ObjModel.init, twoPartsModel]
    m_sceneBounds := BoundingBox.init
    m_shadowMapFBO := 0
    m_shadowMapTex := 0
    renderers := ⟨⟨false⟩, ⟨false⟩⟩ }

/-- A material with every property the `usemtl` branch reads. -/
def fullProps : MaterialProps ℚ :=
  ⟨[("Ns", [100]), ("d", [1 / 2]), ("Tr", [1 / 4]), ("illum", [2])]⟩

/-- The loader state in which the two faces of `twoMaterials` are read: the
positions and the normal are parsed, the `o` line has opened a part and the
material file is loaded. -/
def twoMaterialsStart : LoadState ℚ :=
  { triangleState with materials := LoadMaterials refQt twoMaterials "/mt.mtl" }

/-- The loader state after `usemtl glass`, a face, `usemtl steel` and a second
face, read from `twoMaterialsStart`. -/
def twoMaterialsEnd : LoadState ℚ :=
  { twoMaterialsStart with
      uncompressed :=
        ⟨[⟨0, 0, 0⟩, ⟨1, 0, 0⟩, ⟨0, 1, 0⟩, ⟨0, 1, 0⟩, ⟨1, 0, 0⟩, ⟨0, 0, 0⟩],
         [⟨0, 0, 1⟩, ⟨0, 0, 1⟩, ⟨0, 0, 1⟩, ⟨0, 0, 1⟩, ⟨0, 0, 1⟩, ⟨0, 0, 1⟩]⟩
      indexes := [0, 1, 2, 3, 4, 5]
      currentPart :=
        { type := GL_TRIANGLES, start := 0, length := 6
          material :=
            { (Part.init : Part ℚ).material with
                intensity := ⟨1 / 10, 1, 3 / 10⟩, opacity := 1, brightness := 1 } } }

/-- A loader state whose material table holds `fullProps` under the name `full`. -/
def fullPropsState : LoadState ℚ :=
  { triangleState with materials := ⟨[("full", fullProps)]⟩ }

end BikeShadows

/-! ## The marks of the screen ruler (`screenruler.h`, `screenruler.cpp`) -/

namespace ScreenRulerMarks

/-- Qt `Qt::Orientation`. -/
inductive Orientation where
  | Horizontal
  | Vertical
  deriving DecidableEq, Repr

/-- Qt `QPointF`. -/
structure QPointF (R : Type) where
  x : R
  y : R

/-- The members of `ScreenRuler` that `mark` and `clearMarks` read or write,
with the number of repaints requested through `update()`. -/
structure ScreenRuler (R : Type) where
  m_marks : List R
  m_orientation : Orientation
  updates : Nat

/-- A freshly constructed ruler: no marks, horizontal. -/
def ScreenRuler.init {R : Type} : ScreenRuler R :=
  { m_marks := [], m_orientation := .Horizontal, updates := 0 }

/-- Method `ScreenRuler::mark()`; `pos` is `mapFromGlobal(QCursor::pos())`. -/
def ScreenRuler.mark {R : Type} (this : ScreenRuler R) (pos : QPointF R) : ScreenRuler R :=
  if this.m_marks.length ≥ 20 then this
  else
    let mark := if this.m_orientation = .Horizontal then pos.x else pos.y
    { this with m_marks := this.m_marks ++ [mark], updates := this.updates + 1 }

/-- Method `ScreenRuler::clearMarks()`. -/
def ScreenRuler.clearMarks {R : Type} (this : ScreenRuler R) : ScreenRuler R :=
  { this with m_marks := [], updates := this.updates + 1 }

/-- A call of `mark()` with the cursor position it reads, or of `clearMarks()`. -/
inductive MarkOp (R : Type) where
  | mark (pos : QPointF R)
  | clearMarks

/-- The ruler after one call. -/
def ScreenRuler.apply {R : Type} (this : ScreenRuler R) : MarkOp R → ScreenRuler R
  | .mark pos => this.mark pos
  | .clearMarks => this.clearMarks

/-- The ruler after a sequence of calls. -/
def ScreenRuler.run {R : Type} (this : ScreenRuler R) (ops : List (MarkOp R)) : ScreenRuler R :=
  ops.foldl ScreenRuler.apply this

end ScreenRulerMarks

namespace BikeShadows

/-! ## Properties of the loader -/

section Properties

set_option linter.unusedSectionVars false

variable {F : Type} [LinearOrderedField F]

theorem splitChars_ne_nil (sep : Char → Bool) (cs : List Char) : splitChars sep cs ≠ [] := by
  cases cs with
  | nil => simp [splitChars]
  | cons c cs =>
    unfold splitChars
    split
    · simp
    · split <;> simp

theorem splitChars_head (sep : Char → Bool) (c : Char) (cs : List Char) (h : sep c = false) :
    ∃ w ws, splitChars sep (c :: cs) = (c :: w) :: ws := by
  rw [splitChars]
  simp only [h, Bool.false_eq_true, if_false]
  cases splitChars sep cs with
  | nil => exact ⟨[], [], rfl⟩
  | cons w ws => exact ⟨w, ws, rfl⟩

theorem startsWith_hash_of_fields {s t : String} {rest : List String}
    (h : split ' ' true s = t :: rest) (hs : startsWith s "#" = true) :
    startsWith t "#" = true := by
  obtain ⟨cs⟩ := s
  cases cs with
  | nil => simp [startsWith, List.isPrefixOf] at hs
  | cons c cs =>
    have hc : c = '#' := by
      have : '#' = c := by simpa [startsWith, List.isPrefixOf] using hs
      exact this.symm
    subst hc
    obtain ⟨w, ws, hw⟩ := splitChars_head (fun c => c == ' ') '#' cs (by decide)
    simp only [split, hw, if_true, List.filter_cons, List.isEmpty_cons, Bool.not_false,
      List.map_cons, List.cons.injEq] at h
    rw [← h.1]
    simp [startsWith, List.isPrefixOf]


theorem loadLine_face (qt : Qt F) (fs : FileSystem) (fn : String) (st : LoadState F)
    (raw : String) (rest : List String) (h : fieldsOf raw = "f" :: rest) :
    loadLine qt fs fn st raw = addFace qt st ("f" :: rest) := by
  have hs : startsWith (simplified raw) "#" = false := by
    cases hc : startsWith (simplified raw) "#" with
    | false => rfl
    | true =>
      have := startsWith_hash_of_fields h hc
      exact absurd this (by decide)
  simp [loadLine, loadFields, hs, h]

theorem first_of_ne_nil {α : Type} (l : List α) (d : α) (h : l ≠ []) :
    first l = .ok (l.head?.getD d) := by
  cases l with
  | nil => exact absurd rfl h
  | cons x xs => rfl

theorem last_of_ne_nil {α : Type} (l : List α) (d : α) (h : l ≠ []) :
    last l = .ok (l.getLast?.getD d) := by
  induction l with
  | nil => exact absurd rfl h
  | cons x xs ih =>
    cases xs with
    | nil => rfl
    | cons y ys =>
      rw [last, ih (List.cons_ne_nil y ys)]
      simp [List.getLast?_cons_cons]

theorem split_keep_ne_nil (sep : Char) (s : String) : split sep false s ≠ [] := by
  simp [split, splitChars_ne_nil]

theorem cornerIndices_eq (qt : Qt F) (tok : String) :
    cornerIndices qt tok =
      .ok (wrapInt32 (qt.toInt (positionToken tok) - 1),
           wrapInt32 (qt.toInt (normalToken tok) - 1)) := by
  unfold cornerIndices positionToken normalToken
  rw [first_of_ne_nil _ "" (split_keep_ne_nil '/' tok),
    last_of_ne_nil _ "" (split_keep_ne_nil '/' tok)]
  rfl

theorem wrapInt32_pred (n : Int) (h1 : -2147483648 < n) (h2 : n ≤ 2147483647) :
    wrapInt32 (n - 1) = n - 1 := by
  unfold wrapInt32
  omega

theorem itemAt_ok {α : Type} (xs : List α) (i : Int) (x : α) (h0 : 0 ≤ i)
    (hx : xs[i.toNat]? = some x) : itemAt xs i = .ok x := by
  simp [itemAt, h0, hx]

theorem itemAt_neg {α : Type} (xs : List α) (i : Int) (h : i < 0) :
    itemAt xs i = .error .indexOutOfRange := by
  simp [itemAt, not_le.mpr h]

theorem addFace_corners (qt : Qt F) (st : LoadState F) (t ta tb tc : String) :
    addFace qt st [t, ta, tb, tc] =
      (let a := wrapInt32 (qt.toInt (positionToken ta) - 1)
       let b := wrapInt32 (qt.toInt (positionToken tb) - 1)
       let c := wrapInt32 (qt.toInt (positionToken tc) - 1)
       let na := wrapInt32 (qt.toInt (normalToken ta) - 1)
       let nb := wrapInt32 (qt.toInt (normalToken tb) - 1)
       let nc := wrapInt32 (qt.toInt (normalToken tc) - 1)
       let cgs : Int := st.compressed.geometry.length
       let cns : Int := st.compressed.normals.length
       if a ≥ cgs ∨ b ≥ cgs ∨ c ≥ cgs then .ok st
       else if na ≥ cns ∨ nb ≥ cns ∨ nc ≥ cns then .ok st
       else appendFace st a b c na nb nc) := by
  simp [addFace, itemAt, cornerIndices_eq, Except.bind]

/-- C8: for every loader state, an `f` line whose number of corners is not
3 leaves the loader state (index array, uncompressed arrays, current part)
unchanged. -/
theorem face_with_other_than_three_corners_dropped (qt : Qt F) (fs : FileSystem)
    (fileName : String) (st : LoadState F) (rawLine : String) (corners : List String)
    (hf : fieldsOf rawLine = "f" :: corners) (hn : corners.length ≠ 3) :
    loadLine qt fs fileName st rawLine = .ok st := by
  rw [loadLine_face qt fs fileName st rawLine corners hf]
  simp [addFace, hn]

/-- C6: for every loader state and every face line with three corners in
which some position index exceeds the number of positions parsed so far, or
some normal index exceeds the number of normals parsed so far, the loop body
leaves the loader state (index array, uncompressed arrays, current part)
unchanged. -/
theorem face_beyond_parsed_arrays_dropped (qt : Qt F) (fs : FileSystem)
    (fileName : String) (st : LoadState F) (rawLine ta tb tc : String)
    (hf : fieldsOf rawLine = ["f", ta, tb, tc])
    (hbad :
      ((st.compressed.geometry.length : Int) < qt.toInt (positionToken ta) ∨
        (st.compressed.geometry.length : Int) < qt.toInt (positionToken tb) ∨
        (st.compressed.geometry.length : Int) < qt.toInt (positionToken tc)) ∨
      ((st.compressed.normals.length : Int) < qt.toInt (normalToken ta) ∨
        (st.compressed.normals.length : Int) < qt.toInt (normalToken tb) ∨
        (st.compressed.normals.length : Int) < qt.toInt (normalToken tc))) :
    loadLine qt fs fileName st rawLine = .ok st := by
  rw [loadLine_face qt fs fileName st rawLine _ hf, addFace_corners]
  have key : ∀ (n : Nat) (s : String), (n : Int) < qt.toInt s →
      wrapInt32 (qt.toInt s - 1) ≥ (n : Int) := by
    intro n s h
    have hr := qt.toInt_range s
    rw [wrapInt32_pred _ (by omega) hr.2]
    omega
  simp only []
  rcases hbad with h | h
  · have : wrapInt32 (qt.toInt (positionToken ta) - 1) ≥ (st.compressed.geometry.length : Int) ∨
        wrapInt32 (qt.toInt (positionToken tb) - 1) ≥ (st.compressed.geometry.length : Int) ∨
        wrapInt32 (qt.toInt (positionToken tc) - 1) ≥ (st.compressed.geometry.length : Int) := by
      rcases h with h | h | h
      · exact Or.inl (key _ _ h)
      · exact Or.inr (Or.inl (key _ _ h))
      · exact Or.inr (Or.inr (key _ _ h))
    rw [if_pos this]
  · have : wrapInt32 (qt.toInt (normalToken ta) - 1) ≥ (st.compressed.normals.length : Int) ∨
        wrapInt32 (qt.toInt (normalToken tb) - 1) ≥ (st.compressed.normals.length : Int) ∨
        wrapInt32 (qt.toInt (normalToken tc) - 1) ≥ (st.compressed.normals.length : Int) := by
      rcases h with h | h | h
      · exact Or.inl (key _ _ h)
      · exact Or.inr (Or.inl (key _ _ h))
      · exact Or.inr (Or.inr (key _ _ h))
    rw [if_pos this]
    split <;> rfl

theorem exists_item {α : Type} (xs : List α) (n : Int) (h1 : 1 ≤ n) (h2 : n ≤ xs.length) :
    ∃ x, xs[(n - 1).toNat]? = some x := by
  have : (n - 1).toNat < xs.length := by omega
  exact ⟨xs[(n - 1).toNat], List.getElem?_eq_getElem this⟩

theorem appendFace_ok (st : LoadState F) (a b c na nb nc : Int)
    (ga gb gc va vb vc : QVector3D F)
    (ha : itemAt st.compressed.geometry a = .ok ga)
    (hb : itemAt st.compressed.geometry b = .ok gb)
    (hc : itemAt st.compressed.geometry c = .ok gc)
    (hna : itemAt st.compressed.normals na = .ok va)
    (hnb : itemAt st.compressed.normals nb = .ok vb)
    (hnc : itemAt st.compressed.normals nc = .ok vc) :
    ∃ st1, appendFace st a b c na nb nc = .ok st1 ∧
      st1.uncompressed.geometry = st.uncompressed.geometry ++ [ga, gb, gc] ∧
      st1.uncompressed.normals = st.uncompressed.normals ++ [va, vb, vc] ∧
      st1.indexes = st.indexes ++
        [(st.uncompressed.geometry.length : Int), (st.uncompressed.geometry.length : Int) + 1,
         (st.uncompressed.geometry.length : Int) + 2] := by
  simp [appendFace, ha, hb, hc, hna, hnb, hnc, Except.bind]

/-- C2: for every loader state and every face line with three corners
whose 1-based position indices (first slash-delimited token) and normal
indices (last slash-delimited token) are within range of the compressed
arrays, the loop body appends to the uncompressed arrays exactly the
positions `compressed[a-1]`, `compressed[b-1]`, `compressed[c-1]` and the
normals `compressedNormals[na-1]`, `[nb-1]`, `[nc-1]`, in that order, and
appends the indices `i`, `i+1`, `i+2`, where `i` is the uncompressed vertex
count before the face. -/
theorem face_in_range_appends_three (qt : Qt F) (fs : FileSystem)
    (fileName : String) (st : LoadState F) (rawLine ta tb tc : String)
    (hf : fieldsOf rawLine = ["f", ta, tb, tc])
    (ha : 1 ≤ qt.toInt (positionToken ta) ∧
      qt.toInt (positionToken ta) ≤ st.compressed.geometry.length)
    (hb : 1 ≤ qt.toInt (positionToken tb) ∧
      qt.toInt (positionToken tb) ≤ st.compressed.geometry.length)
    (hc : 1 ≤ qt.toInt (positionToken tc) ∧
      qt.toInt (positionToken tc) ≤ st.compressed.geometry.length)
    (hna : 1 ≤ qt.toInt (normalToken ta) ∧
      qt.toInt (normalToken ta) ≤ st.compressed.normals.length)
    (hnb : 1 ≤ qt.toInt (normalToken tb) ∧
      qt.toInt (normalToken tb) ≤ st.compressed.normals.length)
    (hnc : 1 ≤ qt.toInt (normalToken tc) ∧
      qt.toInt (normalToken tc) ≤ st.compressed.normals.length) :
    ∃ ga gb gc va vb vc st1,
      st.compressed.geometry[(qt.toInt (positionToken ta) - 1).toNat]? = some ga ∧
      st.compressed.geometry[(qt.toInt (positionToken tb) - 1).toNat]? = some gb ∧
      st.compressed.geometry[(qt.toInt (positionToken tc) - 1).toNat]? = some gc ∧
      st.compressed.normals[(qt.toInt (normalToken ta) - 1).toNat]? = some va ∧
      st.compressed.normals[(qt.toInt (normalToken tb) - 1).toNat]? = some vb ∧
      st.compressed.normals[(qt.toInt (normalToken tc) - 1).toNat]? = some vc ∧
      loadLine qt fs fileName st rawLine = .ok st1 ∧
      st1.uncompressed.geometry = st.uncompressed.geometry ++ [ga, gb, gc] ∧
      st1.uncompressed.normals = st.uncompressed.normals ++ [va, vb, vc] ∧
      st1.indexes = st.indexes ++
        [(st.uncompressed.geometry.length : Int), (st.uncompressed.geometry.length : Int) + 1,
         (st.uncompressed.geometry.length : Int) + 2] := by
  obtain ⟨ga, hga⟩ := exists_item _ _ ha.1 ha.2
  obtain ⟨gb, hgb⟩ := exists_item _ _ hb.1 hb.2
  obtain ⟨gc, hgc⟩ := exists_item _ _ hc.1 hc.2
  obtain ⟨va, hva⟩ := exists_item _ _ hna.1 hna.2
  obtain ⟨vb, hvb⟩ := exists_item _ _ hnb.1 hnb.2
  obtain ⟨vc, hvc⟩ := exists_item _ _ hnc.1 hnc.2
  have w : ∀ s : String, 1 ≤ qt.toInt s → wrapInt32 (qt.toInt s - 1) = qt.toInt s - 1 := by
    intro s h
    exact wrapInt32_pred _ (by omega) (qt.toInt_range s).2
  obtain ⟨st1, h1, h2, h3, h4⟩ := appendFace_ok st _ _ _ _ _ _ ga gb gc va vb vc
    (itemAt_ok _ _ _ (by omega) hga) (itemAt_ok _ _ _ (by omega) hgb)
    (itemAt_ok _ _ _ (by omega) hgc) (itemAt_ok _ _ _ (by omega) hva)
    (itemAt_ok _ _ _ (by omega) hvb) (itemAt_ok _ _ _ (by omega) hvc)
  refine ⟨ga, gb, gc, va, vb, vc, st1, hga, hgb, hgc, hva, hvb, hvc, ?_, h2, h3, h4⟩
  rw [loadLine_face qt fs fileName st rawLine _ hf, addFace_corners]
  simp only [w _ ha.1, w _ hb.1, w _ hc.1, w _ hna.1, w _ hnb.1, w _ hnc.1]
  rw [if_neg (by omega), if_neg (by omega)]
  exact h1


theorem bind_eq_ok {ε α β : Type} (x : Except ε α) (f : α → Except ε β) (y : β) :
    x.bind f = .ok y ↔ ∃ a, x = .ok a ∧ f a = .ok y := by
  cases x with
  | error e => simp [Except.bind]
  | ok a => simp [Except.bind]

theorem map_eq_ok {ε α β : Type} (x : Except ε α) (f : α → β) (y : β) :
    x.map f = .ok y ↔ ∃ a, x = .ok a ∧ f a = y := by
  cases x with
  | error e => simp [Except.map]
  | ok a => simp [Except.map]

theorem appendFace_grown (st st1 : LoadState F) (a b c na nb nc : Int)
    (h : appendFace st a b c na nb nc = .ok st1) : Grown st st1 := by
  unfold appendFace at h
  simp only [bind_eq_ok] at h
  obtain ⟨ga, -, gb, -, gc, -, va, -, vb, -, vc, -, h⟩ := h
  simp only [Except.ok.injEq] at h
  subst h
  simp [Grown]

theorem addVertex_same (qt : Qt F) (st st1 : LoadState F) (type : String) (fields : List String)
    (h : addVertex qt st type fields = .ok st1) : Same st st1 := by
  unfold addVertex at h
  simp only [bind_eq_ok] at h
  obtain ⟨f1, -, f2, -, f3, -, h⟩ := h
  split at h <;>
  · simp only [Except.ok.injEq] at h
    subst h
    simp [Same]

theorem faceAccepted_of_not_f (qt : Qt F) (st : LoadState F) (raw type : String)
    (rest : List String) (hf : fieldsOf raw = type :: rest) (ht : type ≠ "f") :
    faceAccepted qt st raw = false := by
  unfold faceAccepted
  rw [hf]
  simp only [Bool.and_eq_false_imp]
  intro _
  split
  · rename_i heq
    simp only [List.cons.injEq] at heq
    simp [← heq.1, ht]
  · rfl

theorem loadLine_step (qt : Qt F) (fs : FileSystem) (fn : String) (st st1 : LoadState F)
    (raw : String) (h : loadLine qt fs fn st raw = .ok st1) :
    (faceAccepted qt st raw = false ∧ Same st st1) ∨
      (faceAccepted qt st raw = true ∧ Grown st st1) := by
  cases hs : startsWith (simplified raw) "#" with
  | true =>
    simp only [loadLine, hs, if_true, Except.ok.injEq] at h
    subst h
    left
    simp [faceAccepted, hs, Same]
  | false =>
    cases hfields : fieldsOf raw with
    | nil =>
      simp only [loadLine, loadFields, hs, hfields, Bool.false_eq_true, if_false,
        Except.ok.injEq] at h
      subst h
      left
      simp [faceAccepted, hfields, Same]
    | cons type rest =>
      simp only [loadLine, loadFields, hs, hfields, Bool.false_eq_true, if_false] at h
      by_cases h5 : type = "f"
      · subst h5
        simp only [String.reduceEq, if_false, false_or, if_true] at h
        by_cases hl : rest.length = 3
        · obtain ⟨ta, tb, tc, hrest⟩ := List.length_eq_three.mp hl
          subst hrest
          rw [addFace_corners] at h
          have hacc : faceAccepted qt st raw =
              (!decide (wrapInt32 (qt.toInt (positionToken ta) - 1) ≥
                    (st.compressed.geometry.length : Int) ∨
                  wrapInt32 (qt.toInt (positionToken tb) - 1) ≥
                    (st.compressed.geometry.length : Int) ∨
                  wrapInt32 (qt.toInt (positionToken tc) - 1) ≥
                    (st.compressed.geometry.length : Int)) &&
                !decide (wrapInt32 (qt.toInt (normalToken ta) - 1) ≥
                    (st.compressed.normals.length : Int) ∨
                  wrapInt32 (qt.toInt (normalToken tb) - 1) ≥
                    (st.compressed.normals.length : Int) ∨
                  wrapInt32 (qt.toInt (normalToken tc) - 1) ≥
                    (st.compressed.normals.length : Int))) := by
            simp [faceAccepted, hs, hfields]
          rw [hacc]
          simp only [] at h
          split_ifs at h with hg hn
          · simp only [Except.ok.injEq] at h
            subst h
            left
            simp [hg, Same]
          · simp only [Except.ok.injEq] at h
            subst h
            left
            simp [hn, Same]
          · right
            exact ⟨by simp [hg, hn], appendFace_grown st st1 _ _ _ _ _ _ h⟩
        · have hl4 : ("f" :: rest).length ≠ 4 := by simpa using hl
          simp only [addFace, hl4, ne_eq, not_false_eq_true, if_true, Except.ok.injEq] at h
          subst h
          left
          refine ⟨?_, by simp [Same]⟩
          unfold faceAccepted
          rw [hfields]
          simp only [Bool.and_eq_false_imp]
          intro _
          split
          · rename_i heq
            simp only [List.cons.injEq] at heq
            exact absurd (by rw [heq.2]; rfl) hl
          · rfl
      · left
        refine ⟨faceAccepted_of_not_f qt st raw type rest hfields h5, ?_⟩
        split_ifs at h
        all_goals first
          | exact addVertex_same qt st st1 _ _ h
          | (simp only [Except.ok.injEq] at h
             subst h
             simp [Same])
          | (rw [map_eq_ok] at h
             obtain ⟨part, -, h⟩ := h
             subst h
             simp [Same])


theorem parseLines_counts (qt : Qt F) (fs : FileSystem) (fn : String) (lines : List String) :
    ∀ (st st1 : LoadState F) (n : Nat), parseLines qt fs fn st lines = .ok st1 →
      st.indexes.length = 3 * n → st.uncompressed.geometry.length = 3 * n →
      st.uncompressed.normals.length = 3 * n →
      st1.indexes.length = 3 * (n + acceptedFaces qt fs fn st lines) ∧
        st1.uncompressed.geometry.length = 3 * (n + acceptedFaces qt fs fn st lines) ∧
        st1.uncompressed.normals.length = 3 * (n + acceptedFaces qt fs fn st lines) := by
  induction lines with
  | nil =>
    intro st st1 n h hi hg hn
    simp only [parseLines, Except.ok.injEq] at h
    subst h
    simp [acceptedFaces, hi, hg, hn]
  | cons l ls ih =>
    intro st st1 n h hi hg hn
    cases hl : loadLine qt fs fn st l with
    | error e => simp [parseLines, hl] at h
    | ok st2 =>
      simp only [parseLines, hl] at h
      simp only [acceptedFaces, hl]
      rcases loadLine_step qt fs fn st st2 l hl with ⟨hacc, hsame⟩ | ⟨hacc, hgrown⟩
      · obtain ⟨e1, e2, e3⟩ := hsame
        have := ih st2 st1 n h (by rw [e1, hi]) (by rw [e2, hg]) (by rw [e3, hn])
        simpa [hacc] using this
      · obtain ⟨e1, e2, e3⟩ := hgrown
        have := ih st2 st1 (n + 1) h (by rw [e1]; simp; omega) (by omega) (by omega)
        simpa [hacc, Nat.add_assoc] using this

theorem parseLines_index_bound (qt : Qt F) (fs : FileSystem) (fn : String)
    (lines : List String) :
    ∀ (st st1 : LoadState F), parseLines qt fs fn st lines = .ok st1 →
      (∀ i ∈ st.indexes, 0 ≤ i ∧ i < (st.uncompressed.geometry.length : Int)) →
      ∀ i ∈ st1.indexes, 0 ≤ i ∧ i < (st1.uncompressed.geometry.length : Int) := by
  induction lines with
  | nil =>
    intro st st1 h hinv
    simp only [parseLines, Except.ok.injEq] at h
    subst h
    exact hinv
  | cons l ls ih =>
    intro st st1 h hinv
    cases hl : loadLine qt fs fn st l with
    | error e => simp [parseLines, hl] at h
    | ok st2 =>
      simp only [parseLines, hl] at h
      apply ih st2 st1 h
      rcases loadLine_step qt fs fn st st2 l hl with ⟨-, e1, e2, -⟩ | ⟨-, e1, e2, -⟩
      · rw [e1, e2]
        exact hinv
      · intro i hi
        rw [e1] at hi
        rw [e2]
        simp only [List.mem_append, List.mem_cons, List.mem_singleton, List.not_mem_nil,
          or_false] at hi
        rcases hi with hi | hi | hi | hi
        · have := hinv i hi
          omega
        all_goals omega

theorem load_ok_iff (qt : Qt F) (fs : FileSystem) (this m : ObjModel F) (fn : String)
    (lines : List String) (hfs : fs fn = some lines) :
    ObjModel.load qt fs this fn = .ok m ↔
      ∃ st, parseLines qt fs fn (LoadState.init this) lines = .ok st ∧ m = finishLoad this st := by
  unfold ObjModel.load parseFile
  rw [hfs]
  simp only [Option.map_some']
  cases parseLines qt fs fn (LoadState.init this) lines with
  | error e => simp
  | ok st => simp [eq_comm]

/-- C3: whenever `ObjModel::load` completes on a mesh text, every value of
the final index array is non-negative and strictly less than the number of
uncompressed vertices. -/
theorem index_values_below_vertex_count (qt : Qt F) (fs : FileSystem) (this m : ObjModel F)
    (fileName : String) (lines : List String) (hfs : fs fileName = some lines)
    (h : ObjModel.load qt fs this fileName = .ok m) :
    ∃ st, parseLines qt fs fileName (LoadState.init this) lines = .ok st ∧
      m.m_indexBuffer = some st.indexes ∧
      m.m_vertexBuffer = some (st.uncompressed.geometry ++ st.uncompressed.normals) ∧
      ∀ i ∈ st.indexes, 0 ≤ i ∧ i < (st.uncompressed.geometry.length : Int) := by
  obtain ⟨st, hst, hm⟩ := (load_ok_iff qt fs this m fileName lines hfs).mp h
  refine ⟨st, hst, by rw [hm]; rfl, by rw [hm]; rfl, ?_⟩
  exact parseLines_index_bound qt fs fileName lines _ st hst (by simp [LoadState.init])

/-- C4: whenever `ObjModel::load` completes on a mesh text in which `N`
face lines are accepted, the final index array, the uncompressed position
array and the uncompressed normal array each have exactly `3 * N` entries,
whatever vertices the faces share. -/
theorem three_entries_per_accepted_face (qt : Qt F) (fs : FileSystem) (this m : ObjModel F)
    (fileName : String) (lines : List String) (hfs : fs fileName = some lines)
    (h : ObjModel.load qt fs this fileName = .ok m) :
    ∃ st, parseLines qt fs fileName (LoadState.init this) lines = .ok st ∧
      m.m_indexBuffer = some st.indexes ∧
      m.m_vertexBuffer = some (st.uncompressed.geometry ++ st.uncompressed.normals) ∧
      st.indexes.length = 3 * acceptedFaces qt fs fileName (LoadState.init this) lines ∧
      st.uncompressed.geometry.length =
        3 * acceptedFaces qt fs fileName (LoadState.init this) lines ∧
      st.uncompressed.normals.length =
        3 * acceptedFaces qt fs fileName (LoadState.init this) lines := by
  obtain ⟨st, hst, hm⟩ := (load_ok_iff qt fs this m fileName lines hfs).mp h
  refine ⟨st, hst, by rw [hm]; rfl, by rw [hm]; rfl, ?_⟩
  have := parseLines_counts qt fs fileName lines _ st 0 hst (by simp [LoadState.init])
    (by simp [LoadState.init]) (by simp [LoadState.init])
  simpa using this


theorem mem_sortedInsert {α : Type} (lt : α → α → Bool) (x z : α) (l : List α) :
    z ∈ sortedInsert lt x l ↔ z = x ∨ z ∈ l := by
  induction l with
  | nil => simp [sortedInsert]
  | cons y ys ih =>
    unfold sortedInsert
    split
    · simp only [List.mem_cons, ih]
      tauto
    · simp

theorem sortedInsert_descending (x : Part F) (l : List (Part F))
    (hl : l.Pairwise (fun p1 p2 => p1.material.opacity ≥ p2.material.opacity)) :
    (sortedInsert Part.lt x l).Pairwise
      (fun p1 p2 => p1.material.opacity ≥ p2.material.opacity) := by
  induction l with
  | nil => simp [sortedInsert]
  | cons y ys ih =>
    rw [List.pairwise_cons] at hl
    unfold sortedInsert
    split
    · rename_i hlt
      have hyx : y.material.opacity > x.material.opacity := by
        simpa [Part.lt] using hlt
      refine List.Pairwise.cons ?_ (ih hl.2)
      intro z hz
      rcases (mem_sortedInsert _ _ _ _).mp hz with hz | hz
      · rw [hz]
        exact le_of_lt hyx
      · exact hl.1 z hz
    · rename_i hlt
      have hyx : ¬ y.material.opacity > x.material.opacity := by
        simpa [Part.lt] using hlt
      refine List.Pairwise.cons ?_ (List.Pairwise.cons hl.1 hl.2)
      intro z hz
      rcases List.mem_cons.mp hz with hz | hz
      · rw [hz]
        exact not_lt.mp hyx
      · exact le_trans (hl.1 z hz) (not_lt.mp hyx)

theorem stdSort_descending (l : List (Part F)) :
    (stdSort Part.lt l).Pairwise
      (fun p1 p2 => p1.material.opacity ≥ p2.material.opacity) := by
  induction l with
  | nil => simp [stdSort]
  | cons x xs ih => exact sortedInsert_descending x _ ih

/-- C5: after `ObjModel::load` finishes, any two adjacent parts `p1`, `p2`
of the part list satisfy `p1.material.opacity >= p2.material.opacity`. -/
theorem parts_sorted_by_descending_opacity (qt : Qt F) (fs : FileSystem)
    (fileName : String) (m : ObjModel F) (h : ObjModel.create qt fs fileName = .ok m) :
    List.Chain' (fun p1 p2 => p1.material.opacity ≥ p2.material.opacity) m.m_parts := by
  unfold ObjModel.create ObjModel.load parseFile at h
  cases hfs : fs fileName with
  | none =>
    simp only [hfs, Option.map_none', Except.ok.injEq] at h
    subst h
    simp [ObjModel.init]
  | some lines =>
    simp only [hfs, Option.map_some'] at h
    cases hp : parseLines qt fs fileName (LoadState.init ObjModel.init) lines with
    | error e => simp [hp] at h
    | ok st =>
      simp only [hp, Except.ok.injEq] at h
      subst h
      exact (stdSort_descending _).chain'

/-- C1: loading the mesh text `o body`, `v 0 0 0`, `v 1 0 0`, `v 0 1 0`,
`vn 0 0 1`, `f 1/1/1 2/1/1 3/1/1` yields exactly one part (triangle list,
start 0, length 3), exactly three uncompressed vertices, the index array
`[0, 1, 2]` and the bounding box x:[0,1], y:[0,1], z:[0,0]; this holds for
every library that reads the numerals of the text as the numbers they write. -/
theorem triangle_example_loads (qt : Qt F) (fs : FileSystem) (fileName : String)
    (h0 : qt.toFloat "0" = 0) (h1 : qt.toFloat "1" = 1)
    (i1 : qt.toInt "1" = 1) (i2 : qt.toInt "2" = 2) (i3 : qt.toInt "3" = 3)
    (hfs : fs fileName = some triangleText) :
    ∃ st m, parseFile qt fs ObjModel.init fileName = some (.ok st) ∧
      ObjModel.create qt fs fileName = .ok m ∧
      m.m_parts.map (fun p => (p.type, p.start, p.length)) = [(GL_TRIANGLES, 0, 3)] ∧
      st.uncompressed.geometry = [⟨0, 0, 0⟩, ⟨1, 0, 0⟩, ⟨0, 1, 0⟩] ∧
      st.uncompressed.normals.length = 3 ∧
      st.indexes = [0, 1, 2] ∧
      m.m_indexBuffer = some [0, 1, 2] ∧
      m.m_vertexBuffer = some (st.uncompressed.geometry ++ st.uncompressed.normals) ∧
      m.m_boundingBox = ⟨⟨0, 1⟩, ⟨0, 1⟩, ⟨0, 0⟩⟩ := by
  have e1 : startsWith (simplified "o body\n") "#" = false := by decide
  have e2 : startsWith (simplified "v 0 0 0\n") "#" = false := by decide
  have e3 : startsWith (simplified "v 1 0 0\n") "#" = false := by decide
  have e4 : startsWith (simplified "v 0 1 0\n") "#" = false := by decide
  have e5 : startsWith (simplified "vn 0 0 1\n") "#" = false := by decide
  have e6 : startsWith (simplified "f 1/1/1 2/1/1 3/1/1\n") "#" = false := by decide
  have f1 : fieldsOf "o body\n" = ["o", "body"] := by decide
  have f2 : fieldsOf "v 0 0 0\n" = ["v", "0", "0", "0"] := by decide
  have f3 : fieldsOf "v 1 0 0\n" = ["v", "1", "0", "0"] := by decide
  have f4 : fieldsOf "v 0 1 0\n" = ["v", "0", "1", "0"] := by decide
  have f5 : fieldsOf "vn 0 0 1\n" = ["vn", "0", "0", "1"] := by decide
  have f6 : fieldsOf "f 1/1/1 2/1/1 3/1/1\n" = ["f", "1/1/1", "2/1/1", "3/1/1"] := by decide
  have p1 : positionToken "1/1/1" = "1" := by decide
  have p2 : positionToken "2/1/1" = "2" := by decide
  have p3 : positionToken "3/1/1" = "3" := by decide
  have n1 : normalToken "1/1/1" = "1" := by decide
  have n2 : normalToken "2/1/1" = "1" := by decide
  have n3 : normalToken "3/1/1" = "1" := by decide
  have l10 : ¬ ((1 : F) < 0) := by norm_num
  have l01 : (0 : F) < 1 := by norm_num
  have w0 : wrapInt32 0 = 0 := by decide
  have w1 : wrapInt32 1 = 1 := by decide
  have w2 : wrapInt32 2 = 2 := by decide
  have hparse : parseLines qt fs fileName (LoadState.init ObjModel.init) triangleText =
      .ok { compressed := ⟨[⟨0, 0, 0⟩, ⟨1, 0, 0⟩, ⟨0, 1, 0⟩], [qt.normalized ⟨0, 0, 1⟩]⟩
            uncompressed :=
              ⟨[⟨0, 0, 0⟩, ⟨1, 0, 0⟩, ⟨0, 1, 0⟩],
               [qt.normalized ⟨0, 0, 1⟩, qt.normalized ⟨0, 0, 1⟩, qt.normalized ⟨0, 0, 1⟩]⟩
            indexes := [0, 1, 2]
            materials := QMap.empty
            currentPart := { (Part.init : Part F) with type := GL_TRIANGLES, start := 0, length := 3 }
            m_parts := []
            m_boundingBox := ⟨⟨0, 1⟩, ⟨0, 1⟩, ⟨0, 0⟩⟩ } := by
    simp [triangleText, parseLines, loadLine, loadFields, e1, e2, e3, e4, e5, e6, f1, f2, f3, f4,
      f5, f6, addVertex, addFace_corners, appendFace, itemAt, Except.bind, p1, p2, p3, n1, n2, n3,
      i1, i2, i3, h0, h1, w0, w1, w2, LoadState.init, ObjModel.init, Part.init, Part.isValid,
      BoundingBox.init, qMin, qMax, l10, l01]
  obtain ⟨st, hst, hdata⟩ : ∃ st, parseLines qt fs fileName (LoadState.init ObjModel.init)
      triangleText = .ok st ∧ st = _ := ⟨_, hparse, rfl⟩
  refine ⟨st, finishLoad ObjModel.init st, ?_, ?_, ?_⟩
  · simp only [parseFile, hfs, Option.map_some', hst]
  · simp only [ObjModel.create, ObjModel.load, parseFile, hfs, Option.map_some', hst]
  · subst hdata
    simp [finishLoad, Part.isValid, Part.init, GL_TRIANGLES, stdSort, sortedInsert]


theorem loadLine_fields (qt : Qt F) (fs : FileSystem) (fn : String) (st : LoadState F)
    (raw t : String) (rest : List String) (h : fieldsOf raw = t :: rest)
    (ht : startsWith t "#" = false) :
    loadLine qt fs fn st raw = loadFields qt fs fn st (t :: rest) := by
  have hs : startsWith (simplified raw) "#" = false := by
    cases hc : startsWith (simplified raw) "#" with
    | false => rfl
    | true =>
      have := startsWith_hash_of_fields h hc
      rw [ht] at this
      exact absurd this (by decide)
  simp [loadLine, hs, h]

theorem itemAt_cases {α : Type} (xs : List α) (i : Int) :
    (∃ x, itemAt xs i = .ok x ∧ 0 ≤ i) ∨ itemAt xs i = .error .indexOutOfRange := by
  unfold itemAt
  split
  · split
    · rename_i h _ x _
      exact Or.inl ⟨x, rfl, h⟩
    · exact Or.inr rfl
  · exact Or.inr rfl

theorem appendFace_negative_faults (st : LoadState F) (a b c na nb nc : Int)
    (hneg : a < 0 ∨ b < 0 ∨ c < 0 ∨ na < 0 ∨ nb < 0 ∨ nc < 0) :
    appendFace st a b c na nb nc = .error .indexOutOfRange := by
  unfold appendFace
  rcases itemAt_cases st.compressed.geometry a with ⟨x1, h1, p1⟩ | h1 <;>
    simp only [h1, Except.bind]
  rcases itemAt_cases st.compressed.geometry b with ⟨x2, h2, p2⟩ | h2 <;>
    simp only [h2, Except.bind]
  rcases itemAt_cases st.compressed.geometry c with ⟨x3, h3, p3⟩ | h3 <;>
    simp only [h3, Except.bind]
  rcases itemAt_cases st.compressed.normals na with ⟨x4, h4, p4⟩ | h4 <;>
    simp only [h4, Except.bind]
  rcases itemAt_cases st.compressed.normals nb with ⟨x5, h5, p5⟩ | h5 <;>
    simp only [h5, Except.bind]
  rcases itemAt_cases st.compressed.normals nc with ⟨x6, h6, p6⟩ | h6 <;>
    simp only [h6, Except.bind]
  omega

/-- A face with three corners that passes both range tests while one of its
resolved indices is negative makes the loop body read out of bounds. -/
theorem face_negative_index_faults (qt : Qt F) (fs : FileSystem) (fileName : String)
    (st : LoadState F) (rawLine ta tb tc : String)
    (hf : fieldsOf rawLine = ["f", ta, tb, tc])
    (hpos : ¬ (wrapInt32 (qt.toInt (positionToken ta) - 1) ≥
          (st.compressed.geometry.length : Int) ∨
        wrapInt32 (qt.toInt (positionToken tb) - 1) ≥ (st.compressed.geometry.length : Int) ∨
        wrapInt32 (qt.toInt (positionToken tc) - 1) ≥ (st.compressed.geometry.length : Int)))
    (hnor : ¬ (wrapInt32 (qt.toInt (normalToken ta) - 1) ≥
          (st.compressed.normals.length : Int) ∨
        wrapInt32 (qt.toInt (normalToken tb) - 1) ≥ (st.compressed.normals.length : Int) ∨
        wrapInt32 (qt.toInt (normalToken tc) - 1) ≥ (st.compressed.normals.length : Int)))
    (hneg : wrapInt32 (qt.toInt (positionToken ta) - 1) < 0 ∨
      wrapInt32 (qt.toInt (positionToken tb) - 1) < 0 ∨
      wrapInt32 (qt.toInt (positionToken tc) - 1) < 0 ∨
      wrapInt32 (qt.toInt (normalToken ta) - 1) < 0 ∨
      wrapInt32 (qt.toInt (normalToken tb) - 1) < 0 ∨
      wrapInt32 (qt.toInt (normalToken tc) - 1) < 0) :
    loadLine qt fs fileName st rawLine = .error .indexOutOfRange := by
  rw [loadLine_face qt fs fileName st rawLine _ hf, addFace_corners]
  simp only []
  rw [if_neg hpos, if_neg hnor]
  exact appendFace_negative_faults st _ _ _ _ _ _ hneg

/-- A `usemtl` line whose material has no `Ns` values makes the loop body
take `first()` of an empty vector. -/
theorem usemtl_without_Ns_faults (qt : Qt F) (fs : FileSystem) (fileName : String)
    (st : LoadState F) (rawLine : String) (rest : List String)
    (hf : fieldsOf rawLine = "usemtl" :: rest)
    (hns : (st.materials.value (("usemtl" :: rest).getLast (List.cons_ne_nil _ _))
      QMap.empty).value "Ns" [] = []) :
    loadLine qt fs fileName st rawLine = .error .emptyContainer := by
  rw [loadLine_fields qt fs fileName st rawLine _ _ hf (by decide)]
  simp [loadFields, useMaterial, hns, first, Except.bind, Except.map]

/-- A `v` or `vn` line with fewer than three coordinates makes the loop body
read `fields` out of bounds. -/
theorem short_vertex_line_faults (qt : Qt F) (fs : FileSystem) (fileName : String)
    (st : LoadState F) (rawLine type : String) (rest : List String)
    (hf : fieldsOf rawLine = type :: rest) (ht : type = "v" ∨ type = "vn")
    (hn : rest.length < 3) :
    loadLine qt fs fileName st rawLine = .error .indexOutOfRange := by
  have hh : startsWith type "#" = false := by
    rcases ht with ht | ht <;> subst ht <;> decide
  rw [loadLine_fields qt fs fileName st rawLine _ _ hf hh]
  have h3 : itemAt (type :: rest) 3 = .error .indexOutOfRange := by
    have : (type :: rest)[3]? = none := by
      rw [List.getElem?_eq_none_iff]
      simp only [List.length_cons]
      omega
    simp [itemAt, this]
  have hdisp : loadFields qt fs fileName st (type :: rest) =
      addVertex qt st type (type :: rest) := by
    rcases ht with ht | ht <;> subst ht <;> simp [loadFields]
  rw [hdisp]
  unfold addVertex
  rw [h3]
  rcases itemAt_cases (type :: rest) 1 with ⟨x1, h1, -⟩ | h1 <;>
    simp only [h1, Except.bind]
  rcases itemAt_cases (type :: rest) 2 with ⟨x2, h2, -⟩ | h2 <;>
    simp only [h2, Except.bind]

/-- The worked example under the reference library. -/
theorem triangle_example_loads_witness :
    (refQt.toFloat "0" = 0 ∧ refQt.toFloat "1" = 1) ∧
    ∃ st m, parseFile refQt (oneFile meshPath triangleText) ObjModel.init meshPath =
        some (.ok st) ∧
      ObjModel.create refQt (oneFile meshPath triangleText) meshPath = .ok m ∧
      m.m_parts.map (fun p => (p.type, p.start, p.length)) = [(GL_TRIANGLES, 0, 3)] ∧
      st.uncompressed.geometry = [⟨0, 0, 0⟩, ⟨1, 0, 0⟩, ⟨0, 1, 0⟩] ∧
      st.uncompressed.normals.length = 3 ∧
      st.indexes = [0, 1, 2] ∧
      m.m_indexBuffer = some [0, 1, 2] ∧
      m.m_vertexBuffer = some (st.uncompressed.geometry ++ st.uncompressed.normals) ∧
      m.m_boundingBox = ⟨⟨0, 1⟩, ⟨0, 1⟩, ⟨0, 0⟩⟩ :=
  ⟨⟨by decide, by decide⟩,
    triangle_example_loads refQt (oneFile meshPath triangleText) meshPath
      (by decide) (by decide) (by decide) (by decide) (by decide) (by decide)⟩

/-- The face of the worked example, processed after its first five lines. -/
theorem face_in_range_appends_three_witness :
    fieldsOf "f 1/1/1 2/1/1 3/1/1\n" = ["f", "1/1/1", "2/1/1", "3/1/1"] ∧
    ∃ ga gb gc va vb vc st1,
      triangleState.compressed.geometry[(refQt.toInt (positionToken "1/1/1") - 1).toNat]? =
        some ga ∧
      triangleState.compressed.geometry[(refQt.toInt (positionToken "2/1/1") - 1).toNat]? =
        some gb ∧
      triangleState.compressed.geometry[(refQt.toInt (positionToken "3/1/1") - 1).toNat]? =
        some gc ∧
      triangleState.compressed.normals[(refQt.toInt (normalToken "1/1/1") - 1).toNat]? =
        some va ∧
      triangleState.compressed.normals[(refQt.toInt (normalToken "2/1/1") - 1).toNat]? =
        some vb ∧
      triangleState.compressed.normals[(refQt.toInt (normalToken "3/1/1") - 1).toNat]? =
        some vc ∧
      loadLine refQt (oneFile meshPath triangleText) meshPath triangleState
        "f 1/1/1 2/1/1 3/1/1\n" = .ok st1 ∧
      st1.uncompressed.geometry = triangleState.uncompressed.geometry ++ [ga, gb, gc] ∧
      st1.uncompressed.normals = triangleState.uncompressed.normals ++ [va, vb, vc] ∧
      st1.indexes = triangleState.indexes ++
        [(triangleState.uncompressed.geometry.length : Int),
         (triangleState.uncompressed.geometry.length : Int) + 1,
         (triangleState.uncompressed.geometry.length : Int) + 2] :=
  ⟨by decide,
    face_in_range_appends_three refQt (oneFile meshPath triangleText) meshPath triangleState
      "f 1/1/1 2/1/1 3/1/1\n" "1/1/1" "2/1/1" "3/1/1" (by decide) (by decide) (by decide)
      (by decide) (by decide) (by decide) (by decide)⟩

/-- The index bound on the model of the worked example. -/
theorem index_values_below_vertex_count_witness :
    ObjModel.load refQt (oneFile meshPath triangleText) ObjModel.init meshPath =
        .ok triangleModel ∧
    ∃ st, parseLines refQt (oneFile meshPath triangleText) meshPath
        (LoadState.init ObjModel.init) triangleText = .ok st ∧
      triangleModel.m_indexBuffer = some st.indexes ∧
      triangleModel.m_vertexBuffer =
        some (st.uncompressed.geometry ++ st.uncompressed.normals) ∧
      ∀ i ∈ st.indexes, 0 ≤ i ∧ i < (st.uncompressed.geometry.length : Int) :=
  ⟨by with_unfolding_all rfl,
    index_values_below_vertex_count refQt (oneFile meshPath triangleText) ObjModel.init
      triangleModel meshPath triangleText (by decide) (by with_unfolding_all rfl)⟩

/-- Two accepted faces over the same three vertices give six entries. -/
theorem three_entries_per_accepted_face_witness :
    ObjModel.load refQt twoParts ObjModel.init meshPath = .ok twoPartsModel ∧
    ∃ st, parseLines refQt twoParts meshPath (LoadState.init ObjModel.init)
        ["mtllib t.mtl\n", "v 0 0 0\n", "v 1 0 0\n", "v 0 1 0\n", "vn 0 0 1\n",
          "o glass\n", "usemtl glass\n", "f 1//1 2//1 3//1\n",
          "o body\n", "usemtl steel\n", "f 3//1 2//1 1//1\n"] = .ok st ∧
      twoPartsModel.m_indexBuffer = some st.indexes ∧
      twoPartsModel.m_vertexBuffer =
        some (st.uncompressed.geometry ++ st.uncompressed.normals) ∧
      st.indexes.length = 3 * 2 ∧
      st.uncompressed.geometry.length = 3 * 2 ∧
      st.uncompressed.normals.length = 3 * 2 :=
  ⟨by with_unfolding_all rfl,
    three_entries_per_accepted_face refQt twoParts ObjModel.init twoPartsModel meshPath _
      (by decide) (by with_unfolding_all rfl)⟩

/-- The parts of `twoParts` come out in descending opacity. -/
theorem parts_sorted_by_descending_opacity_witness :
    ObjModel.create refQt twoParts meshPath = .ok twoPartsModel ∧
    List.Chain' (fun p1 p2 => p1.material.opacity ≥ p2.material.opacity)
      twoPartsModel.m_parts :=
  ⟨by with_unfolding_all rfl,
    parts_sorted_by_descending_opacity refQt twoParts meshPath twoPartsModel
      (by with_unfolding_all rfl)⟩

/-- A face naming position 4 when three positions are parsed is dropped. -/
theorem face_beyond_parsed_arrays_dropped_witness :
    (triangleState.compressed.geometry.length : Int) < refQt.toInt (positionToken "4/1/1") ∧
    loadLine refQt (oneFile meshPath triangleText) meshPath triangleState
      "f 1/1/1 2/1/1 4/1/1\n" = .ok triangleState :=
  ⟨by decide,
    face_beyond_parsed_arrays_dropped refQt (oneFile meshPath triangleText) meshPath
      triangleState "f 1/1/1 2/1/1 4/1/1\n" "1/1/1" "2/1/1" "4/1/1" (by decide)
      (Or.inl (Or.inr (Or.inr (by decide))))⟩

/-- A face with four corners is dropped. -/
theorem face_with_other_than_three_corners_dropped_witness :
    fieldsOf "f 1/1/1 2/1/1 3/1/1 1/1/1\n" = ["f", "1/1/1", "2/1/1", "3/1/1", "1/1/1"] ∧
    loadLine refQt (oneFile meshPath triangleText) meshPath triangleState
      "f 1/1/1 2/1/1 3/1/1 1/1/1\n" = .ok triangleState :=
  ⟨by decide,
    face_with_other_than_three_corners_dropped refQt (oneFile meshPath triangleText) meshPath
      triangleState "f 1/1/1 2/1/1 3/1/1 1/1/1\n" ["1/1/1", "2/1/1", "3/1/1", "1/1/1"]
      (by decide) (by decide)⟩

/-- C7: the loader on three faces whose resolved index is below 0: a
written position index 0, a written normal index -1 and a non-numeric
position token.  Each resolves to a negative index, passes both range tests
and makes `load` read the compressed array out of bounds instead of dropping
the face. -/
theorem face_with_index_below_one_reads_out_of_bounds :
    loadLine refQt (oneFile meshPath zeroIndexText) meshPath triangleState
      "f 0/1/1 2/1/1 3/1/1\n" = .error .indexOutOfRange ∧
    (wrapInt32 (refQt.toInt (positionToken "0/1/1") - 1) = -1 ∧
      ObjModel.create refQt (oneFile meshPath zeroIndexText) meshPath =
        .error .indexOutOfRange) ∧
    (wrapInt32 (refQt.toInt (normalToken "2/1/-1") - 1) = -2 ∧
      ObjModel.create refQt (oneFile meshPath negativeIndexText) meshPath =
        .error .indexOutOfRange) ∧
    (wrapInt32 (refQt.toInt (positionToken "x/1/1") - 1) = -1 ∧
      ObjModel.create refQt (oneFile meshPath nonNumericText) meshPath =
        .error .indexOutOfRange) :=
  ⟨face_negative_index_faults refQt (oneFile meshPath zeroIndexText) meshPath triangleState
      "f 0/1/1 2/1/1 3/1/1\n" "0/1/1" "2/1/1" "3/1/1" (by decide) (by decide) (by decide)
      (Or.inl (by decide)),
    ⟨by decide, rfl⟩, ⟨by decide, rfl⟩, ⟨by decide, rfl⟩⟩

/-- C9: the loader on a `usemtl` line whose material has no `Ns`: once for
a name absent from the material map, once for a material loaded from a file
with `Kd` and `d` only.  Both times `load` takes `first()` of an empty vector. -/
theorem usemtl_without_Ns_reads_empty_vector :
    loadLine refQt (oneFile meshPath unknownMaterialText) meshPath triangleState
      "usemtl steel\n" = .error .emptyContainer ∧
    ObjModel.create refQt (oneFile meshPath unknownMaterialText) meshPath =
        .error .emptyContainer ∧
    (LoadMaterials refQt materialWithoutNs "/mt.mtl").value "steel" QMap.empty =
        ⟨[("d", [1]), ("Kd", [1, 0, 0])]⟩ ∧
    ObjModel.create refQt materialWithoutNs meshPath = .error .emptyContainer :=
  ⟨usemtl_without_Ns_faults refQt (oneFile meshPath unknownMaterialText) meshPath triangleState
      "usemtl steel\n" ["steel"] (by decide) (by decide),
    rfl, by decide, rfl⟩

/-- C10: the loader on a mesh whose only line is `v 1 2`: the line has
three fields and `load` reads `fields[3]`, out of bounds, instead of skipping
the line. -/
theorem short_vertex_line_reads_out_of_bounds :
    loadLine refQt (oneFile meshPath shortVertexText) meshPath triangleState "v 1 2\n" =
      .error .indexOutOfRange ∧
    fieldsOf "v 1 2\n" = ["v", "1", "2"] ∧
    ObjModel.create refQt (oneFile meshPath shortVertexText) meshPath =
      .error .indexOutOfRange :=
  ⟨short_vertex_line_faults refQt (oneFile meshPath shortVertexText) meshPath triangleState
      "v 1 2\n" "v" ["1", "2"] (by decide) (Or.inl rfl) (by decide),
    by decide, rfl⟩

/-! ## Properties of the material table, the bounding box, the renderers and the windows -/

theorem find_filter_ne {K V : Type} [DecidableEq K] (k k1 : K) (h : k1 ≠ k)
    (es : List (K × V)) :
    List.find? (fun e => e.1 == k1) (List.filter (fun e => !(e.1 == k)) es) =
      List.find? (fun e => e.1 == k1) es := by
  induction es with
  | nil => rfl
  | cons e es ih =>
    by_cases he : e.1 = k
    · have he1 : ¬ e.1 = k1 := fun e' => h (e'.symm.trans he)
      simp [List.filter_cons, he, List.find?_cons, ih]
      have : (k == k1) = false := by simpa using fun e' => h e'.symm
      simp [this]
    · have hk : (!(e.1 == k)) = true := by simpa using he
      rw [List.filter_cons, if_pos hk, List.find?_cons, List.find?_cons, ih]

theorem any_filter_ne {K V : Type} [DecidableEq K] (k k1 : K) (h : k1 ≠ k)
    (es : List (K × V)) :
    (List.filter (fun e => !(e.1 == k)) es).any (fun e => e.1 == k1) =
      es.any (fun e => e.1 == k1) := by
  induction es with
  | nil => rfl
  | cons e es ih =>
    by_cases he : e.1 = k
    · have he1 : (e.1 == k1) = false := by simpa [he] using fun e' => h e'.symm
      simp only [List.filter_cons, he, beq_self_eq_true, Bool.not_true, Bool.false_eq_true,
        if_false, List.any_cons, ih]
      rw [← he, he1, Bool.false_or]
    · simp only [List.filter_cons, he, beq_iff_eq, not_false_eq_true, Bool.not_eq_true',
        beq_eq_false_iff_ne, ne_eq, if_true, List.any_cons, ih]

theorem value_assign_self {K V : Type} [DecidableEq K] (m : QMap K V) (k : K) (v d : V) :
    (m.assign k v).value k d = v := by
  simp [QMap.assign, QMap.value]

theorem value_assign_ne {K V : Type} [DecidableEq K] (m : QMap K V) (k k1 : K) (v d : V)
    (h : k1 ≠ k) : (m.assign k v).value k1 d = m.value k1 d := by
  have h1 : (k == k1) = false := by simpa using fun e => h e.symm
  simp only [QMap.assign, QMap.value, List.find?_cons, h1, find_filter_ne k k1 h]

theorem contains_assign_self {K V : Type} [DecidableEq K] (m : QMap K V) (k : K) (v : V) :
    (m.assign k v).contains k = true := by
  simp [QMap.assign, QMap.contains]

theorem contains_assign_ne {K V : Type} [DecidableEq K] (m : QMap K V) (k k1 : K) (v : V)
    (h : k1 ≠ k) : (m.assign k v).contains k1 = m.contains k1 := by
  have h1 : (k == k1) = false := by simpa using fun e => h e.symm
  simp only [QMap.assign, QMap.contains, List.any_cons, h1, Bool.false_or,
    any_filter_ne k k1 h]

theorem isEmpty_assign {K V : Type} [DecidableEq K] (m : QMap K V) (k : K) (v : V) :
    (m.assign k v).isEmpty = false := by
  simp [QMap.assign, QMap.isEmpty]

theorem loadMaterialsLine_skip (qt : Qt F) (st : MtlState F) (raw : String)
    (h : classifyMtl raw = .skip) : loadMaterialsLine qt st raw = st := by
  unfold classifyMtl at h
  unfold loadMaterialsLine
  simp only [] at h ⊢
  by_cases h1 : (simplified raw).data.isEmpty = true
  · simp [h1]
  · by_cases h2 : startsWith (simplified raw) "#" = true
    · simp [h1, h2]
    · simp only [h1, h2, Bool.false_eq_true, if_false] at h ⊢
      cases hf : split ' ' false (simplified raw) with
      | nil => rfl
      | cons type rest =>
        rw [hf] at h
        simp only at h
        split_ifs at h

theorem loadMaterialsLine_newmtl (qt : Qt F) (st : MtlState F) (raw name : String)
    (h : classifyMtl raw = .newmtl name) :
    loadMaterialsLine qt st raw =
      { (if !st.materialProps.isEmpty then
            { st with ret := st.ret.assign st.materialName st.materialProps
                      materialProps := QMap.empty }
          else st) with materialName := name } := by
  unfold classifyMtl at h
  unfold loadMaterialsLine
  simp only [] at h ⊢
  by_cases h1 : (simplified raw).data.isEmpty = true
  · simp [h1] at h
  · by_cases h2 : startsWith (simplified raw) "#" = true
    · simp [h1, h2] at h
    · simp only [h1, h2, Bool.false_eq_true, if_false] at h ⊢
      cases hf : split ' ' false (simplified raw) with
      | nil => simp [hf] at h
      | cons type rest =>
        rw [hf] at h
        simp only at h ⊢
        split_ifs at h with ht
        simp only [MtlLine.newmtl.injEq] at h
        subst ht
        simp only [if_true, h]

theorem loadMaterialsLine_prop (qt : Qt F) (st : MtlState F) (raw key : String)
    (tokens : List String) (h : classifyMtl raw = .prop key tokens) :
    loadMaterialsLine qt st raw =
      { st with materialProps := st.materialProps.assign key (tokens.map qt.toFloat) } := by
  unfold classifyMtl at h
  unfold loadMaterialsLine
  simp only [] at h ⊢
  by_cases h1 : (simplified raw).data.isEmpty = true
  · simp [h1] at h
  · by_cases h2 : startsWith (simplified raw) "#" = true
    · simp [h1, h2] at h
    · simp only [h1, h2, Bool.false_eq_true, if_false] at h ⊢
      cases hf : split ' ' false (simplified raw) with
      | nil => simp [hf] at h
      | cons type rest =>
        rw [hf] at h
        simp only at h ⊢
        split_ifs at h with ht
        simp only [MtlLine.prop.injEq] at h
        obtain ⟨hk, hr⟩ := h
        subst hk hr
        simp only [ht, if_false]


theorem value_of_isEmpty {K V : Type} [DecidableEq K] (m : QMap K V) (k : K) (d : V)
    (h : m.isEmpty = true) : m.value k d = d ∧ m.contains k = false := by
  have he : m.entries = [] := by
    simpa [QMap.isEmpty] using h
  simp [QMap.value, QMap.contains, he]

/-- What a block body does to the loop state of `LoadMaterials`. -/
theorem mtl_body_fold (qt : Qt F) (body : List String)
    (hbody : ∀ l ∈ body, ∀ n, classifyMtl l ≠ .newmtl n) :
    ∀ st : MtlState F,
      (body.foldl (loadMaterialsLine qt) st).ret = st.ret ∧
      (body.foldl (loadMaterialsLine qt) st).materialName = st.materialName ∧
      (∀ key, (body.foldl (loadMaterialsLine qt) st).materialProps.value key [] =
        (match lastProp key body with
         | some tokens => tokens.map qt.toFloat
         | none => st.materialProps.value key [])) ∧
      (∀ key, (body.foldl (loadMaterialsLine qt) st).materialProps.contains key =
        ((lastProp key body).isSome || st.materialProps.contains key)) ∧
      ((st.materialProps.isEmpty = false ∨ ∃ l ∈ body, ∃ k t, classifyMtl l = .prop k t) →
        (body.foldl (loadMaterialsLine qt) st).materialProps.isEmpty = false) := by
  induction body with
  | nil =>
    intro st
    refine ⟨rfl, rfl, fun key => rfl, fun key => by simp [lastProp], ?_⟩
    intro h
    rcases h with h | ⟨l, hl, -⟩
    · exact h
    · simp at hl
  | cons l ls ih =>
    intro st
    have hls : ∀ l' ∈ ls, ∀ n, classifyMtl l' ≠ .newmtl n :=
      fun l' hl' => hbody l' (List.mem_cons_of_mem _ hl')
    obtain ⟨i1, i2, i3, i4, i5⟩ := ih hls (loadMaterialsLine qt st l)
    simp only [List.foldl_cons]
    cases hc : classifyMtl l with
    | newmtl n => exact absurd hc (hbody l (List.mem_cons_self _ _) n)
    | skip =>
      have e := loadMaterialsLine_skip qt st l hc
      rw [e] at i1 i2 i3 i4 i5 ⊢
      refine ⟨i1, i2, ?_, ?_, ?_⟩
      · intro key
        rw [i3 key]
        simp only [lastProp, hc]
        cases lastProp key ls <;> rfl
      · intro key
        rw [i4 key]
        simp only [lastProp, hc]
        cases lastProp key ls <;> rfl
      · intro h
        apply i5
        rcases h with h | ⟨l', hl', k, t, hk⟩
        · exact Or.inl h
        · rcases List.mem_cons.mp hl' with hl' | hl'
          · subst hl'
            rw [hc] at hk
            exact absurd hk (by simp)
          · exact Or.inr ⟨l', hl', k, t, hk⟩
    | prop k toks =>
      have e := loadMaterialsLine_prop qt st l k toks hc
      rw [e] at i1 i2 i3 i4 i5 ⊢
      refine ⟨i1, i2, ?_, ?_, ?_⟩
      · intro key
        rw [i3 key]
        simp only [lastProp, hc]
        cases lastProp key ls with
        | some t => rfl
        | none =>
          simp only
          by_cases hk : k = key
          · subst hk
            simp [value_assign_self]
          · simp [hk, value_assign_ne _ _ _ _ _ (fun e' => hk e'.symm)]
      · intro key
        rw [i4 key]
        simp only [lastProp, hc]
        cases lastProp key ls with
        | some t => rfl
        | none =>
          simp only
          by_cases hk : k = key
          · subst hk
            simp [contains_assign_self]
          · simp [hk, contains_assign_ne _ _ _ _ (fun e' => hk e'.symm)]
      · intro _
        exact i5 (Or.inl (isEmpty_assign _ _ _))

/-- Lines after a block leave the entry of the block alone. -/
theorem mtl_post_fold (qt : Qt F) (name : String) (post : List String)
    (hpost : ∀ l ∈ post, classifyMtl l ≠ .newmtl name) :
    ∀ st : MtlState F, st.materialName ≠ name →
      (post.foldl (loadMaterialsLine qt) st).materialName ≠ name ∧
      (post.foldl (loadMaterialsLine qt) st).ret.value name QMap.empty =
        st.ret.value name QMap.empty ∧
      (post.foldl (loadMaterialsLine qt) st).ret.contains name = st.ret.contains name := by
  induction post with
  | nil =>
    intro st hn
    exact ⟨hn, rfl, rfl⟩
  | cons l ls ih =>
    intro st hn
    have hls : ∀ l' ∈ ls, classifyMtl l' ≠ .newmtl name :=
      fun l' hl' => hpost l' (List.mem_cons_of_mem _ hl')
    simp only [List.foldl_cons]
    cases hc : classifyMtl l with
    | skip =>
      rw [loadMaterialsLine_skip qt st l hc]
      exact ih hls st hn
    | prop k toks =>
      rw [loadMaterialsLine_prop qt st l k toks hc]
      exact ih hls _ hn
    | newmtl n =>
      have hne : n ≠ name := by
        intro e
        subst e
        exact hpost l (List.mem_cons_self _ _) hc
      rw [loadMaterialsLine_newmtl qt st l n hc]
      obtain ⟨j1, j2, j3⟩ := ih hls
        { (if !st.materialProps.isEmpty then
              { st with ret := st.ret.assign st.materialName st.materialProps
                        materialProps := QMap.empty }
            else st) with materialName := n } hne
      refine ⟨j1, ?_, ?_⟩
      · rw [j2]
        split_ifs
        · exact value_assign_ne _ _ _ _ _ (fun e => hn e.symm)
        · rfl
      · rw [j3]
        split_ifs
        · exact contains_assign_ne _ _ _ _ (fun e => hn e.symm)
        · rfl


/-- C15: `LoadMaterials` maps the name of every block that has at least one
property line, and whose name no later `newmtl` line repeats, to a property
bag in which each key (the first token of a property line of the block) holds
the floats parsed from all remaining tokens of the last line of the block
with that key, one float per token in token order, whatever their number. -/
theorem material_block_maps_to_its_last_properties (qt : Qt F) (fs : FileSystem)
    (mtlFileName : String) (pre body post : List String) (hdr name : String)
    (hfs : fs mtlFileName = some (pre ++ hdr :: body ++ post))
    (hhdr : classifyMtl hdr = .newmtl name)
    (hbody : ∀ l ∈ body, ∀ n, classifyMtl l ≠ .newmtl n)
    (hprop : ∃ l ∈ body, ∃ k t, classifyMtl l = .prop k t)
    (hend : post = [] ∨ ∃ l n rest, post = l :: rest ∧ classifyMtl l = .newmtl n)
    (hdistinct : ∀ l ∈ post, classifyMtl l ≠ .newmtl name) :
    (LoadMaterials qt fs mtlFileName).contains name = true ∧
    ∀ key,
      ((LoadMaterials qt fs mtlFileName).value name QMap.empty).value key [] =
          ((lastProp key body).map fun tokens => tokens.map qt.toFloat).getD [] ∧
      ((LoadMaterials qt fs mtlFileName).value name QMap.empty).contains key =
          (lastProp key body).isSome := by
  -- the state when the block body starts
  obtain ⟨st0, hst0⟩ : ∃ st0 : MtlState F,
      st0 = pre.foldl (loadMaterialsLine qt) ⟨QMap.empty, "", QMap.empty⟩ := ⟨_, rfl⟩
  obtain ⟨sth, hsth⟩ : ∃ sth : MtlState F, sth = loadMaterialsLine qt st0 hdr := ⟨_, rfl⟩
  have hh1 : sth.materialName = name := by
    rw [hsth, loadMaterialsLine_newmtl qt st0 hdr name hhdr]
  have hh2 : sth.materialProps.isEmpty = true := by
    rw [hsth, loadMaterialsLine_newmtl qt st0 hdr name hhdr]
    by_cases he : st0.materialProps.isEmpty = true
    · simp [he]
    · have he1 : (!st0.materialProps.isEmpty) = true := by simpa using he
      rw [if_pos he1]
      rfl
  obtain ⟨b1, b2, b3, b4, b5⟩ := mtl_body_fold qt body hbody sth
  obtain ⟨stb, hstb⟩ : ∃ stb : MtlState F, stb = body.foldl (loadMaterialsLine qt) sth :=
    ⟨_, rfl⟩
  rw [← hstb] at b1 b2 b3 b4 b5
  have hne : stb.materialProps.isEmpty = false := b5 (Or.inr hprop)
  have hval : ∀ key, stb.materialProps.value key [] =
      ((lastProp key body).map fun tokens => tokens.map qt.toFloat).getD [] := by
    intro key
    rw [b3 key]
    cases lastProp key body with
    | some t => rfl
    | none => exact (value_of_isEmpty _ key [] hh2).1
  have hcon : ∀ key, stb.materialProps.contains key = (lastProp key body).isSome := by
    intro key
    rw [b4 key, (value_of_isEmpty _ key ([] : List F) hh2).2, Bool.or_false]
  have hname : stb.materialName = name := by rw [b2, hh1]
  -- the whole file
  have hfold : (pre ++ hdr :: body ++ post).foldl (loadMaterialsLine qt)
      ⟨QMap.empty, "", QMap.empty⟩ = post.foldl (loadMaterialsLine qt) stb := by
    rw [List.foldl_append, List.foldl_append, List.foldl_cons, ← hst0, ← hsth, ← hstb]
  have key : (LoadMaterials qt fs mtlFileName).contains name = true ∧
      (LoadMaterials qt fs mtlFileName).value name QMap.empty = stb.materialProps := by
    unfold LoadMaterials
    simp only [hfs, hfold]
    rcases hend with hend | ⟨l, n, rest, hend, hn⟩
    · subst hend
      simp only [List.foldl_nil, hne, Bool.not_false, if_true, hname]
      exact ⟨contains_assign_self _ _ _, value_assign_self _ _ _ _⟩
    · subst hend
      have hnn : n ≠ name := by
        intro e
        subst e
        exact hdistinct l (List.mem_cons_self _ _) hn
      simp only [List.foldl_cons]
      rw [loadMaterialsLine_newmtl qt stb l n hn]
      simp only [hne, Bool.not_false, if_true]
      obtain ⟨p1, p2, p3⟩ := mtl_post_fold qt name rest
        (fun l' hl' => hdistinct l' (List.mem_cons_of_mem _ hl'))
        { ret := stb.ret.assign stb.materialName stb.materialProps, materialName := n,
          materialProps := QMap.empty } hnn
      simp only [hname] at p1 p2 p3 ⊢
      rw [value_assign_self] at p2
      rw [contains_assign_self] at p3
      split_ifs
      · exact ⟨by rw [contains_assign_ne _ _ _ _ (fun e => p1 e.symm)]; exact p3,
          by rw [value_assign_ne _ _ _ _ _ (fun e => p1 e.symm)]; exact p2⟩
      · exact ⟨p3, p2⟩
  refine ⟨key.1, fun k => ?_⟩
  rw [key.2]
  exact ⟨hval k, hcon k⟩

theorem loadFields_inv (qt : Qt F) (fs : FileSystem) (fn : String) (st st1 : LoadState F)
    (fields : List String) (h : loadFields qt fs fn st fields = .ok st1) :
    st1 = st ∨
    (∃ mats, st1 = { st with materials := mats }) ∨
    st1 = { st with
              m_parts :=
                if st.currentPart.isValid then st.m_parts ++ [st.currentPart] else st.m_parts
              currentPart := { (Part.init : Part F) with type := GL_TRIANGLES } } ∨
    (∃ props part, useMaterial qt props st.currentPart = .ok part ∧
      st1 = { st with currentPart := part }) ∨
    (∃ type rest, fields = type :: rest ∧ (type = "v" ∨ type = "vn") ∧
      addVertex qt st type fields = .ok st1) ∨
    (∃ a b c na nb nc, appendFace st a b c na nb nc = .ok st1) := by
  cases fields with
  | nil =>
    simp only [loadFields, Except.ok.injEq] at h
    exact Or.inl h.symm
  | cons type rest =>
    simp only [loadFields] at h
    split_ifs at h with h1 h2 h3 h4 h5 h6
    · simp only [Except.ok.injEq] at h
      exact Or.inr (Or.inl ⟨_, h.symm⟩)
    · simp only [Except.ok.injEq] at h
      refine Or.inr (Or.inr (Or.inl ?_))
      rw [← h, if_pos h3]
    · simp only [Except.ok.injEq] at h
      refine Or.inr (Or.inr (Or.inl ?_))
      rw [← h, if_neg h3]
    · rw [map_eq_ok] at h
      obtain ⟨part, hp, h⟩ := h
      exact Or.inr (Or.inr (Or.inr (Or.inl ⟨_, part, hp, h.symm⟩)))
    · exact Or.inr (Or.inr (Or.inr (Or.inr (Or.inl ⟨type, rest, rfl, h5, h⟩))))
    · unfold addFace at h
      split_ifs at h with g1
      · simp only [Except.ok.injEq] at h
        exact Or.inl h.symm
      · simp only [bind_eq_ok] at h
        obtain ⟨t1, -, t2, -, t3, -, ⟨a, na⟩, -, ⟨b, nb⟩, -, ⟨c, nc⟩, -, h⟩ := h
        simp only at h
        split_ifs at h with g2 g3
        · simp only [Except.ok.injEq] at h
          exact Or.inl h.symm
        · simp only [Except.ok.injEq] at h
          exact Or.inl h.symm
        · exact Or.inr (Or.inr (Or.inr (Or.inr (Or.inr ⟨a, b, c, na, nb, nc, h⟩))))
    · simp only [Except.ok.injEq] at h
      exact Or.inl h.symm

theorem loadLine_inv (qt : Qt F) (fs : FileSystem) (fn : String) (st st1 : LoadState F)
    (raw : String) (h : loadLine qt fs fn st raw = .ok st1) :
    st1 = st ∨
    (∃ mats, st1 = { st with materials := mats }) ∨
    st1 = { st with
              m_parts :=
                if st.currentPart.isValid then st.m_parts ++ [st.currentPart] else st.m_parts
              currentPart := { (Part.init : Part F) with type := GL_TRIANGLES } } ∨
    (∃ props part, useMaterial qt props st.currentPart = .ok part ∧
      st1 = { st with currentPart := part }) ∨
    (∃ type rest, startsWith (simplified raw) "#" = false ∧ fieldsOf raw = type :: rest ∧
      (type = "v" ∨ type = "vn") ∧ addVertex qt st type (type :: rest) = .ok st1) ∨
    (∃ a b c na nb nc, appendFace st a b c na nb nc = .ok st1) := by
  unfold loadLine at h
  split_ifs at h with hs
  · simp only [Except.ok.injEq] at h
    exact Or.inl h.symm
  · rcases loadFields_inv qt fs fn st st1 _ h with h | h | h | h | ⟨type, rest, hf, ht, h⟩ | h
    · exact Or.inl h
    · exact Or.inr (Or.inl h)
    · exact Or.inr (Or.inr (Or.inl h))
    · exact Or.inr (Or.inr (Or.inr (Or.inl h)))
    · refine Or.inr (Or.inr (Or.inr (Or.inr (Or.inl ⟨type, rest, ?_, hf, ht, ?_⟩))))
      · simpa using hs
      · rw [hf] at h
        exact h
    · exact Or.inr (Or.inr (Or.inr (Or.inr (Or.inr h))))

theorem useMaterial_frame (qt : Qt F) (props : MaterialProps F) (part part1 : Part F)
    (h : useMaterial qt props part = .ok part1) :
    part1.type = part.type ∧ part1.start = part.start ∧ part1.length = part.length := by
  unfold useMaterial at h
  simp only [bind_eq_ok] at h
  obtain ⟨ns, -, o, -, br, -, h⟩ := h
  simp only [Except.ok.injEq] at h
  subst h
  exact ⟨rfl, rfl, rfl⟩

theorem addVertex_frame (qt : Qt F) (st st1 : LoadState F) (type : String)
    (fields : List String) (h : addVertex qt st type fields = .ok st1) :
    st1.indexes = st.indexes ∧ st1.uncompressed = st.uncompressed ∧
      st1.m_parts = st.m_parts ∧ st1.currentPart = st.currentPart ∧
      st1.materials = st.materials := by
  unfold addVertex at h
  simp only [bind_eq_ok] at h
  obtain ⟨f1, -, f2, -, f3, -, h⟩ := h
  split at h <;>
  · simp only [Except.ok.injEq] at h
    subst h
    exact ⟨rfl, rfl, rfl, rfl, rfl⟩

theorem appendFace_frame (st st1 : LoadState F) (a b c na nb nc : Int)
    (h : appendFace st a b c na nb nc = .ok st1) :
    st1.m_parts = st.m_parts ∧ st1.compressed = st.compressed ∧
      st1.m_boundingBox = st.m_boundingBox ∧ st1.materials = st.materials ∧
      st1.currentPart.type = st.currentPart.type ∧
      st1.currentPart.material = st.currentPart.material ∧
      st1.currentPart.start =
        (if st.currentPart.start < 0 then (st.indexes.length : Int)
          else st.currentPart.start) ∧
      st1.currentPart.length = (st1.indexes.length : Int) - st1.currentPart.start ∧
      st1.indexes.length = st.indexes.length + 3 := by
  unfold appendFace at h
  simp only [bind_eq_ok] at h
  obtain ⟨ga, -, gb, -, gc, -, va, -, vb, -, vc, -, h⟩ := h
  simp only [Except.ok.injEq] at h
  subst h
  simp


theorem loadLine_partsInv (qt : Qt F) (fs : FileSystem) (fn : String) (st st1 : LoadState F)
    (raw : String) (h : loadLine qt fs fn st raw = .ok st1) (hinv : PartsInv st) :
    PartsInv st1 := by
  obtain ⟨hp, hs, hl⟩ := hinv
  rcases loadLine_inv qt fs fn st st1 raw h with h | ⟨mats, h⟩ | h | ⟨props, part, hu, h⟩ |
    ⟨type, rest, -, -, -, h⟩ | ⟨a, b, c, na, nb, nc, h⟩
  · subst h
    exact ⟨hp, hs, hl⟩
  · subst h
    exact ⟨hp, hs, hl⟩
  · subst h
    refine ⟨?_, ?_, ?_⟩
    · intro p hmem
      simp only at hmem
      split_ifs at hmem with hv
      · rcases List.mem_append.mp hmem with hmem | hmem
        · exact hp p hmem
        · simp only [List.mem_singleton] at hmem
          subst hmem
          have h0 : 0 ≤ st.currentPart.start := by
            simp only [Part.isValid, Bool.and_eq_true, decide_eq_true_eq] at hv
            exact hv.1.1
          exact ⟨h0, hl h0⟩
      · exact hp p hmem
    · simp only [Part.init]
      omega
    · intro h0
      simp [Part.init] at h0
  · subst h
    obtain ⟨-, e2, e3⟩ := useMaterial_frame qt props _ _ hu
    refine ⟨hp, ?_, ?_⟩
    · simp only [e2]
      exact hs
    · simp only [e2, e3]
      exact hl
  · obtain ⟨e1, -, e3, e4, -⟩ := addVertex_frame qt st st1 _ _ h
    refine ⟨by rw [e3]; exact hp, by rw [e4, e1]; exact hs, by rw [e4]; exact hl⟩
  · obtain ⟨e1, -, -, -, -, -, e7, e8, e9⟩ := appendFace_frame st st1 _ _ _ _ _ _ h
    refine ⟨by rw [e1]; exact hp, ?_, ?_⟩
    · rw [e7, e9]
      split_ifs <;> push_cast <;> omega
    · intro _
      rw [e8, e7, e9]
      split_ifs <;> push_cast <;> omega

theorem parseLines_partsInv (qt : Qt F) (fs : FileSystem) (fn : String)
    (lines : List String) :
    ∀ (st st1 : LoadState F), parseLines qt fs fn st lines = .ok st1 → PartsInv st →
      PartsInv st1 := by
  induction lines with
  | nil =>
    intro st st1 h hinv
    simp only [parseLines, Except.ok.injEq] at h
    subst h
    exact hinv
  | cons l ls ih =>
    intro st st1 h hinv
    cases hl : loadLine qt fs fn st l with
    | error e => simp [parseLines, hl] at h
    | ok st2 =>
      simp only [parseLines, hl] at h
      exact ih st2 st1 h (loadLine_partsInv qt fs fn st st2 l hl hinv)

theorem mem_stdSort {α : Type} (lt : α → α → Bool) (z : α) (l : List α) :
    z ∈ stdSort lt l ↔ z ∈ l := by
  induction l with
  | nil => simp [stdSort]
  | cons x xs ih => simp [stdSort, mem_sortedInsert, ih]

/-- C20: every part that `ObjModel::load` places in the part list of the
model has `start >= 0` and `length > 0`. -/
theorem loaded_parts_have_start_and_length (qt : Qt F) (fs : FileSystem)
    (fileName : String) (m : ObjModel F) (h : ObjModel.create qt fs fileName = .ok m) :
    ∀ p ∈ m.m_parts, 0 ≤ p.start ∧ 0 < p.length := by
  unfold ObjModel.create ObjModel.load parseFile at h
  cases hfs : fs fileName with
  | none =>
    simp only [hfs, Option.map_none', Except.ok.injEq] at h
    subst h
    simp [ObjModel.init]
  | some lines =>
    simp only [hfs, Option.map_some'] at h
    cases hp : parseLines qt fs fileName (LoadState.init ObjModel.init) lines with
    | error e => simp [hp] at h
    | ok st =>
      simp only [hp, Except.ok.injEq] at h
      subst h
      have hinv := parseLines_partsInv qt fs fileName lines _ st hp
        ⟨by simp [LoadState.init, ObjModel.init], by simp [LoadState.init, Part.init],
          by simp [LoadState.init, Part.init]⟩
      obtain ⟨h1, -, h3⟩ := hinv
      intro p hmem
      simp only [finishLoad, mem_stdSort] at hmem
      split_ifs at hmem with hv
      · rcases List.mem_append.mp hmem with hmem | hmem
        · exact h1 p hmem
        · simp only [List.mem_singleton] at hmem
          subst hmem
          have h0 : 0 ≤ st.currentPart.start := by
            simp only [Part.isValid, Bool.and_eq_true, decide_eq_true_eq] at hv
            exact hv.1.1
          exact ⟨h0, h3 h0⟩
      · exact h1 p hmem


/-- The `v` branch on a line with at least three coordinates. -/
theorem addVertex_v (qt : Qt F) (st : LoadState F) (f1 f2 f3 : String) (rest : List String) :
    addVertex qt st "v" ("v" :: f1 :: f2 :: f3 :: rest) =
      .ok { st with
              compressed :=
                { st.compressed with
                    geometry := st.compressed.geometry ++
                      [⟨qt.toFloat f1, qt.toFloat f2, qt.toFloat f3⟩] }
              m_boundingBox :=
                if st.compressed.geometry = [] then
                  ⟨⟨qt.toFloat f1, qt.toFloat f1⟩, ⟨qt.toFloat f2, qt.toFloat f2⟩,
                   ⟨qt.toFloat f3, qt.toFloat f3⟩⟩
                else
                  ⟨⟨qMin (qt.toFloat f1) st.m_boundingBox.x.min,
                    qMax (qt.toFloat f1) st.m_boundingBox.x.max⟩,
                   ⟨qMin (qt.toFloat f2) st.m_boundingBox.y.min,
                    qMax (qt.toFloat f2) st.m_boundingBox.y.max⟩,
                   ⟨qMin (qt.toFloat f3) st.m_boundingBox.z.min,
                    qMax (qt.toFloat f3) st.m_boundingBox.z.max⟩⟩ } := by
  cases hg : st.compressed.geometry with
  | nil => simp [addVertex, itemAt, Except.bind, hg]
  | cons g gs => simp [addVertex, itemAt, Except.bind, hg]

theorem vertexOfLine_eq_some (qt : Qt F) (raw : String) (v : QVector3D F)
    (h : vertexOfLine qt raw = some v) :
    startsWith (simplified raw) "#" = false ∧
      ∃ f1 f2 f3 rest, fieldsOf raw = "v" :: f1 :: f2 :: f3 :: rest ∧
        v = ⟨qt.toFloat f1, qt.toFloat f2, qt.toFloat f3⟩ := by
  unfold vertexOfLine at h
  split_ifs at h with hs
  refine ⟨by simpa using hs, ?_⟩
  split at h
  · rename_i type f1 f2 f3 rest hf
    split_ifs at h with ht
    subst ht
    simp only [Option.some.injEq] at h
    exact ⟨f1, f2, f3, rest, hf, h.symm⟩
  · exact absurd h (by simp)

theorem loadLine_geometry (qt : Qt F) (fs : FileSystem) (fn : String) (st st1 : LoadState F)
    (raw : String) (h : loadLine qt fs fn st raw = .ok st1) :
    st1.compressed.geometry = st.compressed.geometry ++ (vertexOfLine qt raw).toList ∧
      st1.m_boundingBox =
        (match vertexOfLine qt raw with
         | none => st.m_boundingBox
         | some v =>
           if st.compressed.geometry = [] then ⟨⟨v.x, v.x⟩, ⟨v.y, v.y⟩, ⟨v.z, v.z⟩⟩
           else
             ⟨⟨qMin v.x st.m_boundingBox.x.min, qMax v.x st.m_boundingBox.x.max⟩,
              ⟨qMin v.y st.m_boundingBox.y.min, qMax v.y st.m_boundingBox.y.max⟩,
              ⟨qMin v.z st.m_boundingBox.z.min, qMax v.z st.m_boundingBox.z.max⟩⟩) := by
  cases hv : vertexOfLine qt raw with
  | some v =>
    obtain ⟨hs, f1, f2, f3, rest, hf, rfl⟩ := vertexOfLine_eq_some qt raw v hv
    simp only [loadLine, hs, hf, loadFields, Bool.false_eq_true, if_false, String.reduceEq,
      true_or, if_true, addVertex_v, Except.ok.injEq] at h
    subst h
    simp
  | none =>
    simp only [Option.toList_none, List.append_nil]
    rcases loadLine_inv qt fs fn st st1 raw h with h | ⟨mats, h⟩ | h | ⟨props, part, hu, h⟩ |
      ⟨type, rest, hs, hf, ht, h⟩ | ⟨a, b, c, na, nb, nc, h⟩
    · subst h; exact ⟨rfl, rfl⟩
    · subst h; exact ⟨rfl, rfl⟩
    · subst h; exact ⟨rfl, rfl⟩
    · subst h; exact ⟨rfl, rfl⟩
    · rcases ht with ht | ht
      · subst ht
        exfalso
        unfold addVertex at h
        simp only [bind_eq_ok] at h
        obtain ⟨f1, h1, f2, h2, f3, h3, -⟩ := h
        rcases rest with _ | ⟨g1, _ | ⟨g2, _ | ⟨g3, rest'⟩⟩⟩
        · simp [itemAt] at h1
        · simp [itemAt] at h2
        · simp [itemAt] at h3
        · simp [vertexOfLine, hs, hf] at hv
      · subst ht
        unfold addVertex at h
        simp only [bind_eq_ok] at h
        obtain ⟨f1, -, f2, -, f3, -, h⟩ := h
        simp only [String.reduceEq, if_false, Except.ok.injEq] at h
        subst h
        exact ⟨rfl, rfl⟩
    · obtain ⟨-, e2, e3, -⟩ := appendFace_frame st st1 _ _ _ _ _ _ h
      exact ⟨by rw [e2], e3⟩


theorem isMinOf_snoc (m x : F) (xs : List F) (h : IsMinOf m xs) :
    IsMinOf (qMin x m) (xs ++ [x]) := by
  obtain ⟨hm, hle⟩ := h
  unfold qMin
  split_ifs with hlt
  · refine ⟨by simp, ?_⟩
    intro y hy
    rcases List.mem_append.mp hy with hy | hy
    · exact le_trans (le_of_lt hlt) (hle y hy)
    · simp only [List.mem_singleton] at hy
      rw [hy]
  · refine ⟨List.mem_append_left _ hm, ?_⟩
    intro y hy
    rcases List.mem_append.mp hy with hy | hy
    · exact hle y hy
    · simp only [List.mem_singleton] at hy
      rw [hy]
      exact not_lt.mp hlt

theorem isMaxOf_snoc (m x : F) (xs : List F) (h : IsMaxOf m xs) :
    IsMaxOf (qMax x m) (xs ++ [x]) := by
  obtain ⟨hm, hle⟩ := h
  unfold qMax
  split_ifs with hlt
  · refine ⟨List.mem_append_left _ hm, ?_⟩
    intro y hy
    rcases List.mem_append.mp hy with hy | hy
    · exact hle y hy
    · simp only [List.mem_singleton] at hy
      rw [hy]
      exact le_of_lt hlt
  · refine ⟨by simp, ?_⟩
    intro y hy
    rcases List.mem_append.mp hy with hy | hy
    · exact le_trans (hle y hy) (not_lt.mp hlt)
    · simp only [List.mem_singleton] at hy
      rw [hy]

theorem bounds_single (v : QVector3D F) :
    Bounds ⟨⟨v.x, v.x⟩, ⟨v.y, v.y⟩, ⟨v.z, v.z⟩⟩ [v] := by
  simp [Bounds, IsMinOf, IsMaxOf]

theorem bounds_snoc (bb : BoundingBox F) (ps : List (QVector3D F)) (v : QVector3D F)
    (h : Bounds bb ps) :
    Bounds ⟨⟨qMin v.x bb.x.min, qMax v.x bb.x.max⟩, ⟨qMin v.y bb.y.min, qMax v.y bb.y.max⟩,
      ⟨qMin v.z bb.z.min, qMax v.z bb.z.max⟩⟩ (ps ++ [v]) := by
  obtain ⟨h1, h2, h3, h4, h5, h6⟩ := h
  simp only [Bounds, List.map_append, List.map_cons, List.map_nil]
  exact ⟨isMinOf_snoc _ _ _ h1, isMaxOf_snoc _ _ _ h2, isMinOf_snoc _ _ _ h3,
    isMaxOf_snoc _ _ _ h4, isMinOf_snoc _ _ _ h5, isMaxOf_snoc _ _ _ h6⟩

theorem parseLines_geometry (qt : Qt F) (fs : FileSystem) (fn : String) (bb0 : BoundingBox F)
    (lines : List String) :
    ∀ (st st1 : LoadState F), parseLines qt fs fn st lines = .ok st1 →
      (st.compressed.geometry = [] → st.m_boundingBox = bb0) →
      (st.compressed.geometry ≠ [] → Bounds st.m_boundingBox st.compressed.geometry) →
      st1.compressed.geometry = st.compressed.geometry ++ positionsOf qt lines ∧
        (st1.compressed.geometry = [] → st1.m_boundingBox = bb0) ∧
        (st1.compressed.geometry ≠ [] → Bounds st1.m_boundingBox st1.compressed.geometry) := by
  induction lines with
  | nil =>
    intro st st1 h h0 h1
    simp only [parseLines, Except.ok.injEq] at h
    subst h
    exact ⟨by simp [positionsOf], h0, h1⟩
  | cons l ls ih =>
    intro st st1 h h0 h1
    cases hl : loadLine qt fs fn st l with
    | error e => simp [parseLines, hl] at h
    | ok st2 =>
      simp only [parseLines, hl] at h
      obtain ⟨hg, hb⟩ := loadLine_geometry qt fs fn st st2 l hl
      have key : (st2.compressed.geometry = [] → st2.m_boundingBox = bb0) ∧
          (st2.compressed.geometry ≠ [] →
            Bounds st2.m_boundingBox st2.compressed.geometry) := by
        cases hv : vertexOfLine qt l with
        | none =>
          rw [hv] at hg hb
          simp only [Option.toList_none, List.append_nil] at hg hb
          rw [hg, hb]
          exact ⟨h0, h1⟩
        | some v =>
          rw [hv] at hg hb
          simp only [Option.toList_some] at hg hb
          rw [hg, hb]
          refine ⟨by simp, fun _ => ?_⟩
          by_cases he : st.compressed.geometry = []
          · rw [if_pos he, he]
            exact bounds_single v
          · rw [if_neg he]
            exact bounds_snoc _ _ v (h1 he)
      obtain ⟨r1, r2, r3⟩ := ih st2 st1 h key.1 key.2
      refine ⟨?_, r2, r3⟩
      rw [r1, hg]
      simp only [positionsOf, List.filterMap_cons]
      cases vertexOfLine qt l <;> simp

/-- C14: after `ObjModel::load` of a mesh with at least one `v` line, on
each axis the bounding box min is the minimum and the max is the maximum of
that coordinate over all `v` lines of the file; with no `v` line the bounding
box stays all-zero. -/
theorem bounding_box_spans_all_positions (qt : Qt F) (fs : FileSystem) (fileName : String)
    (lines : List String) (m : ObjModel F) (hfs : fs fileName = some lines)
    (h : ObjModel.create qt fs fileName = .ok m) :
    (positionsOf qt lines = [] → m.m_boundingBox = ⟨⟨0, 0⟩, ⟨0, 0⟩, ⟨0, 0⟩⟩) ∧
    (positionsOf qt lines ≠ [] → Bounds m.m_boundingBox (positionsOf qt lines)) := by
  obtain ⟨st, hst, hm⟩ := (load_ok_iff qt fs ObjModel.init m fileName lines hfs).mp h
  obtain ⟨r1, r2, r3⟩ := parseLines_geometry qt fs fileName BoundingBox.init lines _ st hst
    (fun _ => rfl) (fun hne => absurd rfl hne)
  have hg : st.compressed.geometry = positionsOf qt lines := by
    rw [r1]
    rfl
  have hb : m.m_boundingBox = st.m_boundingBox := by
    rw [hm]
    rfl
  rw [hb, ← hg]
  exact ⟨r2, r3⟩

theorem render_of_null (qt : Qt F) (rs : Renderers) (this : ObjModel F)
    (h : this.m_vertexBuffer = none ∨ this.m_indexBuffer = none ∨ this.m_parts = []) :
    ObjModel.render qt rs this = .ok (rs, this, []) := by
  unfold ObjModel.render
  rcases h with h | h | h <;> simp [h]

theorem sceneRender_ok (qt : Qt F) (r : SceneRenderer) (this : ObjModel F)
    (vb : List (QVector3D F)) (ib : List Int) (hv : this.m_vertexBuffer = some vb)
    (hi : this.m_indexBuffer = some ib) :
    SceneRenderer.render qt r this =
      .ok ({ m_initialized := true },
        (if !r.m_initialized then
            [GlCommand.loadShaders ":/scene_vertex.glsl" ":/scene_fragment.glsl"]
          else []) ++ sceneCommands qt this) := by
  simp only [SceneRenderer.render, hv, hi]

theorem shadowRender_ok (r : ShadowRenderer) (this : ObjModel F)
    (vb : List (QVector3D F)) (ib : List Int) (hv : this.m_vertexBuffer = some vb)
    (hi : this.m_indexBuffer = some ib) :
    ShadowRenderer.render r this =
      .ok ({ m_initialized := true },
        (if !r.m_initialized then
            [GlCommand.loadShaders ":/shadow_vertex.glsl" ":/shadow_fragment.glsl"]
          else []) ++ shadowCommands this) := by
  simp only [ShadowRenderer.render, hv, hi]

/-- C12: for every model and either render mode, `ObjModel::render` invokes
no renderer and leaves the model unchanged when the vertex buffer is null, or
the index buffer is null, or the part list is empty; otherwise it invokes
exactly the scene renderer in `SceneMode` and exactly the shadow renderer in
`ShadowMode`, again leaving the model unchanged. -/
theorem render_dispatch (qt : Qt F) (rs : Renderers) (this : ObjModel F) :
    ((this.m_vertexBuffer = none ∨ this.m_indexBuffer = none ∨ this.m_parts = []) →
      ObjModel.render qt rs this = .ok (rs, this, [])) ∧
    (¬ (this.m_vertexBuffer = none ∨ this.m_indexBuffer = none ∨ this.m_parts = []) →
      (this.m_renderMode = .SceneMode →
        ∃ r cmds, SceneRenderer.render qt rs.sceneRenderer this = .ok (r, cmds) ∧
          ObjModel.render qt rs this =
            .ok ({ rs with sceneRenderer := r }, this, [RendererCall.scene cmds])) ∧
      (this.m_renderMode = .ShadowMode →
        ∃ r cmds, ShadowRenderer.render rs.shadowRenderer this = .ok (r, cmds) ∧
          ObjModel.render qt rs this =
            .ok ({ rs with shadowRenderer := r }, this, [RendererCall.shadow cmds]))) := by
  refine ⟨render_of_null qt rs this, ?_⟩
  intro h
  simp only [not_or] at h
  obtain ⟨hv, hi, hp⟩ := h
  obtain ⟨vb, hvb⟩ := Option.ne_none_iff_exists'.mp hv
  obtain ⟨ib, hib⟩ := Option.ne_none_iff_exists'.mp hi
  have hp' : this.m_parts.isEmpty = false := by
    cases hl : this.m_parts with
    | nil => exact absurd hl hp
    | cons p ps => rfl
  constructor
  · intro hm
    refine ⟨_, _, sceneRender_ok qt rs.sceneRenderer this vb ib hvb hib, ?_⟩
    simp only [ObjModel.render, hvb, hib, hp', hm, Option.isSome_some, Bool.not_false,
      Bool.and_self, if_true, sceneRender_ok qt rs.sceneRenderer this vb ib hvb hib, Except.map]
  · intro hm
    refine ⟨_, _, shadowRender_ok rs.shadowRenderer this vb ib hvb hib, ?_⟩
    simp only [ObjModel.render, hvb, hib, hp', hm, Option.isSome_some, Bool.not_false,
      Bool.and_self, if_true, shadowRender_ok rs.shadowRenderer this vb ib hvb hib, Except.map]

theorem applyOps_of_null (qt : Qt F) (ops : List ModelOp) :
    ∀ (rs : Renderers) (this : ObjModel F),
      (this.m_vertexBuffer = none ∨ this.m_indexBuffer = none ∨ this.m_parts = []) →
      ∃ this1, ObjModel.applyOps qt rs this ops = .ok (rs, this1, []) ∧
        this1.m_vertexBuffer = this.m_vertexBuffer ∧
        this1.m_indexBuffer = this.m_indexBuffer ∧ this1.m_parts = this.m_parts := by
  induction ops with
  | nil =>
    intro rs this _
    exact ⟨this, rfl, rfl, rfl, rfl⟩
  | cons op ops ih =>
    intro rs this h
    cases op with
    | setRenderMode mode =>
      obtain ⟨t, h1, h2, h3, h4⟩ := ih rs (this.setRenderMode mode) h
      exact ⟨t, by simpa [ObjModel.applyOps] using h1, h2, h3, h4⟩
    | setShadowTextureId val =>
      obtain ⟨t, h1, h2, h3, h4⟩ := ih rs (this.setShadowTextureId val) h
      exact ⟨t, by simpa [ObjModel.applyOps] using h1, h2, h3, h4⟩
    | render =>
      obtain ⟨t, h1, h2, h3, h4⟩ := ih rs this h
      refine ⟨t, ?_, h2, h3, h4⟩
      simp [ObjModel.applyOps, render_of_null qt rs this h, Except.bind, h1, Except.map]

/-- C11: when the mesh file cannot be opened, the constructed model has null
vertex and index buffers, an empty part list, normal offset 0 and the
all-zero bounding box, and any later sequence of `setRenderMode`,
`setShadowTextureId` and `render` calls on it invokes neither the scene nor
the shadow renderer. -/
theorem unopened_file_gives_empty_model (qt : Qt F) (fs : FileSystem) (fileName : String)
    (hfs : fs fileName = none) :
    ∃ m, ObjModel.create qt fs fileName = .ok m ∧
      m.m_vertexBuffer = none ∧ m.m_indexBuffer = none ∧ m.m_parts = [] ∧
      m.m_normalOffset = 0 ∧ m.m_boundingBox = ⟨⟨0, 0⟩, ⟨0, 0⟩, ⟨0, 0⟩⟩ ∧
      ∀ (rs : Renderers) (ops : List ModelOp),
        ∃ m1, ObjModel.applyOps qt rs m ops = .ok (rs, m1, []) := by
  refine ⟨ObjModel.init, ?_, rfl, rfl, rfl, rfl, rfl, ?_⟩
  · simp [ObjModel.create, ObjModel.load, parseFile, hfs]
  · intro rs ops
    obtain ⟨m1, h, -⟩ := applyOps_of_null qt ops rs ObjModel.init (Or.inl rfl)
    exact ⟨m1, h⟩

/-- C13: for every two bounding boxes `a` and `b`, the box `a` after
`a.unite(b)` has on each axis the smaller of the two mins as min and the
larger of the two maxes as max; `b` is passed by const reference and is only
read. -/
theorem unite_is_componentwise_min_max (a b : BoundingBox F) :
    (a.unite b).x.min = min a.x.min b.x.min ∧ (a.unite b).x.max = max a.x.max b.x.max ∧
    (a.unite b).y.min = min a.y.min b.y.min ∧ (a.unite b).y.max = max a.y.max b.y.max ∧
    (a.unite b).z.min = min a.z.min b.z.min ∧ (a.unite b).z.max = max a.z.max b.z.max := by
  have hmin : ∀ x y : F, qMin x y = min x y := by
    intro x y
    unfold qMin
    rcases lt_trichotomy x y with h | h | h
    · rw [if_pos h, min_eq_left (le_of_lt h)]
    · subst h; simp
    · rw [if_neg (not_lt_of_gt h), min_eq_right (le_of_lt h)]
  have hmax : ∀ x y : F, qMax x y = max x y := by
    intro x y
    unfold qMax
    rcases lt_trichotomy x y with h | h | h
    · rw [if_pos h, max_eq_right (le_of_lt h)]
    · subst h; simp
    · rw [if_neg (not_lt_of_gt h), max_eq_left (le_of_lt h)]
  simp [BoundingBox.unite, hmin, hmax]

/-- C16: a freshly constructed `Part` has white ambient and diffuse colours,
ambient intensity 0.1, diffuse intensity 1, specular intensity 0, brightness
1 and opacity 1, but its specular colour is the default-constructed invalid
colour, not white: `reset()` assigns `color.diffuse` twice and never
`color.specular`. -/
theorem fresh_part_specular_colour_not_white :
    (Part.init : Part F).material.color.ambient = QColor.white ∧
    (Part.init : Part F).material.color.diffuse = QColor.white ∧
    (Part.init : Part F).material.color.specular = QColor.invalid ∧
    (Part.init : Part F).material.color.specular ≠ QColor.white ∧
    (Part.init : Part F).material.intensity = ⟨1 / 10, 1, 0⟩ ∧
    (Part.init : Part F).material.brightness = 1 ∧
    (Part.init : Part F).material.opacity = 1 := by
  refine ⟨rfl, rfl, rfl, ?_, rfl, rfl, rfl⟩
  simp [Part.init, Material.reset, Material.raw, QColor.invalid, QColor.white]

theorem run_append (s : GlState F) (a b : List (GlCommand F)) :
    s.run (a ++ b) = (s.run a).run b := by
  simp [GlState.run, List.foldl_append]

theorem run_cons (s : GlState F) (c : GlCommand F) (cs : List (GlCommand F)) :
    s.run (c :: cs) = (s.step c).run cs := rfl

theorem run_nil (s : GlState F) : s.run [] = s := rfl

theorem drawCalls_append (a b : List (GlCommand F)) :
    ∀ s : GlState F, drawCalls s (a ++ b) = drawCalls s a ++ drawCalls (s.run a) b := by
  induction a with
  | nil => intro s; rfl
  | cons c cs ih =>
    intro s
    cases c <;> simp [drawCalls, ih, run_cons, GlState.step]

theorem drawCalls_scenePart (qt : Qt F) (s : GlState F) (part : Part F) :
    drawCalls s (scenePartCommands qt part) =
      [⟨partState qt s part, part.type, part.length, part.start * sizeofInt⟩] := by
  simp [scenePartCommands, drawCalls, partState, GlState.run]

theorem run_scenePart (qt : Qt F) (s : GlState F) (part : Part F) :
    s.run (scenePartCommands qt part) = partState qt s part := by
  simp [scenePartCommands, partState, GlState.run, GlState.step]


theorem drawCalls_parts_map {α : Type} (qt : Qt F) (f : DrawCall F → α) (g : Part F → α)
    (hf : ∀ (s : GlState F) (p : Part F),
      f ⟨partState qt s p, p.type, p.length, p.start * sizeofInt⟩ = g p)
    (parts : List (Part F)) :
    ∀ s : GlState F,
      (drawCalls s (parts.map (scenePartCommands qt)).flatten).map f = parts.map g := by
  induction parts with
  | nil => intro s; rfl
  | cons p ps ih =>
    intro s
    simp only [List.map_cons, List.flatten_cons, drawCalls_append, drawCalls_scenePart,
      List.map_append, List.map_nil, ih, hf, List.singleton_append]

theorem drawCalls_parts_invariant (qt : Qt F) (P : GlState F → Prop)
    (hP : ∀ (s : GlState F) (p : Part F), P s → P (partState qt s p))
    (parts : List (Part F)) :
    ∀ s : GlState F, P s →
      (∀ d ∈ drawCalls s (parts.map (scenePartCommands qt)).flatten, P d.state) ∧
        P (s.run (parts.map (scenePartCommands qt)).flatten) := by
  induction parts with
  | nil =>
    intro s hs
    exact ⟨by simp [drawCalls], hs⟩
  | cons p ps ih =>
    intro s hs
    simp only [List.map_cons, List.flatten_cons, drawCalls_append, drawCalls_scenePart,
      run_append, run_scenePart]
    obtain ⟨h1, h2⟩ := ih (partState qt s p) (hP s p hs)
    refine ⟨?_, h2⟩
    intro d hd
    rcases List.mem_append.mp hd with hd | hd
    · simp only [List.mem_singleton] at hd
      subst hd
      exact hP s p hs
    · exact h1 d hd

theorem partState_shadowSettings (qt : Qt F) (s : GlState F) (p : Part F) (enabled : Bool)
    (handle : Nat) (h : ShadowSettings s enabled handle) :
    ShadowSettings (partState qt s p) enabled handle := by
  unfold ShadowSettings at *
  simpa [partState, scenePartCommands, GlState.run, GlState.step] using h

theorem drawCalls_scenePrologue (model : ObjModel F) (s : GlState F) :
    drawCalls s (scenePrologue model) = [] := by
  unfold scenePrologue sceneShadowSetup
  split <;> simp [drawCalls]

theorem drawCalls_sceneEpilogue (model : ObjModel F) (s : GlState F) :
    drawCalls s (sceneEpilogue model) = [] := by
  unfold sceneEpilogue sceneShadowCleanup
  split <;> simp [drawCalls]

theorem scenePrologue_shadowSettings (model : ObjModel F) (s : GlState F) :
    ShadowSettings (s.run (scenePrologue model)) (decide (model.m_shadowTextureId ≠ 0))
      model.m_shadowTextureId := by
  unfold scenePrologue sceneShadowSetup ShadowSettings
  by_cases h : model.m_shadowTextureId = 0
  · simp [h, GlState.run, GlState.step]
  · have h1 : model.m_shadowTextureId > 0 := Nat.pos_of_ne_zero h
    simp [h, h1, GlState.run, GlState.step]

theorem sceneEpilogue_uniforms (model : ObjModel F) (s : GlState F) :
    (s.run (sceneEpilogue model)).uniforms = s.uniforms := by
  unfold sceneEpilogue sceneShadowCleanup
  split <;> simp [GlState.run, GlState.step]


theorem sceneRender_commands (qt : Qt F) (r r1 : SceneRenderer) (model : ObjModel F)
    (cmds : List (GlCommand F)) (h : SceneRenderer.render qt r model = .ok (r1, cmds)) :
    ∃ init : List (GlCommand F), cmds = init ++ sceneCommands qt model ∧
      (∀ s : GlState F, drawCalls s init = [] ∧ s.run init = s) := by
  cases hv : model.m_vertexBuffer with
  | none => simp [SceneRenderer.render, hv] at h
  | some vb =>
    cases hi : model.m_indexBuffer with
    | none => simp [SceneRenderer.render, hv, hi] at h
    | some ib =>
      simp only [SceneRenderer.render, hv, hi, Except.ok.injEq, Prod.mk.injEq] at h
      refine ⟨_, h.2.symm, ?_⟩
      intro s
      split <;> simp [drawCalls, GlState.run, GlState.step]

/-- C17: for every model the scene renderer renders, every draw call is
issued with the shadow flag `qt_ShadowEnabled` equal to "the shadow-map
handle is nonzero" and, when the handle is nonzero, with the sampler
`qt_ShadowMap` on texture unit 0 and exactly that handle bound to unit 0; the
flag keeps that value at the end of the pass, and with handle 0 the pass
binds no texture. -/
theorem scene_pass_shadow_flag_follows_handle (qt : Qt F) (r r1 : SceneRenderer)
    (model : ObjModel F) (cmds : List (GlCommand F))
    (h : SceneRenderer.render qt r model = .ok (r1, cmds)) (s0 : GlState F) :
    (∀ d ∈ drawCalls s0 cmds,
      ShadowSettings d.state (decide (model.m_shadowTextureId ≠ 0)) model.m_shadowTextureId) ∧
    (s0.run cmds).uniforms "qt_ShadowEnabled" =
      some (.bool (decide (model.m_shadowTextureId ≠ 0))) ∧
    (model.m_shadowTextureId = 0 → (s0.run cmds).boundTexture = s0.boundTexture) := by
  obtain ⟨init, hc, hinit⟩ := sceneRender_commands qt r r1 model cmds h
  subst hc
  have hpre := scenePrologue_shadowSettings model s0
  obtain ⟨hdraws, hafter⟩ := drawCalls_parts_invariant qt
    (fun s => ShadowSettings s (decide (model.m_shadowTextureId ≠ 0)) model.m_shadowTextureId)
    (fun s p hs => partState_shadowSettings qt s p _ _ hs) model.m_parts _ hpre
  refine ⟨?_, ?_, ?_⟩
  · intro d hd
    simp only [sceneCommands, drawCalls_append, (hinit s0).1, (hinit s0).2,
      drawCalls_scenePrologue, drawCalls_sceneEpilogue, List.nil_append, List.append_nil,
      run_append] at hd
    exact hdraws d hd
  · simp only [sceneCommands, run_append, (hinit s0).2, sceneEpilogue_uniforms]
    exact hafter.1
  · intro h0
    have hb : ∀ s : GlState F, (s.run (scenePrologue model)).boundTexture = s.boundTexture := by
      intro s
      simp [scenePrologue, sceneShadowSetup, h0, GlState.run, GlState.step]
    have hp := (drawCalls_parts_invariant qt (fun s => s.boundTexture = s0.boundTexture)
      (fun s p hs => by
        simpa [partState, scenePartCommands, GlState.run, GlState.step] using hs)
      model.m_parts _ (hb s0)).2
    simp only [sceneCommands, run_append, (hinit s0).2]
    rw [← hp]
    simp [sceneEpilogue, sceneShadowCleanup, h0, GlState.run, GlState.step]

/-- C18: for every part drawn by the scene renderer, the diffuse material
value in effect at its draw call is the part's diffuse colour with red, green
and blue each multiplied by the diffuse intensity, and the ambient value is
the ambient colour multiplied likewise by the ambient intensity. -/
theorem scene_pass_scales_colours_by_intensity (qt : Qt F) (r r1 : SceneRenderer)
    (model : ObjModel F) (cmds : List (GlCommand F))
    (h : SceneRenderer.render qt r model = .ok (r1, cmds)) (s0 : GlState F) :
    (drawCalls s0 cmds).map
        (fun d => (d.state.uniforms "qt_Material.diffuse",
          d.state.uniforms "qt_Material.ambient")) =
      model.m_parts.map
        (fun p =>
          (some (.color (scaledColor qt p.material.color.diffuse p.material.intensity.diffuse)),
           some (.color
             (scaledColor qt p.material.color.ambient p.material.intensity.ambient)))) := by
  obtain ⟨init, hc, hinit⟩ := sceneRender_commands qt r r1 model cmds h
  subst hc
  simp only [sceneCommands, drawCalls_append, (hinit s0).1, (hinit s0).2,
    drawCalls_scenePrologue, drawCalls_sceneEpilogue, List.nil_append, List.append_nil,
    run_append]
  apply drawCalls_parts_map
  intro s p
  simp [partState, scenePartCommands, GlState.run, GlState.step, scaledColor]

theorem scaledColor_components (qt : Qt F)
    (hstore : ∀ r g b : F, qt.setRgbF r g b = ⟨true, r, g, b⟩) (c : QColor F) (k : F) :
    (scaledColor qt c k).redF = c.redF * k ∧ (scaledColor qt c k).greenF = c.greenF * k ∧
      (scaledColor qt c k).blueF = c.blueF * k := by
  simp [scaledColor, hstore]

theorem render_total (qt : Qt F) (rs : Renderers) (this : ObjModel F) :
    ∃ rs1 calls, ObjModel.render qt rs this = .ok (rs1, this, calls) := by
  unfold ObjModel.render
  split
  · rename_i h
    simp only [Bool.and_eq_true, Option.isSome_iff_exists] at h
    obtain ⟨⟨⟨vb, hv⟩, ⟨ib, hi⟩⟩, -⟩ := h
    cases this.m_renderMode with
    | SceneMode =>
      simp only [SceneRenderer.render, hv, hi, Except.map]
      exact ⟨_, _, rfl⟩
    | ShadowMode =>
      simp only [ShadowRenderer.render, hv, hi, Except.map]
      exact ⟨_, _, rfl⟩
  · exact ⟨rs, [], rfl⟩

theorem renderCalls_append (a b : List (FrameEvent F)) :
    renderCalls (a ++ b) = renderCalls a ++ renderCalls b := by
  induction a with
  | nil => rfl
  | cons e es ih => cases e <;> simp [renderCalls, ih]

theorem drawsOf_append (a b : List (GlCommand F)) :
    drawsOf (a ++ b) = drawsOf a ++ drawsOf b := by
  induction a with
  | nil => rfl
  | cons c cs ih => cases c <;> simp [drawsOf, ih]

theorem drawsOf_sceneParts (qt : Qt F) (parts : List (Part F)) :
    drawsOf (parts.map (scenePartCommands qt)).flatten =
      parts.map fun p => (p.type, p.length, p.start * 4) := by
  induction parts with
  | nil => rfl
  | cons p ps ih =>
    simp only [List.map_cons, List.flatten_cons, drawsOf_append, ih]
    simp [scenePartCommands, drawsOf, sizeofInt]

theorem drawsOf_shadowParts (parts : List (Part F)) :
    drawsOf (parts.map shadowPartCommands).flatten =
      parts.map fun p => (p.type, p.length, p.start * 4) := by
  induction parts with
  | nil => rfl
  | cons p ps ih =>
    simp only [List.map_cons, List.flatten_cons, drawsOf_append, ih]
    simp [shadowPartCommands, drawsOf, sizeofInt]

/-- The draws of the scene pass on a model: one per part. -/
theorem drawsOf_sceneCommands (qt : Qt F) (model : ObjModel F) :
    drawsOf (sceneCommands qt model) =
      model.m_parts.map fun p => (p.type, p.length, p.start * 4) := by
  have h1 : drawsOf (scenePrologue model) = [] := by
    unfold scenePrologue sceneShadowSetup
    split <;> simp [drawsOf]
  have h2 : drawsOf (sceneEpilogue model) = [] := by
    unfold sceneEpilogue sceneShadowCleanup
    split <;> simp [drawsOf]
  simp only [sceneCommands, drawsOf_append, h1, h2, drawsOf_sceneParts, List.nil_append,
    List.append_nil]

/-- The draws of the shadow pass on a model: one per part. -/
theorem drawsOf_shadowCommands (model : ObjModel F) :
    drawsOf (shadowCommands model) =
      model.m_parts.map fun p => (p.type, p.length, p.start * 4) := by
  simp only [shadowCommands, drawsOf_append, drawsOf_shadowParts]
  simp [drawsOf]

/-- Method `ObjModel::render` returns, leaves the model as it is, and invokes
the renderer of the model's mode once when the model can be drawn. -/
theorem render_rendering (qt : Qt F) (rs : Renderers) (this : ObjModel F) :
    ∃ rs1 calls, ObjModel.render qt rs this = .ok (rs1, this, calls) ∧
      calls.map RendererCall.summary = renderingOf (Pass.ofMode this.m_renderMode) this := by
  unfold ObjModel.render renderingOf
  split
  · rename_i h
    have h0 := h
    simp only [Bool.and_eq_true, Option.isSome_iff_exists] at h
    obtain ⟨⟨⟨vb, hv⟩, ⟨ib, hi⟩⟩, -⟩ := h
    cases hmode : this.m_renderMode with
    | SceneMode =>
      simp only [SceneRenderer.render, hv, hi, Except.map]
      refine ⟨_, _, rfl, ?_⟩
      simp only [List.map_cons, List.map_nil, RendererCall.summary, drawsOf_append,
        drawsOf_sceneCommands, Pass.ofMode]
      split <;> simp [drawsOf]
    | ShadowMode =>
      simp only [ShadowRenderer.render, hv, hi, Except.map]
      refine ⟨_, _, rfl, ?_⟩
      simp only [List.map_cons, List.map_nil, RendererCall.summary, drawsOf_append,
        drawsOf_shadowCommands, Pass.ofMode]
      split <;> simp [drawsOf]
  · exact ⟨rs, [], rfl, rfl⟩

theorem renderedModels_append (a b : List (FrameEvent F)) :
    renderedModels (a ++ b) = renderedModels a ++ renderedModels b := by
  induction a with
  | nil => rfl
  | cons e es ih => cases e <;> simp [renderedModels, ih]

/-- Setting the render mode or the shadow-map handle of a model does not
change what rendering it amounts to. -/
theorem renderingOf_setRenderMode (pass : Pass) (m : ObjModel F) (mode : RenderMode) :
    renderingOf pass (m.setRenderMode mode) = renderingOf pass m := rfl

theorem renderingOf_setShadowTextureId (pass : Pass) (m : ObjModel F) (val : Nat) :
    renderingOf pass (m.setShadowTextureId val) = renderingOf pass m := rfl

theorem renderingAt_map_handle (pass : Pass) (models : List (ObjModel F)) (val i : Nat) :
    renderingAt pass (models.map fun model => model.setShadowTextureId val) i =
      renderingAt pass models i := by
  unfold renderingAt
  rw [List.get?_eq_getElem?, List.get?_eq_getElem?, List.getElem?_map]
  cases models[i]? with
  | none => rfl
  | some m => rfl

theorem renderingAt_set_mode (pass : Pass) (models : List (ObjModel F)) (mode : RenderMode)
    (i j : Nat) (hi : i < models.length) :
    renderingAt pass (models.set i ((models.get ⟨i, hi⟩).setRenderMode mode)) j =
      renderingAt pass models j := by
  unfold renderingAt
  rw [List.get?_eq_getElem?, List.get?_eq_getElem?, List.getElem?_set]
  by_cases hij : i = j
  · subst hij
    simp only [if_true, hi, List.getElem?_eq_getElem hi]
    rfl
  · simp only [hij, if_false]

/-- One loop iteration of either pass on a model that exists. -/
theorem renderModelAt_rendering (qt : Qt F) (mode : RenderMode) (i : Nat) (w : RenderWindow F)
    (k : Nat) (hi : i < w.m_models.length) (hk : AllHandles w k) :
    ∃ w1 events, renderModelAt qt mode i w = .ok (w1, events) ∧
      w1.m_models.length = w.m_models.length ∧ AllHandles w1 k ∧
      w1.m_shadowMapTex = w.m_shadowMapTex ∧ w1.m_shadowMapFBO = w.m_shadowMapFBO ∧
      (∀ pass j, renderingAt pass w1.m_models j = renderingAt pass w.m_models j) ∧
      renderCalls events = [(i, mode, k)] ∧
      renderedModels events = [(i, mode, k, renderingAt (Pass.ofMode mode) w.m_models i)] := by
  have hget : w.m_models[i]? = some w.m_models[i] := List.getElem?_eq_getElem hi
  have hat : itemAt w.m_models (i : Int) = .ok w.m_models[i] := by
    simp [itemAt, hget]
  obtain ⟨rs1, calls, hr, hsum⟩ :=
    render_rendering qt w.renderers (w.m_models[i].setRenderMode mode)
  refine ⟨{ w with m_models := w.m_models.set i (w.m_models[i].setRenderMode mode),
                    renderers := rs1 },
    [FrameEvent.render i (w.m_models[i].setRenderMode mode) calls], ?_, ?_, ?_, ?_, ?_, ?_, ?_,
    ?_⟩
  · simp only [renderModelAt, hat, Except.bind, hr]
  · simp
  · intro m hm
    rcases List.mem_or_eq_of_mem_set hm with hm | hm
    · exact hk m hm
    · rw [hm]
      exact hk w.m_models[i] (List.getElem_mem hi)
  · rfl
  · rfl
  · intro pass j
    exact renderingAt_set_mode pass w.m_models mode i j hi
  · simp [renderCalls, ObjModel.setRenderMode, hk _ (List.getElem_mem hi)]
  · simp only [renderedModels, hsum]
    have hmode : (w.m_models[i].setRenderMode mode).m_renderMode = mode := rfl
    have hhandle : (w.m_models[i].setRenderMode mode).m_shadowTextureId = k :=
      hk w.m_models[i] (List.getElem_mem hi)
    rw [hmode, hhandle, renderingOf_setRenderMode]
    simp [renderingAt, hget]

/-- The loop of the shadow pass. -/
theorem shadowLoop_rendering (qt : Qt F) (k : Nat) (count : Nat) :
    ∀ (i : Nat) (w : RenderWindow F), i + count ≤ w.m_models.length → AllHandles w k →
      ∃ w1 events, shadowLoop qt i count w = .ok (w1, events) ∧
        w1.m_models.length = w.m_models.length ∧ AllHandles w1 k ∧
        w1.m_shadowMapTex = w.m_shadowMapTex ∧ w1.m_shadowMapFBO = w.m_shadowMapFBO ∧
        (∀ pass j, renderingAt pass w1.m_models j = renderingAt pass w.m_models j) ∧
        renderCalls events =
          (List.range' i count).map (fun j => (j, RenderMode.ShadowMode, k)) ∧
        renderedModels events =
          (List.range' i count).map
            (fun j => (j, RenderMode.ShadowMode, k, renderingAt .shadow w.m_models j)) := by
  induction count with
  | zero =>
    intro i w _ hk
    exact ⟨w, [], rfl, rfl, hk, rfl, rfl, fun _ _ => rfl, rfl, rfl⟩
  | succ count ih =>
    intro i w hi hk
    obtain ⟨w1, e1, h1, hl1, hk1, ht1, hf1, hs1, hc1, hr1⟩ :=
      renderModelAt_rendering qt .ShadowMode i w k (by omega) hk
    obtain ⟨w2, e2, h2, hl2, hk2, ht2, hf2, hs2, hc2, hr2⟩ := ih (i + 1) w1 (by omega) hk1
    refine ⟨w2, e1 ++ e2, ?_, by omega, hk2, by rw [ht2, ht1], by rw [hf2, hf1], ?_, ?_, ?_⟩
    · simp only [shadowLoop, h1, Except.bind, h2, Except.map]
    · intro pass j
      rw [hs2, hs1]
    · rw [renderCalls_append, hc1, hc2]
      rfl
    · rw [renderedModels_append, hr1, hr2]
      simp only [hs1, Pass.ofMode]
      rfl

/-- The loop of the scene pass. -/
theorem sceneLoop_rendering (qt : Qt F) (k : Nat) (count : Nat) :
    ∀ (w : RenderWindow F), count ≤ w.m_models.length → AllHandles w k →
      ∃ w1 events, sceneLoop qt count w = .ok (w1, events) ∧
        w1.m_models.length = w.m_models.length ∧ AllHandles w1 k ∧
        w1.m_shadowMapTex = w.m_shadowMapTex ∧ w1.m_shadowMapFBO = w.m_shadowMapFBO ∧
        (∀ pass j, renderingAt pass w1.m_models j = renderingAt pass w.m_models j) ∧
        renderCalls events =
          (List.range count).reverse.map (fun j => (j, RenderMode.SceneMode, k)) ∧
        renderedModels events =
          (List.range count).reverse.map
            (fun j => (j, RenderMode.SceneMode, k, renderingAt .scene w.m_models j)) := by
  induction count with
  | zero =>
    intro w _ hk
    exact ⟨w, [], rfl, rfl, hk, rfl, rfl, fun _ _ => rfl, rfl, rfl⟩
  | succ count ih =>
    intro w hi hk
    obtain ⟨w1, e1, h1, hl1, hk1, ht1, hf1, hs1, hc1, hr1⟩ :=
      renderModelAt_rendering qt .SceneMode count w k (by omega) hk
    obtain ⟨w2, e2, h2, hl2, hk2, ht2, hf2, hs2, hc2, hr2⟩ := ih w1 (by omega) hk1
    refine ⟨w2, e1 ++ e2, ?_, by omega, hk2, by rw [ht2, ht1], by rw [hf2, hf1], ?_, ?_, ?_⟩
    · simp only [sceneLoop, h1, Except.bind, h2, Except.map]
    · intro pass j
      rw [hs2, hs1]
    · rw [renderCalls_append, hc1, hc2, List.range_succ]
      simp
    · rw [renderedModels_append, hr1, hr2, List.range_succ]
      simp [hs1, Pass.ofMode]

/-- C19: a frame painted by `ShadowRenderWindow` with `n` models first
renders models `0..n-2` in that order (none when `n <= 1`), each in
`ShadowMode` with shadow-map handle 0, and then renders every one of the `n`
models exactly once, from the last to the first, in `SceneMode` with the
depth texture handle of the window.  Rendering a model that has both buffers
and a part invokes the renderer of the pass once, and that invocation draws
every part of the model; rendering any other model invokes no renderer. -/
theorem shadow_pass_then_scene_pass (qt : Qt F) (newTex newFbo : Nat) (w : RenderWindow F) :
    ∃ w1 events, ShadowRenderWindow.paintGL qt newTex newFbo w = .ok (w1, events) ∧
      w1.m_shadowMapTex = (if w.m_shadowMapFBO ≠ 0 then w.m_shadowMapTex else newTex) ∧
      renderCalls events =
        (List.range (w.m_models.length - 1)).map (fun i => (i, RenderMode.ShadowMode, 0)) ++
        (List.range w.m_models.length).reverse.map
          (fun i => (i, RenderMode.SceneMode, w1.m_shadowMapTex)) ∧
      renderedModels events =
        (List.range (w.m_models.length - 1)).map
          (fun i => (i, RenderMode.ShadowMode, 0, renderingAt .shadow w.m_models i)) ++
        (List.range w.m_models.length).reverse.map
          (fun i => (i, RenderMode.SceneMode, w1.m_shadowMapTex,
            renderingAt .scene w.m_models i)) := by
  have hinit : ∀ v : RenderWindow F,
      (initDepthMap newTex newFbo v).m_models = v.m_models ∧
      (initDepthMap newTex newFbo v).m_shadowMapTex =
        (if v.m_shadowMapFBO ≠ 0 then v.m_shadowMapTex else newTex) := by
    intro v
    unfold initDepthMap
    split <;> simp
  obtain ⟨w2, e2, h2, hl2, -, ht2, -, hs2, hc2, hr2⟩ :=
    shadowLoop_rendering qt 0 (w.m_models.length - 1) 0
    (initDepthMap newTex newFbo
      { w with m_models := w.m_models.map fun model => model.setShadowTextureId 0 })
    (by rw [(hinit _).1]; simp)
    (by
      intro m hm
      rw [(hinit _).1] at hm
      simp only [List.mem_map] at hm
      obtain ⟨m0, -, rfl⟩ := hm
      rfl)
  rw [(hinit _).1] at hl2 hs2 hr2
  rw [(hinit _).2] at ht2
  simp only [List.length_map] at hl2
  simp only [renderingAt_map_handle] at hs2 hr2
  obtain ⟨w4, e4, h4, -, -, ht4, -, -, hc4, hr4⟩ := sceneLoop_rendering qt w2.m_shadowMapTex
    w.m_models.length
    { w2 with m_models := w2.m_models.map fun model =>
                model.setShadowTextureId w2.m_shadowMapTex }
    (by simp [hl2])
    (by
      intro m hm
      simp only [List.mem_map] at hm
      obtain ⟨m0, -, rfl⟩ := hm
      rfl)
  simp only at ht4
  simp only [renderingAt_map_handle, hs2] at hr4
  refine ⟨w4,
    ([FrameEvent.gl (.bindFramebuffer
        (initDepthMap newTex newFbo
          { w with m_models := w.m_models.map fun model =>
                      model.setShadowTextureId 0 }).m_shadowMapFBO),
      FrameEvent.gl (.cullFace true)] ++ e2 ++ [FrameEvent.gl (.bindFramebuffer 0)]) ++
      (FrameEvent.gl (.cullFace false) :: e4), ?_, ?_, ?_, ?_⟩
  · simp only [ShadowRenderWindow.paintGL, renderToShadowMap, (hinit _).1, List.length_map,
      h2, Except.map, Except.bind, renderToScreen, hl2, h4]
  · rw [ht4, ht2]
  · rw [renderCalls_append, renderCalls_append, renderCalls_append]
    simp only [renderCalls, hc2, hc4, List.append_nil, List.nil_append, ht4,
      List.range_eq_range']
  · rw [renderedModels_append, renderedModels_append, renderedModels_append]
    simp only [renderedModels, hr2, hr4, List.append_nil, List.nil_append, ht4,
      List.range_eq_range']

/-- A model built from a file that cannot be opened, then switched between
modes and rendered: no renderer runs. -/
theorem unopened_file_gives_empty_model_witness :
    noFiles meshPath = none ∧
    ∃ m, ObjModel.create refQt noFiles meshPath = .ok m ∧
      m.m_vertexBuffer = none ∧ m.m_indexBuffer = none ∧ m.m_parts = [] ∧
      m.m_normalOffset = 0 ∧ m.m_boundingBox = ⟨⟨0, 0⟩, ⟨0, 0⟩, ⟨0, 0⟩⟩ ∧
      ∀ (rs : Renderers) (ops : List ModelOp),
        ∃ m1, ObjModel.applyOps refQt rs m ops = .ok (rs, m1, []) :=
  ⟨rfl, unopened_file_gives_empty_model refQt noFiles meshPath rfl⟩

/-- The bounding box of the worked example spans its three positions. -/
theorem bounding_box_spans_all_positions_witness :
    positionsOf refQt triangleText = [⟨0, 0, 0⟩, ⟨1, 0, 0⟩, ⟨0, 1, 0⟩] ∧
    ObjModel.create refQt (oneFile meshPath triangleText) meshPath = .ok triangleModel ∧
    (positionsOf refQt triangleText = [] →
      triangleModel.m_boundingBox = ⟨⟨0, 0⟩, ⟨0, 0⟩, ⟨0, 0⟩⟩) ∧
    (positionsOf refQt triangleText ≠ [] →
      Bounds triangleModel.m_boundingBox (positionsOf refQt triangleText)) :=
  ⟨by with_unfolding_all decide, by with_unfolding_all rfl,
    bounding_box_spans_all_positions refQt (oneFile meshPath triangleText) meshPath
      triangleText triangleModel (by decide) (by with_unfolding_all rfl)⟩

/-- The block `paint` of `materialText`: the second `Kd` line wins and keeps
its four values. -/
theorem material_block_maps_to_its_last_properties_witness :
    lastProp "Kd" ["Kd 1 0 0\n", "Ns 10\n", "\n", "Kd 0 1 0 0.5\n"] =
      some ["0", "1", "0", "0.5"] ∧
    (LoadMaterials refQt materialFile "/m/t.mtl").contains "paint" = true ∧
    ∀ key,
      ((LoadMaterials refQt materialFile "/m/t.mtl").value "paint" QMap.empty).value key [] =
          ((lastProp key ["Kd 1 0 0\n", "Ns 10\n", "\n", "Kd 0 1 0 0.5\n"]).map
            fun tokens => tokens.map refQt.toFloat).getD [] ∧
      ((LoadMaterials refQt materialFile "/m/t.mtl").value "paint" QMap.empty).contains key =
          (lastProp key ["Kd 1 0 0\n", "Ns 10\n", "\n", "Kd 0 1 0 0.5\n"]).isSome :=
  ⟨by decide,
    material_block_maps_to_its_last_properties refQt materialFile "/m/t.mtl"
      ["# materials\n", "Ka 1 1 1\n"] ["Kd 1 0 0\n", "Ns 10\n", "\n", "Kd 0 1 0 0.5\n"]
      ["newmtl bare\n", "newmtl steel\n", "Ns 100\n"] "newmtl paint\n" "paint"
      (by decide) (by decide)
      (by
        intro l hl n
        simp only [List.mem_cons, List.mem_singleton, List.not_mem_nil, or_false] at hl
        rcases hl with rfl | rfl | rfl | rfl
        · rw [show classifyMtl "Kd 1 0 0\n" = .prop "Kd" ["1", "0", "0"] by decide]
          simp
        · rw [show classifyMtl "Ns 10\n" = .prop "Ns" ["10"] by decide]
          simp
        · rw [show classifyMtl "\n" = .skip by decide]
          simp
        · rw [show classifyMtl "Kd 0 1 0 0.5\n" = .prop "Kd" ["0", "1", "0", "0.5"] by decide]
          simp)
      ⟨"Ns 10\n", by simp, "Ns", ["10"], by decide⟩
      (Or.inr ⟨"newmtl bare\n", "bare", ["newmtl steel\n", "Ns 100\n"], rfl, by decide⟩)
      (by
        intro l hl
        simp only [List.mem_cons, List.mem_singleton, List.not_mem_nil, or_false] at hl
        rcases hl with rfl | rfl | rfl <;> decide)⟩


/-- The scene pass on the worked example with handle 7: both draw-time
settings and the final flag. -/
theorem scene_pass_shadow_flag_follows_handle_witness :
    SceneRenderer.render refQt ⟨false⟩ shadowedTriangle =
      .ok (⟨true⟩, [GlCommand.loadShaders ":/scene_vertex.glsl" ":/scene_fragment.glsl"] ++
        sceneCommands refQt shadowedTriangle) ∧
    (∀ d ∈ drawCalls glInitial
        ([GlCommand.loadShaders ":/scene_vertex.glsl" ":/scene_fragment.glsl"] ++
          sceneCommands refQt shadowedTriangle),
      ShadowSettings d.state (decide (shadowedTriangle.m_shadowTextureId ≠ 0))
        shadowedTriangle.m_shadowTextureId) ∧
    (glInitial.run
        ([GlCommand.loadShaders ":/scene_vertex.glsl" ":/scene_fragment.glsl"] ++
          sceneCommands refQt shadowedTriangle)).uniforms "qt_ShadowEnabled" =
      some (.bool (decide (shadowedTriangle.m_shadowTextureId ≠ 0))) ∧
    (shadowedTriangle.m_shadowTextureId = 0 →
      (glInitial.run
        ([GlCommand.loadShaders ":/scene_vertex.glsl" ":/scene_fragment.glsl"] ++
          sceneCommands refQt shadowedTriangle)).boundTexture = glInitial.boundTexture) :=
  ⟨rfl,
    scene_pass_shadow_flag_follows_handle refQt ⟨false⟩ ⟨true⟩ shadowedTriangle _ rfl
      glInitial⟩

/-- The scene pass on the worked example: white scaled by 1 and by 1/10. -/
theorem scene_pass_scales_colours_by_intensity_witness :
    SceneRenderer.render refQt ⟨false⟩ shadowedTriangle =
      .ok (⟨true⟩, [GlCommand.loadShaders ":/scene_vertex.glsl" ":/scene_fragment.glsl"] ++
        sceneCommands refQt shadowedTriangle) ∧
    (drawCalls glInitial
        ([GlCommand.loadShaders ":/scene_vertex.glsl" ":/scene_fragment.glsl"] ++
          sceneCommands refQt shadowedTriangle)).map
        (fun d => (d.state.uniforms "qt_Material.diffuse",
          d.state.uniforms "qt_Material.ambient")) =
      shadowedTriangle.m_parts.map
        (fun p =>
          (some (.color
             (scaledColor refQt p.material.color.diffuse p.material.intensity.diffuse)),
           some (.color
             (scaledColor refQt p.material.color.ambient p.material.intensity.ambient)))) :=
  ⟨rfl,
    scene_pass_scales_colours_by_intensity refQt ⟨false⟩ ⟨true⟩ shadowedTriangle _ rfl
      glInitial⟩

/-- Both parts of `twoParts` have a start and a positive length. -/
theorem loaded_parts_have_start_and_length_witness :
    ObjModel.create refQt twoParts meshPath = .ok twoPartsModel ∧
    ∀ p ∈ twoPartsModel.m_parts, 0 ≤ p.start ∧ 0 < p.length :=
  ⟨by with_unfolding_all rfl,
    loaded_parts_have_start_and_length refQt twoParts meshPath twoPartsModel
      (by with_unfolding_all rfl)⟩

/-- The worked example in scene mode reaches the scene renderer. -/
theorem render_dispatch_witness :
    ∃ r cmds, SceneRenderer.render refQt ⟨false⟩ triangleModel = .ok (r, cmds) ∧
      ObjModel.render refQt ⟨⟨false⟩, ⟨false⟩⟩ triangleModel =
        .ok (⟨r, ⟨false⟩⟩, triangleModel, [RendererCall.scene cmds]) :=
  (render_dispatch refQt ⟨⟨false⟩, ⟨false⟩⟩ triangleModel).2 (by decide) |>.1 rfl

/-- A frame of a window with the worked example, a model without buffers and
the two-part model, with a fresh depth texture 5.  The shadow pass renders
models 0 and 1: the shadow renderer draws the triangle of model 0 and is not
invoked for model 1.  The scene pass then renders models 2, 1 and 0: the scene
renderer draws the two parts of model 2 and the triangle of model 0. -/
theorem shadow_pass_then_scene_pass_witness :
    ∃ w1 events, ShadowRenderWindow.paintGL refQt 5 9 mixedModels = .ok (w1, events) ∧
      renderCalls events =
        [(0, RenderMode.ShadowMode, 0), (1, RenderMode.ShadowMode, 0),
         (2, RenderMode.SceneMode, 5), (1, RenderMode.SceneMode, 5),
         (0, RenderMode.SceneMode, 5)] ∧
      renderedModels events =
        [(0, RenderMode.ShadowMode, 0, [(Pass.shadow, [(4, 3, 0)])]),
         (1, RenderMode.ShadowMode, 0, []),
         (2, RenderMode.SceneMode, 5, [(Pass.scene, [(4, 3, 12), (4, 3, 0)])]),
         (1, RenderMode.SceneMode, 5, []),
         (0, RenderMode.SceneMode, 5, [(Pass.scene, [(4, 3, 0)])])] := by
  obtain ⟨w1, events, h1, h2, h3, h4⟩ := shadow_pass_then_scene_pass refQt 5 9 mixedModels
  refine ⟨w1, events, h1, ?_, ?_⟩
  · rw [h3, h2]
    rfl
  · rw [h4, h2]
    rfl

/-- What `ObjModel::ObjModel(fileName)` returns: the fresh model when the file
cannot be opened, otherwise the model `finishLoad` builds from the loop state. -/
theorem create_inv (qt : Qt F) (fs : FileSystem) (fileName : String) (m : ObjModel F)
    (h : ObjModel.create qt fs fileName = .ok m) :
    (fs fileName = none ∧ m = ObjModel.init) ∨
    ∃ lines st, fs fileName = some lines ∧
      parseLines qt fs fileName (LoadState.init ObjModel.init) lines = .ok st ∧
      m = finishLoad ObjModel.init st := by
  unfold ObjModel.create ObjModel.load parseFile at h
  cases hfs : fs fileName with
  | none =>
    simp only [hfs, Option.map_none', Except.ok.injEq] at h
    exact Or.inl ⟨rfl, h.symm⟩
  | some lines =>
    simp only [hfs, Option.map_some'] at h
    cases hp : parseLines qt fs fileName (LoadState.init ObjModel.init) lines with
    | error e => simp [hp] at h
    | ok st =>
      simp only [hp, Except.ok.injEq] at h
      exact Or.inr ⟨lines, st, rfl, hp, h.symm⟩

/-- The steps of `loadFields`, with the fields of the `o` step. -/
theorem loadFields_cases (qt : Qt F) (fs : FileSystem) (fn : String) (st st1 : LoadState F)
    (fields : List String) (h : loadFields qt fs fn st fields = .ok st1) :
    st1 = st ∨
    (∃ mats, st1 = { st with materials := mats }) ∨
    ((∃ rest, fields = "o" :: rest) ∧
      st1 = { st with
              m_parts :=
                if st.currentPart.isValid then st.m_parts ++ [st.currentPart] else st.m_parts
              currentPart := { (Part.init : Part F) with type := GL_TRIANGLES } }) ∨
    (∃ part, (∃ rest, fields = "usemtl" :: rest) ∧
      useMaterial qt (st.materials.value (fields.getLastD "") QMap.empty) st.currentPart =
        .ok part ∧
      st1 = { st with currentPart := part }) ∨
    (∃ type rest, fields = type :: rest ∧ (type = "v" ∨ type = "vn") ∧
      addVertex qt st type fields = .ok st1) ∨
    (∃ a b c na nb nc, appendFace st a b c na nb nc = .ok st1) := by
  cases fields with
  | nil =>
    simp only [loadFields, Except.ok.injEq] at h
    exact Or.inl h.symm
  | cons type rest =>
    simp only [loadFields] at h
    split_ifs at h with h1 h2 h3 h4 h5 h6
    · simp only [Except.ok.injEq] at h
      exact Or.inr (Or.inl ⟨_, h.symm⟩)
    · simp only [Except.ok.injEq] at h
      refine Or.inr (Or.inr (Or.inl ⟨⟨rest, by rw [h2]⟩, ?_⟩))
      rw [← h, if_pos h3]
    · simp only [Except.ok.injEq] at h
      refine Or.inr (Or.inr (Or.inl ⟨⟨rest, by rw [h2]⟩, ?_⟩))
      rw [← h, if_neg h3]
    · rw [map_eq_ok] at h
      obtain ⟨part, hp, h⟩ := h
      refine Or.inr (Or.inr (Or.inr (Or.inl ⟨part, ⟨rest, by rw [h4]⟩, ?_, h.symm⟩)))
      rw [← hp]
      congr 2
    · exact Or.inr (Or.inr (Or.inr (Or.inr (Or.inl ⟨type, rest, rfl, h5, h⟩))))
    · unfold addFace at h
      split_ifs at h with g1
      · simp only [Except.ok.injEq] at h
        exact Or.inl h.symm
      · simp only [bind_eq_ok] at h
        obtain ⟨t1, -, t2, -, t3, -, ⟨a, na⟩, -, ⟨b, nb⟩, -, ⟨c, nc⟩, -, h⟩ := h
        simp only at h
        split_ifs at h with g2 g3
        · simp only [Except.ok.injEq] at h
          exact Or.inl h.symm
        · simp only [Except.ok.injEq] at h
          exact Or.inl h.symm
        · exact Or.inr (Or.inr (Or.inr (Or.inr (Or.inr ⟨a, b, c, na, nb, nc, h⟩))))
    · simp only [Except.ok.injEq] at h
      exact Or.inl h.symm

/-- One loop step on a line that is not an `o` line: the part list and the
type of the current part stay, and either the index array and the range of
the current part stay too, or a face is appended. -/
theorem loadLine_not_object (qt : Qt F) (fs : FileSystem) (fn : String) (st st1 : LoadState F)
    (raw : String) (h : loadLine qt fs fn st raw = .ok st1) (ho : isObjectLine raw = false) :
    st1.m_parts = st.m_parts ∧ st1.currentPart.type = st.currentPart.type ∧
    ((st1.indexes = st.indexes ∧ st1.currentPart.start = st.currentPart.start ∧
        st1.currentPart.length = st.currentPart.length) ∨
      ∃ a b c na nb nc, appendFace st a b c na nb nc = .ok st1) := by
  unfold loadLine at h
  split_ifs at h with hs
  · simp only [Except.ok.injEq] at h
    subst h
    exact ⟨rfl, rfl, Or.inl ⟨rfl, rfl, rfl⟩⟩
  · rcases loadFields_cases qt fs fn st st1 _ h with h | ⟨mats, h⟩ | ⟨⟨rest, hf⟩, -⟩ |
      ⟨part, -, hp, h⟩ | ⟨type, rest, -, -, h⟩ | ⟨a, b, c, na, nb, nc, h⟩
    · subst h
      exact ⟨rfl, rfl, Or.inl ⟨rfl, rfl, rfl⟩⟩
    · subst h
      exact ⟨rfl, rfl, Or.inl ⟨rfl, rfl, rfl⟩⟩
    · exfalso
      have hs1 : startsWith (simplified raw) "#" = false := by simpa using hs
      simp [isObjectLine, hs1, hf] at ho
    · subst h
      obtain ⟨f1, f2, f3⟩ := useMaterial_frame qt _ _ _ hp
      exact ⟨rfl, f1, Or.inl ⟨rfl, f2, f3⟩⟩
    · obtain ⟨f1, -, f3, f4, -⟩ := addVertex_frame qt st st1 type _ h
      rw [f4]
      exact ⟨f3, rfl, Or.inl ⟨f1, rfl, rfl⟩⟩
    · obtain ⟨f1, -, -, -, f5, -⟩ := appendFace_frame st st1 a b c na nb nc h
      exact ⟨f1, f5, Or.inr ⟨a, b, c, na, nb, nc, h⟩⟩

/-- One loop step keeps `RangesInv`. -/
theorem loadLine_rangesInv (qt : Qt F) (fs : FileSystem) (fn : String) (st st1 : LoadState F)
    (raw : String) (h : loadLine qt fs fn st raw = .ok st1) (hinv : RangesInv st) :
    RangesInv st1 := by
  obtain ⟨i1, i2, i3, i4⟩ := hinv
  rcases loadLine_inv qt fs fn st st1 raw h with h | ⟨mats, h⟩ | h | ⟨props, part, hp, h⟩ |
    ⟨type, rest, -, -, -, h⟩ | ⟨a, b, c, na, nb, nc, h⟩
  · subst h
    exact ⟨i1, i2, i3, i4⟩
  · subst h
    exact ⟨i1, i2, i3, i4⟩
  · subst h
    have hneg : ¬ (0 : Int) ≤ (Part.init : Part F).start := by simp [Part.init]
    by_cases hv : st.currentPart.isValid = true
    · have h0 : 0 ≤ st.currentPart.start := by
        simp only [Part.isValid, Bool.and_eq_true, decide_eq_true_eq] at hv
        exact hv.1.1
      obtain ⟨c1, c2⟩ := i4 h0
      refine ⟨i1, ?_, ?_, fun hc => absurd hc hneg⟩
      · simp only [hv, if_true]
        rw [List.pairwise_append]
        refine ⟨i2, List.pairwise_singleton _ _, ?_⟩
        intro p hp q hq
        simp only [List.mem_singleton] at hq
        subst hq
        exact (i3 p hp).2.2.2 h0
      · intro p hp
        simp only [hv, if_true, List.mem_append, List.mem_singleton] at hp
        rcases hp with hp | hp
        · exact ⟨(i3 p hp).1, (i3 p hp).2.1, (i3 p hp).2.2.1, fun hc => absurd hc hneg⟩
        · subst hp
          refine ⟨c1, ?_, le_of_eq c2, fun hc => absurd hc hneg⟩
          have : st.currentPart.length = (st.indexes.length : Int) - st.currentPart.start := by
            omega
          rw [this]
          exact dvd_sub i1 c1
    · refine ⟨i1, ?_, ?_, fun hc => absurd hc hneg⟩
      · simp only [hv, Bool.false_eq_true, if_false]
        exact i2
      · intro p hp
        simp only [hv, Bool.false_eq_true, if_false] at hp
        exact ⟨(i3 p hp).1, (i3 p hp).2.1, (i3 p hp).2.2.1, fun hc => absurd hc hneg⟩
  · subst h
    obtain ⟨-, f2, f3⟩ := useMaterial_frame qt props _ _ hp
    refine ⟨i1, i2, ?_, ?_⟩
    · intro p hmem
      refine ⟨(i3 p hmem).1, (i3 p hmem).2.1, (i3 p hmem).2.2.1, ?_⟩
      intro hc
      simp only [f2] at hc ⊢
      exact (i3 p hmem).2.2.2 hc
    · intro hc
      simp only [f2, f3] at hc ⊢
      exact i4 hc
  · obtain ⟨f1, -, f3, f4, -⟩ := addVertex_frame qt st st1 type _ h
    unfold RangesInv
    rw [f1, f3, f4]
    exact ⟨i1, i2, i3, i4⟩
  · obtain ⟨f1, -, -, -, -, -, f7, f8, f9⟩ := appendFace_frame st st1 a b c na nb nc h
    have hlen : (st1.indexes.length : Int) = (st.indexes.length : Int) + 3 := by
      rw [f9]
      push_cast
      rfl
    have hst : (3 : Int) ∣ st1.currentPart.start ∧
        (st.indexes.length : Int) ≤ st1.currentPart.start ∨
        (0 ≤ st.currentPart.start ∧ st1.currentPart.start = st.currentPart.start) := by
      rw [f7]
      by_cases hneg : st.currentPart.start < 0
      · left
        rw [if_pos hneg]
        exact ⟨i1, le_refl _⟩
      · right
        rw [if_neg hneg]
        exact ⟨not_lt.mp hneg, rfl⟩
    refine ⟨?_, ?_, ?_, ?_⟩
    · rw [hlen]
      exact dvd_add i1 (dvd_refl 3)
    · rw [f1]
      exact i2
    · intro p hmem
      rw [f1] at hmem
      obtain ⟨p1, p2, p3, p4⟩ := i3 p hmem
      refine ⟨p1, p2, by omega, ?_⟩
      intro _
      rcases hst with ⟨-, hge⟩ | ⟨h0, heq⟩
      · omega
      · rw [heq]
        exact p4 h0
    · intro _
      refine ⟨?_, by omega⟩
      rcases hst with ⟨hd, -⟩ | ⟨h0, heq⟩
      · exact hd
      · rw [heq]
        exact (i4 h0).1

/-- The loop keeps `RangesInv`. -/
theorem parseLines_rangesInv (qt : Qt F) (fs : FileSystem) (fn : String)
    (lines : List String) :
    ∀ (st st1 : LoadState F), parseLines qt fs fn st lines = .ok st1 → RangesInv st →
      RangesInv st1 := by
  induction lines with
  | nil =>
    intro st st1 h hinv
    simp only [parseLines, Except.ok.injEq] at h
    subst h
    exact hinv
  | cons l ls ih =>
    intro st st1 h hinv
    simp only [parseLines] at h
    cases hl : loadLine qt fs fn st l with
    | error e => simp [hl] at h
    | ok st2 =>
      simp only [hl] at h
      exact ih st2 st1 h (loadLine_rangesInv qt fs fn st st2 l hl hinv)

/-- The state at loop entry satisfies `RangesInv`. -/
theorem rangesInv_init : RangesInv (LoadState.init (ObjModel.init : ObjModel F)) := by
  refine ⟨by simp [LoadState.init], by simp [LoadState.init, ObjModel.init],
    by simp [LoadState.init, ObjModel.init], ?_⟩
  intro hc
  simp [LoadState.init, Part.init] at hc

/-- Inserting into a list rearranges `x :: l`. -/
theorem sortedInsert_perm {α : Type} (lt : α → α → Bool) (x : α) (l : List α) :
    (sortedInsert lt x l).Perm (x :: l) := by
  induction l with
  | nil => exact List.Perm.refl _
  | cons y ys ih =>
    simp only [sortedInsert]
    split_ifs
    · exact (List.Perm.cons y ih).trans (List.Perm.swap x y ys)
    · exact List.Perm.refl _

/-- Sorting rearranges the list. -/
theorem stdSort_perm {α : Type} (lt : α → α → Bool) (l : List α) :
    (stdSort lt l).Perm l := by
  induction l with
  | nil => exact List.Perm.refl _
  | cons x xs ih =>
    simp only [stdSort]
    exact (sortedInsert_perm lt x _).trans (List.Perm.cons x ih)

/-- The parts `load` has when it sorts: in file order, with ranges inside the
index array that are multiples of 3 and follow one another. -/
theorem closed_parts (st : LoadState F) (h1 : PartsInv st) (h2 : RangesInv st) :
    (if st.currentPart.isValid then st.m_parts ++ [st.currentPart] else st.m_parts).Pairwise
        Part.Before ∧
    ∀ p ∈ (if st.currentPart.isValid then st.m_parts ++ [st.currentPart] else st.m_parts),
      0 ≤ p.start ∧ 0 < p.length ∧ (3 : Int) ∣ p.start ∧ (3 : Int) ∣ p.length ∧
        p.start + p.length ≤ (st.indexes.length : Int) := by
  obtain ⟨a1, -, a3⟩ := h1
  obtain ⟨i1, i2, i3, i4⟩ := h2
  by_cases hv : st.currentPart.isValid = true
  · have h0 : 0 ≤ st.currentPart.start := by
      simp only [Part.isValid, Bool.and_eq_true, decide_eq_true_eq] at hv
      exact hv.1.1
    obtain ⟨c1, c2⟩ := i4 h0
    simp only [hv, if_true]
    refine ⟨?_, ?_⟩
    · rw [List.pairwise_append]
      refine ⟨i2, List.pairwise_singleton _ _, ?_⟩
      intro p hp q hq
      simp only [List.mem_singleton] at hq
      subst hq
      exact (i3 p hp).2.2.2 h0
    · intro p hp
      simp only [List.mem_append, List.mem_singleton] at hp
      rcases hp with hp | hp
      · exact ⟨(a1 p hp).1, (a1 p hp).2, (i3 p hp).1, (i3 p hp).2.1, (i3 p hp).2.2.1⟩
      · subst hp
        refine ⟨h0, a3 h0, c1, ?_, le_of_eq c2⟩
        have : st.currentPart.length = (st.indexes.length : Int) - st.currentPart.start := by
          omega
        rw [this]
        exact dvd_sub i1 c1
  · simp only [hv, Bool.false_eq_true, if_false]
    exact ⟨i2, fun p hp =>
      ⟨(a1 p hp).1, (a1 p hp).2, (i3 p hp).1, (i3 p hp).2.1, (i3 p hp).2.2.1⟩⟩

/-- The state at loop entry satisfies `PartsInv`. -/
theorem partsInv_init : PartsInv (LoadState.init (ObjModel.init : ObjModel F)) :=
  ⟨by simp [LoadState.init, ObjModel.init], by simp [LoadState.init, Part.init],
    by simp [LoadState.init, Part.init]⟩

/-- C21, the claim as stated fails: in the model `twoParts` loads, the part
list holds the part that starts at index 3 ahead of the part that starts at
index 0, so the parts do not appear in increasing order of start. -/
theorem part_starts_not_increasing :
    ObjModel.create refQt twoParts meshPath = .ok twoPartsModel ∧
    twoPartsModel.m_parts.map (fun p => (p.start, p.length)) = [(3, 3), (0, 3)] ∧
    ¬ List.Chain' (fun p q => p.start ≤ q.start) twoPartsModel.m_parts :=
  ⟨by with_unfolding_all rfl, by decide, by
    intro hc
    simp [twoPartsModel] at hc⟩

/-- C21, amended: in the final part list the index ranges
`[start, start + length)` of distinct parts are pairwise non-overlapping; the
list is in descending order of opacity, not necessarily in increasing order of
start: it is a rearrangement of the list of the parts in increasing order of
start, in which each range ends before the next begins. -/
theorem part_ranges_do_not_overlap (qt : Qt F) (fs : FileSystem)
    (fileName : String) (m : ObjModel F) (h : ObjModel.create qt fs fileName = .ok m) :
    m.m_parts.Pairwise Part.Apart ∧
    m.m_parts.Pairwise (fun p q => p.material.opacity ≥ q.material.opacity) ∧
    ∃ parts : List (Part F), m.m_parts.Perm parts ∧
      parts.Pairwise (fun p q => p.start < q.start ∧ p.start + p.length ≤ q.start) := by
  rcases create_inv qt fs fileName m h with ⟨-, hm⟩ | ⟨lines, st, -, hp, hm⟩
  · subst hm
    exact ⟨by simp [ObjModel.init], by simp [ObjModel.init], [],
      by simp [ObjModel.init], List.Pairwise.nil⟩
  · subst hm
    have h1 := parseLines_partsInv qt fs fileName lines _ st hp partsInv_init
    have h2 := parseLines_rangesInv qt fs fileName lines _ st hp rangesInv_init
    obtain ⟨c1, c2⟩ := closed_parts st h1 h2
    have hbefore : (if st.currentPart.isValid then st.m_parts ++ [st.currentPart]
        else st.m_parts).Pairwise
          (fun p q => p.start < q.start ∧ p.start + p.length ≤ q.start) := by
      refine List.Pairwise.imp_of_mem ?_ c1
      intro p q hp _ hb
      have := (c2 p hp).2.1
      unfold Part.Before at hb
      exact ⟨by omega, hb⟩
    refine ⟨?_, stdSort_descending _, _, stdSort_perm Part.lt _, hbefore⟩
    have hapart : (if st.currentPart.isValid then st.m_parts ++ [st.currentPart]
        else st.m_parts).Pairwise Part.Apart :=
      c1.imp (fun hb => Or.inl hb)
    have hsymm : ∀ p q : Part F, Part.Apart p q → Part.Apart q p :=
      fun p q hpq => Or.symm hpq
    exact ((stdSort_perm Part.lt _).pairwise_iff (fun {p q} => hsymm p q)).mpr hapart

/-- The two parts of `twoParts`, of opacity 1 and 0.5, have the ranges
`[3, 6)` and `[0, 3)`; the two parts of `equalOpacityText`, both of opacity 1,
stay in file order with the ranges `[0, 3)` and `[3, 6)`. -/
theorem part_ranges_do_not_overlap_witness :
    ObjModel.create refQt twoParts meshPath = .ok twoPartsModel ∧
    (ObjModel.create refQt (oneFile meshPath equalOpacityText) meshPath).map
        (fun m => m.m_parts.map fun p => (p.start, p.length, p.material.opacity)) =
      .ok [(0, 3, 1), (3, 3, 1)] ∧
    (twoPartsModel.m_parts.Pairwise Part.Apart ∧
      twoPartsModel.m_parts.Pairwise (fun p q => p.material.opacity ≥ q.material.opacity) ∧
      ∃ parts : List (Part ℚ), twoPartsModel.m_parts.Perm parts ∧
        parts.Pairwise (fun p q => p.start < q.start ∧ p.start + p.length ≤ q.start)) :=
  ⟨by with_unfolding_all rfl, by with_unfolding_all rfl,
    part_ranges_do_not_overlap refQt twoParts meshPath twoPartsModel
      (by with_unfolding_all rfl)⟩

/-- C26: every part in the final part list has a start that is a multiple of
3, a length that is a positive multiple of 3, and `start + length` at most the
number of indices; so the draw of the part, at byte offset `start * 4` with
count `length`, stays inside the index buffer in both passes. -/
theorem part_ranges_inside_index_buffer (qt : Qt F) (fs : FileSystem)
    (fileName : String) (m : ObjModel F) (h : ObjModel.create qt fs fileName = .ok m) :
    ∀ p ∈ m.m_parts, ∃ indexes : List Int, m.m_indexBuffer = some indexes ∧
      0 ≤ p.start ∧ (3 : Int) ∣ p.start ∧ 0 < p.length ∧ (3 : Int) ∣ p.length ∧
      p.start + p.length ≤ (indexes.length : Int) ∧
      GlCommand.drawElements p.type p.length (p.start * 4) ∈ scenePartCommands qt p ∧
      shadowPartCommands p = [GlCommand.drawElements p.type p.length (p.start * 4)] ∧
      0 ≤ p.start * 4 ∧ p.start * 4 + p.length * 4 ≤ (indexes.length : Int) * 4 := by
  rcases create_inv qt fs fileName m h with ⟨-, hm⟩ | ⟨lines, st, -, hp, hm⟩
  · subst hm
    simp [ObjModel.init]
  · subst hm
    have h1 := parseLines_partsInv qt fs fileName lines _ st hp partsInv_init
    have h2 := parseLines_rangesInv qt fs fileName lines _ st hp rangesInv_init
    obtain ⟨-, c2⟩ := closed_parts st h1 h2
    intro p hmem
    simp only [finishLoad, mem_stdSort] at hmem
    obtain ⟨d1, d2, d3, d4, d5⟩ := c2 p hmem
    refine ⟨st.indexes, rfl, d1, d3, d2, d4, d5, ?_, rfl, by omega, by omega⟩
    simp [scenePartCommands, sizeofInt]

/-- The parts of `twoParts` lie inside its six indices. -/
theorem part_ranges_inside_index_buffer_witness :
    ObjModel.create refQt twoParts meshPath = .ok twoPartsModel ∧
    ∀ p ∈ twoPartsModel.m_parts, ∃ indexes : List Int,
      twoPartsModel.m_indexBuffer = some indexes ∧
      0 ≤ p.start ∧ (3 : Int) ∣ p.start ∧ 0 < p.length ∧ (3 : Int) ∣ p.length ∧
      p.start + p.length ≤ (indexes.length : Int) ∧
      GlCommand.drawElements p.type p.length (p.start * 4) ∈ scenePartCommands refQt p ∧
      shadowPartCommands p = [GlCommand.drawElements p.type p.length (p.start * 4)] ∧
      0 ≤ p.start * 4 ∧ p.start * 4 + p.length * 4 ≤ (indexes.length : Int) * 4 :=
  ⟨by with_unfolding_all rfl,
    part_ranges_inside_index_buffer refQt twoParts meshPath twoPartsModel
      (by with_unfolding_all rfl)⟩

/-- C24: after `load` has read a file, the vertex buffer holds the
uncompressed positions followed by the uncompressed normals, the two sequences
have the same length, and the normal offset is 12 times the number of
uncompressed positions, half of the 12 bytes per entry of the whole buffer. -/
theorem vertex_buffer_is_positions_then_normals (qt : Qt F) (fs : FileSystem)
    (fileName : String) (lines : List String) (m : ObjModel F)
    (hfs : fs fileName = some lines) (h : ObjModel.create qt fs fileName = .ok m) :
    ∃ st vertices, parseFile qt fs ObjModel.init fileName = some (.ok st) ∧
      m.m_vertexBuffer = some vertices ∧
      vertices = st.uncompressed.geometry ++ st.uncompressed.normals ∧
      st.uncompressed.geometry.length = st.uncompressed.normals.length ∧
      m.m_normalOffset = 12 * (st.uncompressed.geometry.length : Int) ∧
      2 * m.m_normalOffset = 12 * (vertices.length : Int) := by
  obtain ⟨st, hp, hm⟩ := (load_ok_iff qt fs ObjModel.init m fileName lines hfs).mp h
  subst hm
  obtain ⟨-, c2, c3⟩ := parseLines_counts qt fs fileName lines _ st 0 hp
    (by simp [LoadState.init]) (by simp [LoadState.init]) (by simp [LoadState.init])
  refine ⟨st, _, ?_, rfl, rfl, by rw [c2, c3], ?_, ?_⟩
  · simp [parseFile, hfs, hp]
  · simp only [finishLoad, sizeofQVector3D]
    ring
  · simp only [finishLoad, sizeofQVector3D, List.length_append, c2, c3]
    push_cast
    ring

/-- The worked example: three positions, three normals, offset 36 of 72 bytes. -/
theorem vertex_buffer_is_positions_then_normals_witness :
    ∃ st vertices, parseFile refQt (oneFile meshPath triangleText) ObjModel.init meshPath =
        some (.ok st) ∧
      triangleModel.m_vertexBuffer = some vertices ∧
      vertices = st.uncompressed.geometry ++ st.uncompressed.normals ∧
      st.uncompressed.geometry.length = st.uncompressed.normals.length ∧
      triangleModel.m_normalOffset = 12 * (st.uncompressed.geometry.length : Int) ∧
      2 * triangleModel.m_normalOffset = 12 * (vertices.length : Int) :=
  vertex_buffer_is_positions_then_normals refQt (oneFile meshPath triangleText) meshPath
    triangleText triangleModel (by decide) (by with_unfolding_all rfl)

/-- One loop step on a line that is not an `o` line, told apart by whether
the line is an accepted face. -/
theorem loadLine_run_step (qt : Qt F) (fs : FileSystem) (fn : String) (st st1 : LoadState F)
    (raw : String) (h : loadLine qt fs fn st raw = .ok st1) (ho : isObjectLine raw = false) :
    st1.m_parts = st.m_parts ∧ st1.currentPart.type = st.currentPart.type ∧
    ((faceAccepted qt st raw = false ∧ st1.indexes = st.indexes ∧
        st1.currentPart.start = st.currentPart.start ∧
        st1.currentPart.length = st.currentPart.length) ∨
      (faceAccepted qt st raw = true ∧
        st1.currentPart.start =
          (if st.currentPart.start < 0 then (st.indexes.length : Int)
            else st.currentPart.start) ∧
        st1.currentPart.start + st1.currentPart.length = (st1.indexes.length : Int) ∧
        st1.indexes.length = st.indexes.length + 3)) := by
  obtain ⟨n1, n2, n3⟩ := loadLine_not_object qt fs fn st st1 raw h ho
  refine ⟨n1, n2, ?_⟩
  rcases loadLine_step qt fs fn st st1 raw h with ⟨hf, hsame, -, -⟩ | ⟨hf, hgrown, -, -⟩
  · rcases n3 with ⟨-, m2, m3⟩ | ⟨a, b, c, na, nb, nc, hap⟩
    · exact Or.inl ⟨hf, hsame, m2, m3⟩
    · exfalso
      obtain ⟨-, -, -, -, -, -, -, -, f9⟩ := appendFace_frame st st1 a b c na nb nc hap
      rw [hsame] at f9
      omega
  · rcases n3 with ⟨m1, -, -⟩ | ⟨a, b, c, na, nb, nc, hap⟩
    · exfalso
      rw [m1] at hgrown
      have := congrArg List.length hgrown
      simp at this
    · obtain ⟨-, -, -, -, -, -, f7, f8, f9⟩ := appendFace_frame st st1 a b c na nb nc hap
      exact Or.inr ⟨hf, f7, by omega, f9⟩

/-- A run of lines without an `o` line closes no part and keeps the type of
the current part; if it accepts no face it keeps the range of the current
part, and if it accepts one the current part keeps the start it had or takes
the number of indices before the run, and ends at the end of the index
array. -/
theorem parseLines_run (qt : Qt F) (fs : FileSystem) (fn : String) (lines : List String) :
    ∀ (st st1 : LoadState F), parseLines qt fs fn st lines = .ok st1 →
      (∀ l ∈ lines, isObjectLine l = false) →
      st1.m_parts = st.m_parts ∧ st1.currentPart.type = st.currentPart.type ∧
      (acceptedFaces qt fs fn st lines = 0 →
        st1.indexes = st.indexes ∧ st1.currentPart.start = st.currentPart.start ∧
          st1.currentPart.length = st.currentPart.length) ∧
      (0 < acceptedFaces qt fs fn st lines →
        st1.currentPart.start =
          (if st.currentPart.start < 0 then (st.indexes.length : Int)
            else st.currentPart.start) ∧
        st1.currentPart.start + st1.currentPart.length = (st1.indexes.length : Int)) := by
  induction lines with
  | nil =>
    intro st st1 h _
    simp only [parseLines, Except.ok.injEq] at h
    subst h
    exact ⟨rfl, rfl, fun _ => ⟨rfl, rfl, rfl⟩, fun hc => by simp [acceptedFaces] at hc⟩
  | cons l ls ih =>
    intro st st1 h hno
    simp only [parseLines] at h
    cases hl : loadLine qt fs fn st l with
    | error e => simp [hl] at h
    | ok st2 =>
      simp only [hl] at h
      obtain ⟨j1, j2, j3, j4⟩ := ih st2 st1 h (fun l' hl' => hno l' (List.mem_cons_of_mem _ hl'))
      obtain ⟨k1, k2, k3⟩ := loadLine_run_step qt fs fn st st2 l hl (hno l (List.mem_cons_self _ _))
      refine ⟨j1.trans k1, j2.trans k2, ?_, ?_⟩
      · intro hz
        simp only [acceptedFaces, hl] at hz
        rcases k3 with ⟨hf, m1, m2, m3⟩ | ⟨hf, -⟩
        · simp only [hf, Bool.false_eq_true, if_false, zero_add] at hz
          obtain ⟨e1, e2, e3⟩ := j3 hz
          exact ⟨e1.trans m1, e2.trans m2, e3.trans m3⟩
        · simp [hf] at hz
      · intro hpos
        simp only [acceptedFaces, hl] at hpos
        rcases k3 with ⟨hf, m1, m2, m3⟩ | ⟨hf, m1, m2, m3⟩
        · simp only [hf, Bool.false_eq_true, if_false, zero_add] at hpos
          obtain ⟨e1, e2⟩ := j4 hpos
          rw [m1, m2] at e1
          exact ⟨e1, e2⟩
        · have hge : 0 ≤ st2.currentPart.start := by
            rw [m1]
            split_ifs with hneg
            · exact Int.natCast_nonneg _
            · exact not_lt.mp hneg
          by_cases hz : acceptedFaces qt fs fn st2 ls = 0
          · obtain ⟨e1, e2, e3⟩ := j3 hz
            rw [e2, e3, e1]
            exact ⟨m1, m2⟩
          · obtain ⟨e1, e2⟩ := j4 (Nat.pos_of_ne_zero hz)
            rw [if_neg (not_lt.mpr hge)] at e1
            rw [e1] at e2 ⊢
            exact ⟨m1, e2⟩

/-- The loop over two runs of lines is the loop over the first followed by
the loop over the second. -/
theorem parseLines_append (qt : Qt F) (fs : FileSystem) (fn : String) (l1 l2 : List String) :
    ∀ (st st1 : LoadState F), parseLines qt fs fn st (l1 ++ l2) = .ok st1 ↔
      ∃ stA, parseLines qt fs fn st l1 = .ok stA ∧ parseLines qt fs fn stA l2 = .ok st1 := by
  induction l1 with
  | nil =>
    intro st st1
    simp [parseLines]
  | cons l ls ih =>
    intro st st1
    simp only [List.cons_append, parseLines]
    cases hl : loadLine qt fs fn st l with
    | error e => simp
    | ok st2 => exact ih st2 st1

/-- C22, the claim as stated fails: `twoMaterials` has one `o` line and two
accepted faces separated by `usemtl steel`; the model has a single part that
holds the six indices of both faces, with the opacity 1 of `steel` and not the
opacity 0.5 of `glass` that the `usemtl` line ahead of the first face names. -/
theorem faces_split_by_usemtl_share_one_part :
    acceptedFaces refQt twoMaterials meshPath (LoadState.init ObjModel.init)
      ["mtllib t.mtl\n", "v 0 0 0\n", "v 1 0 0\n", "v 0 1 0\n", "vn 0 0 1\n",
        "o body\n", "usemtl glass\n", "f 1//1 2//1 3//1\n",
        "usemtl steel\n", "f 3//1 2//1 1//1\n"] = 2 ∧
    ObjModel.create refQt twoMaterials meshPath = .ok twoMaterialsModel ∧
    twoMaterialsModel.m_indexBuffer = some [0, 1, 2, 3, 4, 5] ∧
    twoMaterialsModel.m_parts.map (fun p => (p.start, p.length, p.material.opacity)) =
      [(0, 6, 1)] :=
  ⟨by with_unfolding_all rfl, by with_unfolding_all rfl, by with_unfolding_all rfl,
    by with_unfolding_all rfl⟩

/-- The `usemtl` branch of the loop body. -/
theorem loadFields_usemtl (qt : Qt F) (fs : FileSystem) (fn : String) (st : LoadState F)
    (rest : List String) :
    loadFields qt fs fn st ("usemtl" :: rest) =
      (useMaterial qt (st.materials.value (("usemtl" :: rest).getLastD "") QMap.empty)
        st.currentPart).map fun part => { st with currentPart := part } := by
  have hlast : ("usemtl" :: rest).getLast (List.cons_ne_nil "usemtl" rest) =
      ("usemtl" :: rest).getLastD "" := by
    rw [List.getLastD_eq_getLast?, List.getLast?_eq_getLast _ (List.cons_ne_nil "usemtl" rest)]
    rfl
  simp only [loadFields]
  rw [if_pos True.intro, hlast, if_neg (by decide), if_neg (by decide)]

/-- The loop appends three indices per accepted face. -/
theorem parseLines_index_count (qt : Qt F) (fs : FileSystem) (fn : String)
    (lines : List String) :
    ∀ (st st1 : LoadState F), parseLines qt fs fn st lines = .ok st1 →
      st1.indexes.length = st.indexes.length + 3 * acceptedFaces qt fs fn st lines := by
  induction lines with
  | nil =>
    intro st st1 h
    simp only [parseLines, Except.ok.injEq] at h
    subst h
    simp [acceptedFaces]
  | cons l ls ih =>
    intro st st1 h
    simp only [parseLines] at h
    cases hl : loadLine qt fs fn st l with
    | error e => simp [hl] at h
    | ok st2 =>
      simp only [hl] at h
      have := ih st2 st1 h
      simp only [acceptedFaces, hl]
      rcases loadLine_step qt fs fn st st2 l hl with ⟨hf, hsame, -, -⟩ | ⟨hf, hgrown, -, -⟩
      · rw [hsame] at this
        simp only [hf, Bool.false_eq_true, if_false]
        omega
      · have hlen := congrArg List.length hgrown
        simp only [List.length_append, List.length_cons, List.length_nil] at hlen
        simp only [hf, if_true]
        omega

/-- C22, amended: parts group consecutive accepted faces under the most recent
`o` marker only.  A `usemtl` line closes no part: it replaces the material of
the current part by what `useMaterial` makes of it and keeps its type, start
and length; so faces accepted before and after a `usemtl` line, with no `o`
line between them, end up in the same part, whose range reaches from the
first of them to the end of the index array. -/
theorem faces_around_usemtl_share_a_part (qt : Qt F) (fs : FileSystem) (fn : String)
    (st st1 : LoadState F) (front back : List String) (raw : String) (rest : List String)
    (hfront : ∀ l ∈ front, isObjectLine l = false)
    (hback : ∀ l ∈ back, isObjectLine l = false)
    (hraw : fieldsOf raw = "usemtl" :: rest)
    (hstart : st.currentPart.start ≤ (st.indexes.length : Int))
    (h : parseLines qt fs fn st (front ++ raw :: back) = .ok st1) :
    ∃ stA part, parseLines qt fs fn st front = .ok stA ∧
      useMaterial qt (stA.materials.value (("usemtl" :: rest).getLastD "") QMap.empty)
        stA.currentPart = .ok part ∧
      part.type = stA.currentPart.type ∧ part.start = stA.currentPart.start ∧
      part.length = stA.currentPart.length ∧
      loadLine qt fs fn stA raw = .ok { stA with currentPart := part } ∧
      parseLines qt fs fn { stA with currentPart := part } back = .ok st1 ∧
      st1.m_parts = st.m_parts ∧
      (0 < acceptedFaces qt fs fn st front →
        0 < acceptedFaces qt fs fn { stA with currentPart := part } back →
        st1.currentPart.start = stA.currentPart.start ∧
        st1.currentPart.start ≤ (st.indexes.length : Int) ∧
        (st.indexes.length : Int) < (stA.indexes.length : Int) ∧
        (stA.indexes.length : Int) < (st1.indexes.length : Int) ∧
        st1.currentPart.start + st1.currentPart.length = (st1.indexes.length : Int)) := by
  obtain ⟨stA, hA, hrest⟩ := (parseLines_append qt fs fn front (raw :: back) st st1).mp h
  simp only [parseLines] at hrest
  cases hl : loadLine qt fs fn stA raw with
  | error e => simp [hl] at hrest
  | ok stB =>
    simp only [hl] at hrest
    rw [loadLine_fields qt fs fn stA raw "usemtl" rest hraw (by decide), loadFields_usemtl,
      map_eq_ok] at hl
    obtain ⟨part, hp, e⟩ := hl
    subst e
    obtain ⟨f1, f2, f3⟩ := useMaterial_frame qt _ _ _ hp
    obtain ⟨a1, -, a3, a4⟩ := parseLines_run qt fs fn front st stA hA hfront
    obtain ⟨b1, -, b3, b4⟩ := parseLines_run qt fs fn back _ st1 hrest hback
    have ca := parseLines_index_count qt fs fn front st stA hA
    have cb := parseLines_index_count qt fs fn back _ st1 hrest
    refine ⟨stA, part, hA, hp, f1, f2, f3, ?_, hrest, b1.trans a1, ?_⟩
    · rw [loadLine_fields qt fs fn stA raw "usemtl" rest hraw (by decide), loadFields_usemtl,
        hp]
      rfl
    · intro hfa hfb
      obtain ⟨a5, a6⟩ := a4 hfa
      obtain ⟨b5, b6⟩ := b4 hfb
      simp only at b5 b6 cb
      have hge : 0 ≤ stA.currentPart.start := by
        rw [a5]
        split_ifs with hneg
        · exact Int.natCast_nonneg _
        · exact not_lt.mp hneg
      rw [f2, if_neg (not_lt.mpr hge)] at b5
      refine ⟨b5, ?_, by omega, by omega, b6⟩
      rw [b5, a5]
      split_ifs
      · exact le_refl _
      · exact hstart

/-- The two faces read from `twoMaterialsStart`: no part is closed, and the
current part starts at index 0 and ends at index 6. -/
theorem faces_around_usemtl_share_a_part_witness :
    parseLines refQt twoMaterials meshPath twoMaterialsStart
      (["usemtl glass\n", "f 1//1 2//1 3//1\n"] ++ "usemtl steel\n" :: ["f 3//1 2//1 1//1\n"]) =
        .ok twoMaterialsEnd ∧
    ∃ stA part, parseLines refQt twoMaterials meshPath twoMaterialsStart
        ["usemtl glass\n", "f 1//1 2//1 3//1\n"] = .ok stA ∧
      useMaterial refQt (stA.materials.value (("usemtl" :: ["steel"]).getLastD "") QMap.empty)
        stA.currentPart = .ok part ∧
      part.type = stA.currentPart.type ∧ part.start = stA.currentPart.start ∧
      part.length = stA.currentPart.length ∧
      loadLine refQt twoMaterials meshPath stA "usemtl steel\n" =
        .ok { stA with currentPart := part } ∧
      parseLines refQt twoMaterials meshPath { stA with currentPart := part }
        ["f 3//1 2//1 1//1\n"] = .ok twoMaterialsEnd ∧
      twoMaterialsEnd.m_parts = twoMaterialsStart.m_parts ∧
      (0 < acceptedFaces refQt twoMaterials meshPath twoMaterialsStart
          ["usemtl glass\n", "f 1//1 2//1 3//1\n"] →
        0 < acceptedFaces refQt twoMaterials meshPath { stA with currentPart := part }
          ["f 3//1 2//1 1//1\n"] →
        twoMaterialsEnd.currentPart.start = stA.currentPart.start ∧
        twoMaterialsEnd.currentPart.start ≤ (twoMaterialsStart.indexes.length : Int) ∧
        (twoMaterialsStart.indexes.length : Int) < (stA.indexes.length : Int) ∧
        (stA.indexes.length : Int) < (twoMaterialsEnd.indexes.length : Int) ∧
        twoMaterialsEnd.currentPart.start + twoMaterialsEnd.currentPart.length =
          (twoMaterialsEnd.indexes.length : Int)) :=
  ⟨by with_unfolding_all rfl,
    faces_around_usemtl_share_a_part refQt twoMaterials meshPath twoMaterialsStart
      twoMaterialsEnd ["usemtl glass\n", "f 1//1 2//1 3//1\n"] ["f 3//1 2//1 1//1\n"]
      "usemtl steel\n" ["steel"] (by decide) (by decide) (by decide) (by decide)
      (by with_unfolding_all rfl)⟩

/-- Qt `first()` on a list that is not empty. -/
theorem first_eq_headD {α : Type} (xs : List α) (d : α) (h : xs ≠ []) :
    first xs = .ok (xs.headD d) := by
  cases xs with
  | nil => exact absurd rfl h
  | cons x xs => rfl

/-- C23: on a `usemtl` line naming a material that has `Ns`, the opacity of
the current part becomes the first `d` value when the material has `d`
(whether or not it has `Tr`), otherwise 1 minus the first `Tr` value when it
has `Tr`, otherwise it is unchanged; its brightness becomes the first `illum`
value when the material has `illum` and 1 otherwise.  A property that is
present is taken to have at least one value. -/
theorem usemtl_sets_opacity_and_brightness (qt : Qt F) (fs : FileSystem) (fn : String)
    (st : LoadState F) (raw : String) (rest : List String) (props : MaterialProps F)
    (hraw : fieldsOf raw = "usemtl" :: rest)
    (hprops : props = st.materials.value (("usemtl" :: rest).getLastD "") QMap.empty)
    (hns : props.value "Ns" [] ≠ [])
    (hd : props.contains "d" = true → props.value "d" [] ≠ [])
    (htr : props.contains "d" = false → props.contains "Tr" = true → props.value "Tr" [] ≠ [])
    (hil : props.contains "illum" = true → props.value "illum" [] ≠ []) :
    ∃ st1, loadLine qt fs fn st raw = .ok st1 ∧
      st1.currentPart.material.opacity =
        (if props.contains "d" then (props.value "d" []).headD 0
          else if props.contains "Tr" then 1 - (props.value "Tr" []).headD 0
          else st.currentPart.material.opacity) ∧
      st1.currentPart.material.brightness =
        (if props.contains "illum" then (props.value "illum" []).headD 0 else 1) := by
  rw [loadLine_fields qt fs fn st raw "usemtl" rest hraw (by decide), loadFields_usemtl,
    ← hprops]
  unfold useMaterial
  simp only [first_eq_headD _ (0 : F) hns, Except.bind]
  by_cases cd : props.contains "d" = true
  · simp only [cd, if_true, first_eq_headD _ (0 : F) (hd cd)]
    by_cases ci : props.contains "illum" = true
    · simp only [ci, if_true, first_eq_headD _ (0 : F) (hil ci)]
      exact ⟨_, rfl, rfl, rfl⟩
    · simp only [ci, Bool.false_eq_true, if_false]
      exact ⟨_, rfl, rfl, rfl⟩
  · have cd0 : props.contains "d" = false := by simpa using cd
    by_cases ct : props.contains "Tr" = true
    · simp only [cd0, ct, Bool.false_eq_true, if_false, if_true,
        first_eq_headD _ (0 : F) (htr cd0 ct), Except.map]
      by_cases ci : props.contains "illum" = true
      · simp only [ci, if_true, first_eq_headD _ (0 : F) (hil ci)]
        exact ⟨_, rfl, rfl, rfl⟩
      · simp only [ci, Bool.false_eq_true, if_false]
        exact ⟨_, rfl, rfl, rfl⟩
    · simp only [cd0, ct, Bool.false_eq_true, if_false]
      by_cases ci : props.contains "illum" = true
      · simp only [ci, if_true, first_eq_headD _ (0 : F) (hil ci)]
        refine ⟨_, rfl, ?_, rfl⟩
        simp only
        split <;> split <;> split <;> rfl
      · simp only [ci, Bool.false_eq_true, if_false]
        refine ⟨_, rfl, ?_, rfl⟩
        simp only
        split <;> split <;> split <;> rfl

/-- A material with `d` 0.5, `Tr` 0.25 and `illum` 2: the opacity is 0.5
and the brightness 2. -/
theorem usemtl_sets_opacity_and_brightness_witness :
    fullProps.contains "d" = true ∧ fullProps.contains "Tr" = true ∧
    ∃ st1, loadLine refQt noFiles meshPath fullPropsState "usemtl full\n" = .ok st1 ∧
      st1.currentPart.material.opacity =
        (if fullProps.contains "d" then (fullProps.value "d" []).headD 0
          else if fullProps.contains "Tr" then 1 - (fullProps.value "Tr" []).headD 0
          else fullPropsState.currentPart.material.opacity) ∧
      st1.currentPart.material.brightness =
        (if fullProps.contains "illum" then (fullProps.value "illum" []).headD 0 else 1) :=
  ⟨by decide, by decide,
    usemtl_sets_opacity_and_brightness refQt noFiles meshPath fullPropsState "usemtl full\n"
      ["full"] fullProps (by decide) (by with_unfolding_all rfl) (by with_unfolding_all decide)
      (fun _ => by with_unfolding_all decide) (fun _ _ => by with_unfolding_all decide)
      (fun _ => by with_unfolding_all decide)⟩

/-- The specular colour of a part does not enter the calls of the scene pass
for it. -/
theorem scenePartCommands_withSpecular (qt : Qt F) (p : Part F) (c : QColor F) :
    scenePartCommands qt (p.withSpecular c) = scenePartCommands qt p := rfl

/-- C27: for every part drawn by the scene pass, the specular material value
in effect at its draw call is the unscaled ambient colour of the part, not its
specular colour; whatever specular colours the parts carry (the colour parsed
from `Ks`), the scene pass issues the same calls. -/
theorem scene_pass_sends_ambient_as_specular (qt : Qt F) (r r1 : SceneRenderer)
    (model : ObjModel F) (cmds : List (GlCommand F))
    (h : SceneRenderer.render qt r model = .ok (r1, cmds)) (s0 : GlState F)
    (ks : Part F → QColor F) :
    (drawCalls s0 cmds).map (fun d => d.state.uniforms "qt_Material.specular") =
      model.m_parts.map (fun p => some (.color p.material.color.ambient)) ∧
    SceneRenderer.render qt r
      { model with m_parts := model.m_parts.map fun p => p.withSpecular (ks p) } =
        .ok (r1, cmds) := by
  constructor
  · obtain ⟨init, hc, hinit⟩ := sceneRender_commands qt r r1 model cmds h
    subst hc
    simp only [sceneCommands, drawCalls_append, (hinit s0).1, (hinit s0).2,
      drawCalls_scenePrologue, drawCalls_sceneEpilogue, List.nil_append, List.append_nil,
      run_append]
    apply drawCalls_parts_map
    intro s p
    simp [partState, scenePartCommands, GlState.run, GlState.step]
  · rw [← h]
    unfold SceneRenderer.render
    have hparts : (model.m_parts.map fun p => p.withSpecular (ks p)).map (scenePartCommands qt) =
        model.m_parts.map (scenePartCommands qt) := by
      rw [List.map_map]
      rfl
    simp only [sceneCommands, hparts]
    rfl

/-- The scene pass on the worked example: the specular value at the draw is
the ambient colour, white, also when the part carries a black specular colour. -/
theorem scene_pass_sends_ambient_as_specular_witness :
    (triangleModel.m_parts.map fun p => p.material.color.ambient) = [QColor.white] ∧
    ((drawCalls glInitial
        ([GlCommand.loadShaders ":/scene_vertex.glsl" ":/scene_fragment.glsl"] ++
          sceneCommands refQt triangleModel)).map
        (fun d => d.state.uniforms "qt_Material.specular") =
      triangleModel.m_parts.map (fun p => some (.color p.material.color.ambient)) ∧
    SceneRenderer.render refQt ⟨false⟩
      { triangleModel with
          m_parts := triangleModel.m_parts.map fun p => p.withSpecular ⟨true, 0, 0, 0⟩ } =
        .ok (⟨true⟩, [GlCommand.loadShaders ":/scene_vertex.glsl" ":/scene_fragment.glsl"] ++
          sceneCommands refQt triangleModel)) :=
  ⟨by with_unfolding_all rfl,
    scene_pass_sends_ambient_as_specular refQt ⟨false⟩ ⟨true⟩ triangleModel _ rfl glInitial
      (fun _ => ⟨true, 0, 0, 0⟩)⟩

theorem qMin_comm (a b : F) : qMin a b = qMin b a := by
  unfold qMin
  split_ifs with h1 h2 h2
  · exact absurd h2 (not_lt.mpr (le_of_lt h1))
  · rfl
  · rfl
  · exact le_antisymm (not_lt.mp h1) (not_lt.mp h2)

theorem qMax_comm (a b : F) : qMax a b = qMax b a := by
  unfold qMax
  split_ifs with h1 h2 h2
  · exact absurd h2 (not_lt.mpr (le_of_lt h1))
  · rfl
  · rfl
  · exact le_antisymm (not_lt.mp h2) (not_lt.mp h1)

/-- Uniting a union of boxes with one more box gives the union with that box
added. -/
theorem unionOf_unite (bb b : BoundingBox F) (seen : List (BoundingBox F))
    (h : UnionOf bb seen) : UnionOf (bb.unite b) (seen ++ [b]) := by
  obtain ⟨h1, h2, h3, h4, h5, h6⟩ := h
  unfold UnionOf BoundingBox.unite
  simp only [List.map_append, List.map_cons, List.map_nil]
  refine ⟨?_, ?_, ?_, ?_, ?_, ?_⟩
  · rw [qMin_comm]
    exact isMinOf_snoc _ _ _ h1
  · rw [qMax_comm]
    exact isMaxOf_snoc _ _ _ h2
  · rw [qMin_comm]
    exact isMinOf_snoc _ _ _ h3
  · rw [qMax_comm]
    exact isMaxOf_snoc _ _ _ h4
  · rw [qMin_comm]
    exact isMinOf_snoc _ _ _ h5
  · rw [qMax_comm]
    exact isMaxOf_snoc _ _ _ h6

/-- Folding `unite` over boxes extends a union by them. -/
theorem unionOf_foldl (boxes : List (BoundingBox F)) :
    ∀ (bb : BoundingBox F) (seen : List (BoundingBox F)), UnionOf bb seen →
      UnionOf (boxes.foldl BoundingBox.unite bb) (seen ++ boxes) := by
  induction boxes with
  | nil =>
    intro bb seen h
    simpa using h
  | cons b bs ih =>
    intro bb seen h
    have := ih (bb.unite b) (seen ++ [b]) (unionOf_unite bb b seen h)
    simpa using this

/-- A box is the union of itself alone. -/
theorem unionOf_singleton (bb : BoundingBox F) : UnionOf bb [bb] := by
  simp [UnionOf, IsMinOf, IsMaxOf]

/-- The loop of `updateMatricesForScreenRendering` over models that exist. -/
theorem boundsLoop_spec :
    ∀ (count i : Nat) (w : RenderWindow F), i + count ≤ w.m_models.length →
      boundsLoop i count w =
        .ok { w with
                m_sceneBounds :=
                  (((w.m_models.drop i).take count).map fun m => m.m_boundingBox).foldl
                    BoundingBox.unite w.m_sceneBounds } := by
  intro count
  induction count with
  | zero =>
    intro i w _
    simp [boundsLoop]
  | succ n ih =>
    intro i w hle
    have hi : i < w.m_models.length := by omega
    have hitem : itemAt w.m_models (i : Int) = .ok (w.m_models.get ⟨i, hi⟩) :=
      itemAt_ok _ _ _ (Int.natCast_nonneg _) (by simp [List.getElem?_eq_getElem hi])
    simp only [boundsLoop, hitem, Except.bind]
    rw [ih (i + 1) _ (by simpa using (by omega : i + 1 + n ≤ w.m_models.length))]
    simp only
    rw [List.drop_eq_getElem_cons hi]
    simp only [List.take_succ_cons, List.map_cons, List.foldl_cons]
    rfl

/-- C29: `updateMatricesForScreenRendering` leaves the scene bounds unchanged
when there is no model, sets them to the box of the single model when there
is one, and for two or more models sets them to the union of the boxes of all
models but the last; with exactly two models that is the box of the first. -/
theorem scene_bounds_leave_out_last_model (w : RenderWindow F) :
    ∃ w1, updateMatricesForScreenRendering w = .ok w1 ∧ w1.m_models = w.m_models ∧
      (w.m_models = [] → w1 = w) ∧
      (∀ m0, w.m_models = [m0] → w1.m_sceneBounds = m0.m_boundingBox) ∧
      (∀ m0 m1, w.m_models = [m0, m1] → w1.m_sceneBounds = m0.m_boundingBox) ∧
      (2 ≤ w.m_models.length →
        w1.m_sceneBounds =
            ((w.m_models.dropLast.map fun m => m.m_boundingBox).tail).foldl BoundingBox.unite
              ((w.m_models.dropLast.map fun m => m.m_boundingBox).headD BoundingBox.init) ∧
          UnionOf w1.m_sceneBounds (w.m_models.dropLast.map fun m => m.m_boundingBox)) := by
  cases hm : w.m_models with
  | nil =>
    refine ⟨w, by simp [updateMatricesForScreenRendering, hm], hm, fun _ => rfl, ?_, ?_, ?_⟩
    · intro m0 h
      simp at h
    · intro m0 m1 h
      simp at h
    · intro h
      simp at h
  | cons m0 rest =>
    have hrun : updateMatricesForScreenRendering w =
        .ok { w with
                m_sceneBounds :=
                  (rest.dropLast.map fun m => m.m_boundingBox).foldl BoundingBox.unite
                    m0.m_boundingBox } := by
      unfold updateMatricesForScreenRendering
      simp only [hm, List.isEmpty_cons, Bool.false_eq_true, if_false, first, Except.bind]
      rw [boundsLoop_spec _ _ _ (by simp [hm]; omega)]
      simp [hm, List.dropLast_eq_take]
    refine ⟨_, hrun, hm, fun h => by simp at h, ?_, ?_, ?_⟩
    · intro m h
      simp only [List.cons.injEq] at h
      obtain ⟨h1, h2⟩ := h
      subst h1 h2
      rfl
    · intro a b h
      simp only [List.cons.injEq] at h
      obtain ⟨h1, h2⟩ := h
      subst h1 h2
      rfl
    · intro hlen
      cases rest with
      | nil => simp at hlen
      | cons m1 rest1 =>
        have hd : (m0 :: m1 :: rest1).dropLast = m0 :: (m1 :: rest1).dropLast := rfl
        simp only [hd, List.map_cons, List.tail_cons, List.headD_cons]
        refine ⟨trivial, ?_⟩
        have := unionOf_foldl ((m1 :: rest1).dropLast.map fun m => m.m_boundingBox)
          m0.m_boundingBox [m0.m_boundingBox] (unionOf_singleton _)
        simpa using this

/-- Three models with boxes `[0,1]`, `[-2,3]` and `[5,9]` on every axis: the
bounds are `[-2,3]`, the last box is left out. -/
theorem scene_bounds_leave_out_last_model_witness :
    updateMatricesForScreenRendering
        (windowOf [boxModel 0 1, boxModel (-2) 3, boxModel 5 9]) =
      .ok { windowOf [boxModel 0 1, boxModel (-2) 3, boxModel 5 9] with
              m_sceneBounds := ⟨⟨-2, 3⟩, ⟨-2, 3⟩, ⟨-2, 3⟩⟩ } ∧
    ∃ w1, updateMatricesForScreenRendering
          (windowOf [boxModel 0 1, boxModel (-2) 3, boxModel 5 9]) = .ok w1 ∧
      w1.m_models = (windowOf [boxModel 0 1, boxModel (-2) 3, boxModel 5 9]).m_models ∧
      ((windowOf [boxModel 0 1, boxModel (-2) 3, boxModel 5 9]).m_models = [] →
        w1 = windowOf [boxModel 0 1, boxModel (-2) 3, boxModel 5 9]) ∧
      (∀ m0, (windowOf [boxModel 0 1, boxModel (-2) 3, boxModel 5 9]).m_models = [m0] →
        w1.m_sceneBounds = m0.m_boundingBox) ∧
      (∀ m0 m1, (windowOf [boxModel 0 1, boxModel (-2) 3, boxModel 5 9]).m_models = [m0, m1] →
        w1.m_sceneBounds = m0.m_boundingBox) ∧
      (2 ≤ (windowOf [boxModel 0 1, boxModel (-2) 3, boxModel 5 9]).m_models.length →
        w1.m_sceneBounds =
            (((windowOf [boxModel 0 1, boxModel (-2) 3, boxModel 5 9]).m_models.dropLast.map
              fun m => m.m_boundingBox).tail).foldl BoundingBox.unite
              (((windowOf [boxModel 0 1, boxModel (-2) 3, boxModel 5 9]).m_models.dropLast.map
                fun m => m.m_boundingBox).headD BoundingBox.init) ∧
          UnionOf w1.m_sceneBounds
            ((windowOf [boxModel 0 1, boxModel (-2) 3, boxModel 5 9]).m_models.dropLast.map
              fun m => m.m_boundingBox)) :=
  ⟨by with_unfolding_all rfl,
    scene_bounds_leave_out_last_model (windowOf [boxModel 0 1, boxModel (-2) 3, boxModel 5 9])⟩

/-- Function `LoadMaterials` on a file that opens: the loop, then the code
after it. -/
theorem loadMaterials_eq (qt : Qt F) (fs : FileSystem) (fn : String) (lines : List String)
    (hfs : fs fn = some lines) :
    LoadMaterials qt fs fn =
      (lines.foldl (loadMaterialsLine qt) ⟨QMap.empty, "", QMap.empty⟩).result := by
  simp only [LoadMaterials, hfs, MtlState.result]

/-- No piece of a split holds a separator. -/
theorem splitChars_free (sep : Char → Bool) (cs : List Char) :
    ∀ w ∈ splitChars sep cs, ∀ c ∈ w, sep c = false := by
  induction cs with
  | nil =>
    intro w hw c hc
    simp only [splitChars, List.mem_singleton] at hw
    subst hw
    simp at hc
  | cons c0 cs ih =>
    intro w hw c hc
    simp only [splitChars] at hw
    split_ifs at hw with hsep
    · rcases List.mem_cons.mp hw with hw | hw
      · subst hw
        simp at hc
      · exact ih w hw c hc
    · cases hrec : splitChars sep cs with
      | nil => exact absurd hrec (splitChars_ne_nil sep cs)
      | cons w0 ws =>
        rw [hrec] at hw ih
        simp only [List.mem_cons] at hw
        rcases hw with hw | hw
        · subst hw
          rcases List.mem_cons.mp hc with hc | hc
          · subst hc
            simpa using hsep
          · exact ih w0 (List.mem_cons_self _ _) c hc
        · exact ih w (List.mem_cons_of_mem _ hw) c hc

/-- Splitting a separator-free word followed by more text. -/
theorem splitChars_append_free (sep : Char → Bool) (w rest : List Char)
    (hw : ∀ c ∈ w, sep c = false) (h : List Char) (t : List (List Char))
    (hrest : splitChars sep rest = h :: t) :
    splitChars sep (w ++ rest) = (w ++ h) :: t := by
  induction w with
  | nil => simpa using hrest
  | cons c cs ih =>
    have hc : sep c = false := hw c (List.mem_cons_self _ _)
    have := ih (fun c' hc' => hw c' (List.mem_cons_of_mem _ hc'))
    rw [List.cons_append]
    simp only [splitChars, hc, Bool.false_eq_true, if_false]
    rw [this]
    rfl

/-- Splitting the words of a text joined by one separator gives the words back. -/
theorem splitChars_intercalate (sep : Char → Bool) (s : Char) (hs : sep s = true)
    (ws : List (List Char)) (hne : ws ≠ [])
    (hfree : ∀ w ∈ ws, ∀ c ∈ w, sep c = false) :
    splitChars sep (List.intercalate [s] ws) = ws := by
  induction ws with
  | nil => exact absurd rfl hne
  | cons w ws ih =>
    cases ws with
    | nil =>
      have := splitChars_append_free sep w [] (hfree w (List.mem_cons_self _ _)) [] []
        (by simp [splitChars])
      simpa [List.intercalate] using this
    | cons w1 ws1 =>
      have hrec := ih (List.cons_ne_nil _ _)
        (fun w' hw' => hfree w' (List.mem_cons_of_mem _ hw'))
      have hstep : splitChars sep (s :: List.intercalate [s] (w1 :: ws1)) =
          [] :: w1 :: ws1 := by
        simp only [splitChars, hs, if_true, hrec]
      have := splitChars_append_free sep w _ (hfree w (List.mem_cons_self _ _)) _ _ hstep
      simpa [List.intercalate, List.intersperse] using this

/-- The tokens `LoadMaterials` reads are never empty strings. -/
theorem tokens_ne_empty (raw : String) (hne : (simplified raw).data.isEmpty = false) :
    ∀ t ∈ split ' ' false (simplified raw), t ≠ "" := by
  have hfree : ∀ w ∈ (splitChars isSpace raw.data).filter (fun w => !w.isEmpty),
      ∀ c ∈ w, (fun c => c == ' ') c = false := by
    intro w hw c hc
    have h1 := splitChars_free isSpace raw.data w (List.mem_filter.mp hw).1 c hc
    simp only [beq_eq_false_iff_ne, ne_eq]
    intro e
    subst e
    exact absurd h1 (by decide)
  have hws : (splitChars isSpace raw.data).filter (fun w => !w.isEmpty) ≠ [] := by
    intro e
    simp only [simplified, e] at hne
    exact absurd hne (by decide)
  intro t ht
  simp only [split, simplified, Bool.false_eq_true, if_false, List.mem_map] at ht
  obtain ⟨w, hw, rfl⟩ := ht
  rw [splitChars_intercalate (fun c => c == ' ') ' ' (by decide) _ hws hfree] at hw
  have hwne : w ≠ [] := by
    have := (List.mem_filter.mp hw).2
    intro e
    subst e
    simp at this
  intro e
  apply hwne
  have := congrArg String.data e
  simpa using this

/-- The name a `newmtl` line gives is never the empty string. -/
theorem newmtl_name_ne_empty (raw name : String) (h : classifyMtl raw = .newmtl name) :
    name ≠ "" := by
  unfold classifyMtl at h
  simp only [] at h
  by_cases h1 : (simplified raw).data.isEmpty = true
  · simp [h1] at h
  · by_cases h2 : startsWith (simplified raw) "#" = true
    · simp [h1, h2] at h
    · simp only [h1, h2, Bool.false_eq_true, if_false] at h
      have htok := tokens_ne_empty raw (by simpa using h1)
      cases hf : split ' ' false (simplified raw) with
      | nil => simp [hf] at h
      | cons type rest =>
        rw [hf] at htok
        simp only [hf] at h
        split_ifs at h
        simp only [MtlLine.newmtl.injEq] at h
        rw [← h]
        exact htok _ (List.getLast_mem _)

/-- A key a map contains has an entry, and `value` returns the value of one. -/
theorem value_of_contains {K V : Type} [DecidableEq K] (m : QMap K V) (k : K) (d : V)
    (h : m.contains k = true) : ∃ e ∈ m.entries, m.value k d = e.2 := by
  simp only [QMap.contains, List.any_eq_true] at h
  obtain ⟨e, he, hk⟩ := h
  cases hf : m.entries.find? (fun e => e.1 == k) with
  | none =>
    have := List.find?_eq_none.mp hf e he
    exact absurd hk this
  | some e1 =>
    refine ⟨e1, List.mem_of_find?_eq_some hf, ?_⟩
    simp [QMap.value, hf]

/-- The entries of a map after an assignment are the new one and old ones. -/
theorem mem_assign {K V : Type} [DecidableEq K] (m : QMap K V) (k : K) (v : V) (e : K × V)
    (h : e ∈ (m.assign k v).entries) : e = (k, v) ∨ e ∈ m.entries := by
  simp only [QMap.assign, List.mem_cons, List.mem_filter] at h
  rcases h with h | h
  · exact Or.inl h
  · exact Or.inr h.1

/-- A key a map contains after an assignment is the assigned key or was there. -/
theorem contains_assign {K V : Type} [DecidableEq K] (m : QMap K V) (k k1 : K) (v : V)
    (h : (m.assign k v).contains k1 = true) : k1 = k ∨ m.contains k1 = true := by
  by_cases e : k1 = k
  · exact Or.inl e
  · rw [contains_assign_ne m k k1 v e] at h
    exact Or.inr h

/-- One loop step of `LoadMaterials` stores no empty bag. -/
theorem loadMaterialsLine_bags (qt : Qt F) (st : MtlState F) (raw : String)
    (h : ∀ e ∈ st.ret.entries, e.2.isEmpty = false) :
    ∀ e ∈ (loadMaterialsLine qt st raw).ret.entries, e.2.isEmpty = false := by
  cases hc : classifyMtl raw with
  | skip =>
    rw [loadMaterialsLine_skip qt st raw hc]
    exact h
  | newmtl name =>
    rw [loadMaterialsLine_newmtl qt st raw name hc]
    by_cases he : st.materialProps.isEmpty = true
    · simp only [he, Bool.not_true, Bool.false_eq_true, if_false]
      exact h
    · have he1 : (!st.materialProps.isEmpty) = true := by simpa using he
      rw [if_pos he1]
      intro e hmem
      rcases mem_assign _ _ _ _ hmem with e1 | e1
      · subst e1
        simpa using he
      · exact h e e1
  | prop key tokens =>
    rw [loadMaterialsLine_prop qt st raw key tokens hc]
    exact h

/-- The loop of `LoadMaterials` stores no empty bag. -/
theorem loadMaterials_fold_bags (qt : Qt F) (lines : List String) :
    ∀ st : MtlState F, (∀ e ∈ st.ret.entries, e.2.isEmpty = false) →
      ∀ e ∈ (lines.foldl (loadMaterialsLine qt) st).ret.entries, e.2.isEmpty = false := by
  induction lines with
  | nil =>
    intro st h
    exact h
  | cons l ls ih =>
    intro st h
    exact ih _ (loadMaterialsLine_bags qt st l h)

/-- The code after the loop stores no empty bag. -/
theorem result_bags (st : MtlState F) (h : ∀ e ∈ st.ret.entries, e.2.isEmpty = false) :
    ∀ e ∈ st.result.entries, e.2.isEmpty = false := by
  unfold MtlState.result
  by_cases he : st.materialProps.isEmpty = true
  · simp only [he, Bool.not_true, Bool.false_eq_true, if_false]
    exact h
  · have he1 : (!st.materialProps.isEmpty) = true := by simpa using he
    rw [if_pos he1]
    intro e hmem
    rcases mem_assign _ _ _ _ hmem with e1 | e1
    · subst e1
      simpa using he
    · exact h e e1

/-- Lines that `LoadMaterials` skips leave its loop state as it is. -/
theorem loadMaterials_fold_skip (qt : Qt F) (gap : List String)
    (hgap : ∀ l ∈ gap, classifyMtl l = .skip) :
    ∀ st : MtlState F, gap.foldl (loadMaterialsLine qt) st = st := by
  induction gap with
  | nil =>
    intro st
    rfl
  | cons l ls ih =>
    intro st
    simp only [List.foldl_cons]
    rw [loadMaterialsLine_skip qt st l (hgap l (List.mem_cons_self _ _))]
    exact ih (fun l' hl' => hgap l' (List.mem_cons_of_mem _ hl')) st

/-- A block without property lines can be deleted from a material file without
changing what `LoadMaterials` returns. -/
theorem loadMaterials_drop_empty_block (qt : Qt F) (hdr name : String) (gap post : List String)
    (hhdr : classifyMtl hdr = .newmtl name) (hgap : ∀ l ∈ gap, classifyMtl l = .skip)
    (hend : post = [] ∨ ∃ l n rest, post = l :: rest ∧ classifyMtl l = .newmtl n)
    (st : MtlState F) :
    ((hdr :: gap ++ post).foldl (loadMaterialsLine qt) st).result =
      (post.foldl (loadMaterialsLine qt) st).result := by
  have hfold : (hdr :: gap ++ post).foldl (loadMaterialsLine qt) st =
      post.foldl (loadMaterialsLine qt) (loadMaterialsLine qt st hdr) := by
    rw [List.cons_append, List.foldl_cons, List.foldl_append, loadMaterials_fold_skip qt gap hgap]
  rw [hfold, loadMaterialsLine_newmtl qt st hdr name hhdr]
  rcases hend with hend | ⟨l, n, rest, hend, hn⟩
  · subst hend
    simp only [List.foldl_nil, MtlState.result]
    by_cases he : st.materialProps.isEmpty = true
    · simp [he]
    · have he1 : (!st.materialProps.isEmpty) = true := by simpa using he
      simp only [he1, if_true]
      rfl
  · subst hend
    simp only [List.foldl_cons]
    congr 2
    rw [loadMaterialsLine_newmtl _ _ l n hn, loadMaterialsLine_newmtl qt st l n hn]
    by_cases he : st.materialProps.isEmpty = true
    · simp [he]
    · have he1 : (!st.materialProps.isEmpty) = true := by simpa using he
      simp only [he1, if_true]
      rfl

/-- Every key of the loop state of `LoadMaterials`, and the name of the open
block, is the empty name or the name of a `newmtl` line. -/
theorem loadMaterials_fold_keys (qt : Qt F) (P : String → Prop) (lines : List String)
    (hP : ∀ l ∈ lines, ∀ n, classifyMtl l = .newmtl n → P n) :
    ∀ st : MtlState F, ((∀ k, st.ret.contains k = true → P k) ∧ P st.materialName) →
      (∀ k, (lines.foldl (loadMaterialsLine qt) st).ret.contains k = true → P k) ∧
        P (lines.foldl (loadMaterialsLine qt) st).materialName := by
  induction lines with
  | nil =>
    intro st h
    exact h
  | cons l ls ih =>
    intro st h
    simp only [List.foldl_cons]
    apply ih (fun l' hl' => hP l' (List.mem_cons_of_mem _ hl'))
    cases hc : classifyMtl l with
    | skip =>
      rw [loadMaterialsLine_skip qt st l hc]
      exact h
    | newmtl name =>
      rw [loadMaterialsLine_newmtl qt st l name hc]
      refine ⟨?_, hP l (List.mem_cons_self _ _) name hc⟩
      by_cases he : st.materialProps.isEmpty = true
      · simp only [he, Bool.not_true, Bool.false_eq_true, if_false]
        exact h.1
      · have he1 : (!st.materialProps.isEmpty) = true := by simpa using he
        rw [if_pos he1]
        intro k hk
        rcases contains_assign _ _ _ _ hk with e | e
        · rw [e]
          exact h.2
        · exact h.1 k e
    | prop key tokens =>
      rw [loadMaterialsLine_prop qt st l key tokens hc]
      exact h

/-- Every key of the map `LoadMaterials` builds from `lines` is the empty name
or the name of a `newmtl` line of `lines`. -/
theorem loadMaterials_keys (qt : Qt F) (lines : List String) (k : String)
    (h : (lines.foldl (loadMaterialsLine qt) ⟨QMap.empty, "", QMap.empty⟩).result.contains k
      = true) :
    k = "" ∨ ∃ l ∈ lines, classifyMtl l = .newmtl k := by
  obtain ⟨h1, h2⟩ := loadMaterials_fold_keys qt
    (fun k => k = "" ∨ ∃ l ∈ lines, classifyMtl l = .newmtl k) lines
    (fun l hl n hn => Or.inr ⟨l, hl, hn⟩) ⟨QMap.empty, "", QMap.empty⟩
    ⟨fun k hk => by simp [QMap.contains, QMap.empty] at hk, Or.inl rfl⟩
  unfold MtlState.result at h
  split_ifs at h
  · rcases contains_assign _ _ _ _ h with e | e
    · rw [e]
      exact h2
    · exact h1 k e
  · exact h1 k h

/-- A block that is open with no property stored yet and then gets at least
one property line is stored under its name, provided no later block repeats
the name. -/
theorem loadMaterials_block_result (qt : Qt F) (sth : MtlState F) (body post : List String)
    (hempty : sth.materialProps.isEmpty = true)
    (hbody : ∀ l ∈ body, ∀ n, classifyMtl l ≠ .newmtl n)
    (hprop : ∃ l ∈ body, ∃ k t, classifyMtl l = .prop k t)
    (hend : post = [] ∨ ∃ l n rest, post = l :: rest ∧ classifyMtl l = .newmtl n)
    (hdistinct : ∀ l ∈ post, classifyMtl l ≠ .newmtl sth.materialName) :
    ((body ++ post).foldl (loadMaterialsLine qt) sth).result.contains sth.materialName = true ∧
    ∀ key,
      (((body ++ post).foldl (loadMaterialsLine qt) sth).result.value sth.materialName
          QMap.empty).value key [] =
          ((lastProp key body).map fun tokens => tokens.map qt.toFloat).getD [] ∧
      (((body ++ post).foldl (loadMaterialsLine qt) sth).result.value sth.materialName
          QMap.empty).contains key = (lastProp key body).isSome := by
  obtain ⟨name, hh1⟩ : ∃ name, sth.materialName = name := ⟨_, rfl⟩
  rw [hh1] at hdistinct ⊢
  obtain ⟨b1, b2, b3, b4, b5⟩ := mtl_body_fold qt body hbody sth
  obtain ⟨stb, hstb⟩ : ∃ stb : MtlState F, stb = body.foldl (loadMaterialsLine qt) sth :=
    ⟨_, rfl⟩
  rw [← hstb] at b1 b2 b3 b4 b5
  have hne : stb.materialProps.isEmpty = false := b5 (Or.inr hprop)
  have hval : ∀ key, stb.materialProps.value key [] =
      ((lastProp key body).map fun tokens => tokens.map qt.toFloat).getD [] := by
    intro key
    rw [b3 key]
    cases lastProp key body with
    | some t => rfl
    | none => exact (value_of_isEmpty _ key [] hempty).1
  have hcon : ∀ key, stb.materialProps.contains key = (lastProp key body).isSome := by
    intro key
    rw [b4 key, (value_of_isEmpty _ key ([] : List F) hempty).2, Bool.or_false]
  have hname : stb.materialName = name := by rw [b2, hh1]
  have key : ((body ++ post).foldl (loadMaterialsLine qt) sth).result.contains name = true ∧
      ((body ++ post).foldl (loadMaterialsLine qt) sth).result.value name QMap.empty =
        stb.materialProps := by
    rw [List.foldl_append, ← hstb]
    unfold MtlState.result
    rcases hend with hend | ⟨l, n, rest, hend, hn⟩
    · subst hend
      simp only [List.foldl_nil, hne, Bool.not_false, if_true, hname]
      exact ⟨contains_assign_self _ _ _, value_assign_self _ _ _ _⟩
    · subst hend
      have hnn : n ≠ name := by
        intro e
        subst e
        exact hdistinct l (List.mem_cons_self _ _) hn
      simp only [List.foldl_cons]
      rw [loadMaterialsLine_newmtl qt stb l n hn]
      simp only [hne, Bool.not_false, if_true]
      obtain ⟨p1, p2, p3⟩ := mtl_post_fold qt name rest
        (fun l' hl' => hdistinct l' (List.mem_cons_of_mem _ hl'))
        { ret := stb.ret.assign stb.materialName stb.materialProps, materialName := n,
          materialProps := QMap.empty } hnn
      simp only [hname] at p1 p2 p3 ⊢
      rw [value_assign_self] at p2
      rw [contains_assign_self] at p3
      split_ifs
      · exact ⟨by rw [contains_assign_ne _ _ _ _ (fun e => p1 e.symm)]; exact p3,
          by rw [value_assign_ne _ _ _ _ _ (fun e => p1 e.symm)]; exact p2⟩
      · exact ⟨p3, p2⟩
  refine ⟨key.1, fun k => ?_⟩
  rw [key.2]
  exact ⟨hval k, hcon k⟩

/-- C28: for every material file, no name in the map `LoadMaterials` returns
maps to an empty property bag.  A `newmtl` block with no property lines is
absent from the result: the map is the one the file without the block gives,
and it does not contain the name of the block unless another `newmtl` line
carries the same name.  Property lines that precede the first `newmtl` line
are stored under the empty name. -/
theorem no_material_maps_to_empty_bag (qt : Qt F) (fs : FileSystem) (mtlFileName : String) :
    (∀ name, (LoadMaterials qt fs mtlFileName).contains name = true →
      ((LoadMaterials qt fs mtlFileName).value name QMap.empty).isEmpty = false) ∧
    (∀ (pre gap post : List String) (hdr name : String),
      fs mtlFileName = some (pre ++ hdr :: gap ++ post) →
      classifyMtl hdr = .newmtl name →
      (∀ l ∈ gap, classifyMtl l = .skip) →
      (post = [] ∨ ∃ l n rest, post = l :: rest ∧ classifyMtl l = .newmtl n) →
      LoadMaterials qt fs mtlFileName =
          LoadMaterials qt (oneFile mtlFileName (pre ++ post)) mtlFileName ∧
        ((∀ l ∈ pre ++ post, classifyMtl l ≠ .newmtl name) →
          (LoadMaterials qt fs mtlFileName).contains name = false)) ∧
    (∀ pre rest : List String,
      fs mtlFileName = some (pre ++ rest) →
      (∀ l ∈ pre, ∀ n, classifyMtl l ≠ .newmtl n) →
      (∃ l ∈ pre, ∃ k t, classifyMtl l = .prop k t) →
      (rest = [] ∨ ∃ l n r, rest = l :: r ∧ classifyMtl l = .newmtl n) →
      (LoadMaterials qt fs mtlFileName).contains "" = true ∧
        ∀ key,
          ((LoadMaterials qt fs mtlFileName).value "" QMap.empty).value key [] =
              ((lastProp key pre).map fun tokens => tokens.map qt.toFloat).getD [] ∧
          ((LoadMaterials qt fs mtlFileName).value "" QMap.empty).contains key =
              (lastProp key pre).isSome) := by
  refine ⟨?_, ?_, ?_⟩
  · intro name hc
    obtain ⟨e, he, hv⟩ := value_of_contains _ name QMap.empty hc
    rw [hv]
    cases hfs : fs mtlFileName with
    | none =>
      simp [LoadMaterials, hfs, QMap.contains, QMap.empty] at hc
    | some lines =>
      rw [loadMaterials_eq qt fs mtlFileName lines hfs] at he
      exact result_bags _
        (loadMaterials_fold_bags qt lines _ (by simp [QMap.empty])) e he
  · intro pre gap post hdr name hfs hhdr hgap hend
    have heq : LoadMaterials qt fs mtlFileName =
        LoadMaterials qt (oneFile mtlFileName (pre ++ post)) mtlFileName := by
      rw [loadMaterials_eq qt fs mtlFileName _ hfs,
        loadMaterials_eq qt (oneFile mtlFileName (pre ++ post)) mtlFileName (pre ++ post)
          (by simp [oneFile])]
      have := loadMaterials_drop_empty_block qt hdr name gap post hhdr hgap hend
        (pre.foldl (loadMaterialsLine qt) ⟨QMap.empty, "", QMap.empty⟩)
      simp only [List.foldl_append] at this ⊢
      exact this
    refine ⟨heq, ?_⟩
    intro hother
    rw [heq, loadMaterials_eq qt (oneFile mtlFileName (pre ++ post)) mtlFileName (pre ++ post)
      (by simp [oneFile])]
    cases hcon : ((pre ++ post).foldl (loadMaterialsLine qt)
        ⟨QMap.empty, "", QMap.empty⟩).result.contains name with
    | false => rfl
    | true =>
      exfalso
      rcases loadMaterials_keys qt (pre ++ post) name hcon with e | ⟨l, hl, hn⟩
      · exact newmtl_name_ne_empty hdr name hhdr e
      · exact hother l hl hn
  · intro pre rest hfs hpre hprop hend
    rw [loadMaterials_eq qt fs mtlFileName _ hfs]
    exact loadMaterials_block_result qt ⟨QMap.empty, "", QMap.empty⟩ pre rest rfl hpre hprop
      hend (fun l _ hn => newmtl_name_ne_empty l "" hn rfl)

/-- The file `materialText`: its three names map to bags with a property; the
block `bare` has no property line and is absent; the line `Ka 1 1 1` ahead of
the first block is stored under the empty name. -/
theorem no_material_maps_to_empty_bag_witness :
    (LoadMaterials refQt materialFile "/m/t.mtl").entries.map (fun e => e.1) =
      ["steel", "paint", ""] ∧
    (∀ name, (LoadMaterials refQt materialFile "/m/t.mtl").contains name = true →
      ((LoadMaterials refQt materialFile "/m/t.mtl").value name QMap.empty).isEmpty = false) ∧
    (LoadMaterials refQt materialFile "/m/t.mtl" =
        LoadMaterials refQt (oneFile "/m/t.mtl"
          (["# materials\n", "Ka 1 1 1\n",
            "newmtl paint\n", "Kd 1 0 0\n", "Ns 10\n", "\n", "Kd 0 1 0 0.5\n"] ++
            ["newmtl steel\n", "Ns 100\n"])) "/m/t.mtl" ∧
      ((∀ l ∈ ["# materials\n", "Ka 1 1 1\n",
            "newmtl paint\n", "Kd 1 0 0\n", "Ns 10\n", "\n", "Kd 0 1 0 0.5\n"] ++
            ["newmtl steel\n", "Ns 100\n"], classifyMtl l ≠ .newmtl "bare") →
        (LoadMaterials refQt materialFile "/m/t.mtl").contains "bare" = false)) ∧
    ((LoadMaterials refQt materialFile "/m/t.mtl").contains "" = true ∧
      ∀ key,
        ((LoadMaterials refQt materialFile "/m/t.mtl").value "" QMap.empty).value key [] =
            ((lastProp key ["# materials\n", "Ka 1 1 1\n"]).map
              fun tokens => tokens.map refQt.toFloat).getD [] ∧
        ((LoadMaterials refQt materialFile "/m/t.mtl").value "" QMap.empty).contains key =
            (lastProp key ["# materials\n", "Ka 1 1 1\n"]).isSome) :=
  ⟨by with_unfolding_all rfl,
    (no_material_maps_to_empty_bag refQt materialFile "/m/t.mtl").1,
    (no_material_maps_to_empty_bag refQt materialFile "/m/t.mtl").2.1
      ["# materials\n", "Ka 1 1 1\n",
        "newmtl paint\n", "Kd 1 0 0\n", "Ns 10\n", "\n", "Kd 0 1 0 0.5\n"]
      [] ["newmtl steel\n", "Ns 100\n"] "newmtl bare\n" "bare"
      (by decide) (by decide) (by simp)
      (Or.inr ⟨"newmtl steel\n", "steel", ["Ns 100\n"], rfl, by decide⟩),
    (no_material_maps_to_empty_bag refQt materialFile "/m/t.mtl").2.2
      ["# materials\n", "Ka 1 1 1\n"]
      ["newmtl paint\n", "Kd 1 0 0\n", "Ns 10\n", "\n", "Kd 0 1 0 0.5\n",
        "newmtl bare\n", "newmtl steel\n", "Ns 100\n"]
      (by decide)
      (by
        intro l hl n
        simp only [List.mem_cons, List.mem_singleton, List.not_mem_nil, or_false] at hl
        rcases hl with rfl | rfl
        · rw [show classifyMtl "# materials\n" = .skip by decide]
          simp
        · rw [show classifyMtl "Ka 1 1 1\n" = .prop "Ka" ["1", "1", "1"] by decide]
          simp)
      ⟨"Ka 1 1 1\n", by simp, "Ka", ["1", "1", "1"], by decide⟩
      (Or.inr ⟨"newmtl paint\n", "paint", _, rfl, by decide⟩)⟩

/-- The `o` branch of the loop. -/
theorem loadLine_object (qt : Qt F) (fs : FileSystem) (fn : String) (st : LoadState F)
    (raw : String) (ho : isObjectLine raw = true) :
    loadLine qt fs fn st raw =
      .ok { st with
              m_parts :=
                if st.currentPart.isValid then st.m_parts ++ [st.currentPart] else st.m_parts
              currentPart := { (Part.init : Part F) with type := GL_TRIANGLES } } := by
  simp only [isObjectLine, Bool.and_eq_true, Bool.not_eq_true', decide_eq_true_eq] at ho
  obtain ⟨hs, hhead⟩ := ho
  cases hf : fieldsOf raw with
  | nil => simp [hf] at hhead
  | cons type rest =>
    simp only [hf, List.head?_cons, Option.some.injEq] at hhead
    subst hhead
    simp only [loadLine, hs, Bool.false_eq_true, if_false, hf, loadFields]
    rw [if_neg (by decide), if_pos True.intro]

/-- One loop step keeps every part, stored or current, at or after index `n`
once that holds. -/
theorem loadLine_startsFrom (qt : Qt F) (fs : FileSystem) (fn : String) (st st1 : LoadState F)
    (raw : String) (n : Int) (h : loadLine qt fs fn st raw = .ok st1)
    (hinv : (∀ p ∈ st.m_parts, n ≤ p.start) ∧ (0 ≤ st.currentPart.start → n ≤ st.currentPart.start)
      ∧ n ≤ (st.indexes.length : Int)) :
    (∀ p ∈ st1.m_parts, n ≤ p.start) ∧ (0 ≤ st1.currentPart.start → n ≤ st1.currentPart.start)
      ∧ n ≤ (st1.indexes.length : Int) := by
  obtain ⟨i1, i2, i3⟩ := hinv
  rcases loadLine_inv qt fs fn st st1 raw h with h | ⟨mats, h⟩ | h | ⟨props, part, hp, h⟩ |
    ⟨type, rest, -, -, -, h⟩ | ⟨a, b, c, na, nb, nc, h⟩
  · subst h
    exact ⟨i1, i2, i3⟩
  · subst h
    exact ⟨i1, i2, i3⟩
  · subst h
    refine ⟨?_, fun hc => by simp [Part.init] at hc, i3⟩
    intro p hp
    simp only at hp
    split_ifs at hp with hv
    · rcases List.mem_append.mp hp with hp | hp
      · exact i1 p hp
      · simp only [List.mem_singleton] at hp
        subst hp
        apply i2
        simp only [Part.isValid, Bool.and_eq_true, decide_eq_true_eq] at hv
        exact hv.1.1
    · exact i1 p hp
  · subst h
    obtain ⟨-, f2, -⟩ := useMaterial_frame qt props _ _ hp
    refine ⟨i1, ?_, i3⟩
    simp only [f2]
    exact i2
  · obtain ⟨f1, -, f3, f4, -⟩ := addVertex_frame qt st st1 type _ h
    rw [f1, f3, f4]
    exact ⟨i1, i2, i3⟩
  · obtain ⟨f1, -, -, -, -, -, f7, -, f9⟩ := appendFace_frame st st1 a b c na nb nc h
    rw [f1, f7, f9]
    refine ⟨i1, ?_, by push_cast; omega⟩
    intro _
    split_ifs with hneg
    · exact i3
    · exact i2 (not_lt.mp hneg)

/-- The loop keeps every part at or after index `n` once that holds. -/
theorem parseLines_startsFrom (qt : Qt F) (fs : FileSystem) (fn : String) (n : Int)
    (lines : List String) :
    ∀ (st st1 : LoadState F), parseLines qt fs fn st lines = .ok st1 →
      ((∀ p ∈ st.m_parts, n ≤ p.start) ∧ (0 ≤ st.currentPart.start → n ≤ st.currentPart.start)
        ∧ n ≤ (st.indexes.length : Int)) →
      (∀ p ∈ st1.m_parts, n ≤ p.start) ∧ (0 ≤ st1.currentPart.start → n ≤ st1.currentPart.start)
        ∧ n ≤ (st1.indexes.length : Int) := by
  induction lines with
  | nil =>
    intro st st1 h hinv
    simp only [parseLines, Except.ok.injEq] at h
    subst h
    exact hinv
  | cons l ls ih =>
    intro st st1 h hinv
    simp only [parseLines] at h
    cases hl : loadLine qt fs fn st l with
    | error e => simp [hl] at h
    | ok st2 =>
      simp only [hl] at h
      exact ih st2 st1 h (loadLine_startsFrom qt fs fn st st2 l n hl hinv)

/-- C25: faces accepted before the first `o` line add three vertices and
three indices each but belong to no part: the part they are counted in keeps
type 0 and is never valid, so it is not stored, and every part of the model
starts at or after the indices of those faces.  A mesh with faces and no `o`
line yields an empty part list, and `render` draws nothing. -/
theorem faces_before_first_object_belong_to_no_part (qt : Qt F) (fs : FileSystem)
    (fileName : String) (front back : List String) (m : ObjModel F)
    (hfs : fs fileName = some (front ++ back))
    (hfront : ∀ l ∈ front, isObjectLine l = false)
    (hback : back = [] ∨ ∃ l rest, back = l :: rest ∧ isObjectLine l = true)
    (h : ObjModel.create qt fs fileName = .ok m) :
    ∃ st0, parseLines qt fs fileName (LoadState.init ObjModel.init) front = .ok st0 ∧
      st0.uncompressed.geometry.length =
        3 * acceptedFaces qt fs fileName (LoadState.init ObjModel.init) front ∧
      st0.indexes.length =
        3 * acceptedFaces qt fs fileName (LoadState.init ObjModel.init) front ∧
      st0.currentPart.type = 0 ∧ st0.currentPart.isValid = false ∧ st0.m_parts = [] ∧
      (∀ p ∈ m.m_parts, (st0.indexes.length : Int) ≤ p.start) ∧
      (back = [] → m.m_indexBuffer = some st0.indexes ∧ m.m_parts = [] ∧
        ∀ rs : Renderers, ObjModel.render qt rs m = .ok (rs, m, [])) := by
  obtain ⟨st, hp, hm⟩ := (load_ok_iff qt fs ObjModel.init m fileName _ hfs).mp h
  obtain ⟨st0, h0, hrest⟩ := (parseLines_append qt fs fileName front back _ st).mp hp
  obtain ⟨c1, c2, -⟩ := parseLines_counts qt fs fileName front _ st0 0 h0
    (by simp [LoadState.init]) (by simp [LoadState.init]) (by simp [LoadState.init])
  obtain ⟨r1, r2, -, -⟩ := parseLines_run qt fs fileName front _ st0 h0 hfront
  have htype : st0.currentPart.type = 0 := by
    rw [r2]
    rfl
  have hvalid : st0.currentPart.isValid = false := by
    simp [Part.isValid, htype]
  have hnone : st0.m_parts = [] := by
    rw [r1]
    rfl
  have hparts : ∀ p ∈ (if st.currentPart.isValid then st.m_parts ++ [st.currentPart]
      else st.m_parts), (st0.indexes.length : Int) ≤ p.start := by
    rcases hback with hb | ⟨l, rest, hb, ho⟩
    · subst hb
      simp only [parseLines, Except.ok.injEq] at hrest
      subst hrest
      simp [hvalid, hnone]
    · subst hb
      simp only [parseLines, loadLine_object qt fs fileName st0 l ho] at hrest
      obtain ⟨j1, j2, -⟩ := parseLines_startsFrom qt fs fileName (st0.indexes.length : Int)
        rest _ st hrest
        ⟨by simp [hvalid, hnone], fun hc => by simp [Part.init] at hc, le_refl _⟩
      intro p hmem
      split_ifs at hmem with hv
      · rcases List.mem_append.mp hmem with hmem | hmem
        · exact j1 p hmem
        · simp only [List.mem_singleton] at hmem
          subst hmem
          apply j2
          simp only [Part.isValid, Bool.and_eq_true, decide_eq_true_eq] at hv
          exact hv.1.1
      · exact j1 p hmem
  refine ⟨st0, h0, by simpa using c2, by simpa using c1, htype, hvalid, hnone, ?_, ?_⟩
  · intro p hmem
    rw [hm] at hmem
    simp only [finishLoad, mem_stdSort] at hmem
    exact hparts p hmem
  · intro hb
    subst hb
    simp only [parseLines, Except.ok.injEq] at hrest
    subst hrest
    have hempty : m.m_parts = [] := by
      rw [hm]
      simp only [finishLoad, hvalid, Bool.false_eq_true, if_false, hnone]
      rfl
    refine ⟨by rw [hm]; rfl, hempty, fun rs => render_of_null qt rs m (Or.inr (Or.inr hempty))⟩

/-- The worked example without its `o` line, alone and followed by `o body`
and a second face: alone it makes no part; followed by them it makes one part,
which starts at index 3, after the three indices of the first face. -/
theorem faces_before_first_object_belong_to_no_part_witness :
    acceptedFaces refQt (oneFile meshPath noObjectText) meshPath
      (LoadState.init ObjModel.init) noObjectText = 1 ∧
    ObjModel.create refQt (oneFile meshPath noObjectText) meshPath =
      .ok { triangleModel with m_parts := [] } ∧
    ObjModel.create refQt
        (oneFile meshPath (noObjectText ++ ["o body\n", "f 3/1/1 2/1/1 1/1/1\n"])) meshPath =
      .ok { twoPartsModel with
              m_parts := [{ (Part.init : Part ℚ) with
                              type := GL_TRIANGLES, start := 3, length := 3 }] } ∧
    ∃ st0, parseLines refQt
          (oneFile meshPath (noObjectText ++ ["o body\n", "f 3/1/1 2/1/1 1/1/1\n"])) meshPath
          (LoadState.init ObjModel.init) noObjectText = .ok st0 ∧
      st0.uncompressed.geometry.length =
        3 * acceptedFaces refQt
          (oneFile meshPath (noObjectText ++ ["o body\n", "f 3/1/1 2/1/1 1/1/1\n"])) meshPath
          (LoadState.init ObjModel.init) noObjectText ∧
      st0.indexes.length =
        3 * acceptedFaces refQt
          (oneFile meshPath (noObjectText ++ ["o body\n", "f 3/1/1 2/1/1 1/1/1\n"])) meshPath
          (LoadState.init ObjModel.init) noObjectText ∧
      st0.currentPart.type = 0 ∧ st0.currentPart.isValid = false ∧ st0.m_parts = [] ∧
      (∀ p ∈ ({ twoPartsModel with
                  m_parts := [{ (Part.init : Part ℚ) with
                                  type := GL_TRIANGLES, start := 3, length := 3 }] }
                : ObjModel ℚ).m_parts,
        (st0.indexes.length : Int) ≤ p.start) ∧
      (["o body\n", "f 3/1/1 2/1/1 1/1/1\n"] = [] →
        ({ twoPartsModel with
             m_parts := [{ (Part.init : Part ℚ) with
                             type := GL_TRIANGLES, start := 3, length := 3 }] }
          : ObjModel ℚ).m_indexBuffer = some st0.indexes ∧
        ({ twoPartsModel with
             m_parts := [{ (Part.init : Part ℚ) with
                             type := GL_TRIANGLES, start := 3, length := 3 }] }
          : ObjModel ℚ).m_parts = [] ∧
        ∀ rs : Renderers,
          ObjModel.render refQt rs
              { twoPartsModel with
                  m_parts := [{ (Part.init : Part ℚ) with
                                  type := GL_TRIANGLES, start := 3, length := 3 }] } =
            .ok (rs,
              { twoPartsModel with
                  m_parts := [{ (Part.init : Part ℚ) with
                                  type := GL_TRIANGLES, start := 3, length := 3 }] }, [])) :=
  ⟨by with_unfolding_all rfl, by with_unfolding_all rfl, by with_unfolding_all rfl,
    faces_before_first_object_belong_to_no_part refQt
      (oneFile meshPath (noObjectText ++ ["o body\n", "f 3/1/1 2/1/1 1/1/1\n"])) meshPath
      noObjectText ["o body\n", "f 3/1/1 2/1/1 1/1/1\n"]
      { twoPartsModel with
          m_parts := [{ (Part.init : Part ℚ) with
                          type := GL_TRIANGLES, start := 3, length := 3 }] }
      (by decide) (by decide)
      (Or.inr ⟨"o body\n", ["f 3/1/1 2/1/1 1/1/1\n"], rfl, by decide⟩)
      (by with_unfolding_all rfl)⟩

end Properties

end BikeShadows

/-! ## Properties of the screen ruler -/

namespace ScreenRulerMarks

/-- A call of `mark()` or of `clearMarks()` keeps the number of marks at or
below 20. -/
theorem apply_length_le {R : Type} (this : ScreenRuler R) (op : MarkOp R)
    (h : this.m_marks.length ≤ 20) : (this.apply op).m_marks.length ≤ 20 := by
  cases op with
  | mark pos =>
    simp only [ScreenRuler.apply, ScreenRuler.mark]
    by_cases hfull : this.m_marks.length ≥ 20
    · rw [if_pos hfull]
      exact h
    · rw [if_neg hfull]
      simp only [List.length_append, List.length_singleton]
      omega
  | clearMarks => simp [ScreenRuler.apply, ScreenRuler.clearMarks]

/-- A sequence of calls keeps the number of marks at or below 20. -/
theorem run_length_le {R : Type} (ops : List (MarkOp R)) :
    ∀ this : ScreenRuler R, this.m_marks.length ≤ 20 → (this.run ops).m_marks.length ≤ 20 := by
  induction ops with
  | nil =>
    intro this h
    exact h
  | cons op ops ih =>
    intro this h
    exact ih (this.apply op) (apply_length_le this op h)

/-- C30: in every state of the ruler reached from a fresh ruler through calls
of `mark()` and `clearMarks()` the mark list holds at most 20 marks; `mark()`
appends exactly one mark, the cursor coordinate along the ruler, when fewer
than 20 are held and changes nothing otherwise, and `clearMarks()` empties the
list. -/
theorem ruler_holds_at_most_twenty_marks {R : Type} (ops : List (MarkOp R)) :
    ((ScreenRuler.init : ScreenRuler R).run ops).m_marks.length ≤ 20 ∧
    (∀ (this : ScreenRuler R) (pos : QPointF R), this.m_marks.length < 20 →
      (this.mark pos).m_marks =
          this.m_marks ++ [if this.m_orientation = .Horizontal then pos.x else pos.y] ∧
        (this.mark pos).m_marks.length = this.m_marks.length + 1 ∧
        (this.mark pos).m_orientation = this.m_orientation) ∧
    (∀ (this : ScreenRuler R) (pos : QPointF R), 20 ≤ this.m_marks.length →
      this.mark pos = this) ∧
    (∀ this : ScreenRuler R, this.clearMarks.m_marks = [] ∧
      this.clearMarks.m_orientation = this.m_orientation) := by
  refine ⟨run_length_le ops _ (by simp [ScreenRuler.init]), ?_, ?_, fun this => ⟨rfl, rfl⟩⟩
  · intro this pos h
    have hn : ¬ this.m_marks.length ≥ 20 := by omega
    simp [ScreenRuler.mark, hn]
  · intro this pos h
    simp [ScreenRuler.mark, h]

/-- Twenty-one calls of `mark()` on a fresh ruler leave 20 marks; a call of
`clearMarks()` after them leaves none. -/
theorem ruler_holds_at_most_twenty_marks_witness :
    ((ScreenRuler.init : ScreenRuler Int).run
      (List.replicate 21 (MarkOp.mark ⟨3, 4⟩))).m_marks = List.replicate 20 3 ∧
    ((ScreenRuler.init : ScreenRuler Int).run
      (List.replicate 21 (MarkOp.mark ⟨3, 4⟩) ++ [MarkOp.clearMarks])).m_marks = [] ∧
    ((ScreenRuler.init : ScreenRuler Int).run
      (List.replicate 21 (MarkOp.mark ⟨3, 4⟩))).m_marks.length ≤ 20 :=
  ⟨by decide, by decide,
    (ruler_holds_at_most_twenty_marks (List.replicate 21 (MarkOp.mark (⟨3, 4⟩ : QPointF Int)))).1⟩

end ScreenRulerMarks
